import Mathlib

/-!
Verification of distill-feed's core components against their specification.

The Python sources under `src/distill_feed/` are shallowly embedded:
pure functions become Lean functions, the filesystem and the network become
explicit oracle parameters, Python `datetime` values become their (integer)
POSIX timestamps, and Python exceptions become `Except`/`Option` results.
Each definition mirrors one Python function and is named after it.
-/

namespace DF

/-! ### Python string primitives

`pyIsSpace` is the character class of Python `str.strip()` / `str.isspace()`.
`pyLowerChar` models `str.lower()` on the ASCII range (the sources only
compare against ASCII constants; Unicode special casing is not modelled).
-/

def pyIsSpace (c : Char) : Bool :=
  let n := c.toNat
  (9 ≤ n && n ≤ 13) || n == 32 || (28 ≤ n && n ≤ 31) || n == 0x85 || n == 0xa0 ||
  n == 0x1680 || (0x2000 ≤ n && n ≤ 0x200a) || n == 0x2028 || n == 0x2029 ||
  n == 0x202f || n == 0x205f || n == 0x3000

def dropTrailing (p : Char → Bool) (l : List Char) : List Char :=
  (l.reverse.dropWhile p).reverse

def pyStripList (l : List Char) : List Char :=
  dropTrailing pyIsSpace (l.dropWhile pyIsSpace)

def pyStrip (s : String) : String := ⟨pyStripList s.data⟩

def pyLowerChar (c : Char) : Char :=
  if 65 ≤ c.toNat && c.toNat ≤ 90 then Char.ofNat (c.toNat + 32) else c

def pyLowerList (l : List Char) : List Char := l.map pyLowerChar

def pyLower (s : String) : String := ⟨pyLowerList s.data⟩

/-- Python `pattern in s` for strings (substring containment). -/
def strContains (s pat : String) : Bool := decide (pat.data <:+: s.data)

/-! ### `cache.py` — `FileCache`

The filesystem is a list of `(path, content)` pairs (later writes shadow
earlier ones) together with two oracles saying which paths fail on read and
on write (`OSError`).  `cache_key` is `sha256(url + discriminator)` in the
source; the model keys entries by the digest's preimage `url ++ discriminator`
itself, which identifies exactly the same entries up to hash collisions. -/

structure CacheFS where
  entries : List (String × String)
  readFails : String → Bool
  writeFails : String → Bool

def cacheKey (url disc : String) : String := url ++ disc

/-- The per-namespace file extension of `FileCache._path_for`. -/
def nsExt (ns : String) : String :=
  if ns == "html" then ".html"
  else if ns == "text" then ".txt"
  else if ns == "summary" then ".json"
  else if ns == "meta" then ".json"
  else ".txt"

def pathFor (ns url disc : String) : String :=
  ns ++ "/" ++ cacheKey url disc ++ nsExt ns

def fsLookup (entries : List (String × String)) (p : String) : Option String :=
  (entries.find? (fun e => e.1 == p)).map (fun e => e.2)

/-- `FileCache.get`: absent when the file is missing, absent when reading
raises `OSError`. -/
def cacheGet (fs : CacheFS) (ns url disc : String) : Option String :=
  match fsLookup fs.entries (pathFor ns url disc) with
  | none => none
  | some c => if fs.readFails (pathFor ns url disc) then none else some c

/-- `FileCache.put`: an html payload over `max_html_bytes` UTF-8 bytes is
silently discarded; a failing write (`OSError`) is swallowed. -/
def cachePut (maxHtmlBytes : Nat) (fs : CacheFS) (ns url data disc : String) : CacheFS :=
  if ns == "html" && data.utf8ByteSize > maxHtmlBytes then fs
  else if fs.writeFails (pathFor ns url disc) then fs
  else ⟨(pathFor ns url disc, data) :: fs.entries, fs.readFails, fs.writeFails⟩

/-! ### `models.py` — the data model used by the selector and deduplicator -/

inductive SourceType
  | feed
  | direct
  deriving DecidableEq

structure FeedItem where
  url : String
  normalized_url : String
  title : Option String
  feed_title : Option String
  published : Option Int
  updated : Option Int
  source_type : SourceType
  deriving DecidableEq

/-- `FeedItem.sort_date = published or updated` (datetimes are always truthy,
so Python `or` is `Option.orElse` here). -/
def FeedItem.sort_date (i : FeedItem) : Option Int :=
  i.published.orElse (fun _ => i.updated)

structure SkippedItem where
  url : String
  normalized_url : String
  title : Option String
  feed_title : Option String
  date : Option Int
  reason : String
  deriving DecidableEq

/-! ### `ingestion/selector.py` -/

/-- `_sort_key`: `(1, 0.0, url)` for undated items, `(0, -timestamp, url)`
for dated ones.  Timestamps are modelled as integers (`datetime.timestamp()`
is injective and monotone on datetimes at this precision). -/
def sortKey (i : FeedItem) : Nat × Int × String :=
  match i.sort_date with
  | none => (1, 0, i.normalized_url)
  | some d => (0, -d, i.normalized_url)

/-- Python's lexicographic `<=` on the `(int, float, str)` sort-key tuples. -/
def keyLe (a b : Nat × Int × String) : Bool :=
  a.1 < b.1 || (a.1 == b.1 && (a.2.1 < b.2.1 || (a.2.1 == b.2.1 && decide (a.2.2 ≤ b.2.2))))

def itemLe (a b : FeedItem) : Bool := keyLe (sortKey a) (sortKey b)

def mkSkip (i : FeedItem) (reason : String) : SkippedItem :=
  ⟨i.url, i.normalized_url, i.title, i.feed_title, i.sort_date, reason⟩

/-- The sort key a `SkippedItem` record carries (for relating capped-out
records to selected items). -/
def skKey (sk : SkippedItem) : Nat × Int × String :=
  match sk.date with
  | none => (1, 0, sk.normalized_url)
  | some d => (0, -d, sk.normalized_url)

/-- The guard `since_dt and item_date and dated < since_dt` of the selection
loop. -/
def skipHere (since : Option Int) (i : FeedItem) : Bool :=
  match since, i.sort_date with
  | some cut, some d => decide (d < cut)
  | _, _ => false

/-- The `for item in sorted_items` loop of `select_items`: split into the
surviving list and the `older_than_since` skip records, in traversal order. -/
def sinceSplit (since : Option Int) : List FeedItem → List FeedItem × List SkippedItem
  | [] => ([], [])
  | i :: rest =>
    let tail := sinceSplit since rest
    if skipHere since i then (tail.1, mkSkip i "older_than_since" :: tail.2)
    else (i :: tail.1, tail.2)

/-- `select_items` (with an already-parsed `since`): stable sort by
`_sort_key`, date filter, then the `max_items` cap. -/
def selectItems (items : List FeedItem) (since : Option Int) (maxItems : Option Nat) :
    List FeedItem × List SkippedItem :=
  let sorted := items.mergeSort itemLe
  let fs := sinceSplit since sorted
  match maxItems with
  | none => fs
  | some m =>
    (fs.1.take m, fs.2 ++ (fs.1.drop m).map (fun i => mkSkip i "max_items_limit"))

/-! ### `extraction/fetcher.py` — `fetch_article`

The HTTP client is an oracle `net : Nat → NetOutcome` giving the outcome of
the GET issued on each attempt (attempts are numbered from 1 as in the
source's `range(1, retries + 1)`).  Sleeps are recorded in seconds as exact
rationals. -/

inductive NetOutcome
  | resp (status : Nat) (body : String)
  | netErr (msg : String)
  | otherErr (msg : String)
  deriving DecidableEq

structure FetchResult where
  url : String
  status_code : Option Nat
  html : Option String
  error : Option String
  from_cache : Bool
  deriving DecidableEq

/-- `_is_retryable_status`. -/
def retryableStatus (s : Nat) : Bool := s == 429 || (500 ≤ s && s < 600)

/-- Outcomes the fetch loop retries on (retryable status, or a
timeout/connection error). -/
def retryableOutcome : NetOutcome → Bool
  | .resp s _ => retryableStatus s
  | .netErr _ => true
  | .otherErr _ => false

/-- `0.5 * (2 ** (attempt - 1))` seconds. -/
def backoff (attempt : Nat) : ℚ := (1 / 2) * 2 ^ (attempt - 1)

/-- Python `last_error or "fetch_failed"`: an empty or absent string falls
back to the default. -/
def pyOrStr (o : Option String) (d : String) : String :=
  match o with
  | some s => if s == "" then d else s
  | none => d

/-- What the retry loop produced: the successful body if any, the captured
`last_error` and `status_code` variables, the sleeps performed, and how many
GET attempts were made. -/
structure LoopOut where
  success : Option String
  lastError : Option String
  statusCode : Option Nat
  sleeps : List ℚ
  attempts : Nat
  deriving DecidableEq

/-- The `for attempt in range(1, retries + 1)` loop of `fetch_article`,
structurally recursive on the number of remaining attempts `rem`
(`rem = retries + 1 - attempt` at every call). -/
def fetchGo (retries : Nat) (net : Nat → NetOutcome) :
    Nat → Nat → Option String → Option Nat → LoopOut
  | _, 0, lastE, statusC => ⟨none, lastE, statusC, [], 0⟩
  | attempt, rem + 1, lastE, statusC =>
    match net attempt with
    | .resp s body =>
      if retryableStatus s && attempt < retries then
        let out := fetchGo retries net (attempt + 1) rem lastE (some s)
        ⟨out.success, out.lastError, out.statusCode, backoff attempt :: out.sleeps,
          out.attempts + 1⟩
      else if 400 ≤ s then
        ⟨none, some ("http_error:" ++ toString s), some s, [], 1⟩
      else
        ⟨some body, lastE, some s, [], 1⟩
    | .netErr msg =>
      if attempt < retries then
        let out := fetchGo retries net (attempt + 1) rem (some msg) statusC
        ⟨out.success, out.lastError, out.statusCode, backoff attempt :: out.sleeps,
          out.attempts + 1⟩
      else ⟨none, some msg, statusC, [], 1⟩
    | .otherErr msg => ⟨none, some msg, statusC, [], 1⟩

structure FetchOut where
  result : FetchResult
  sleeps : List ℚ
  attempts : Nat
  htmlPut : Option String
  deriving DecidableEq

/-- The non-cached path of `fetch_article` (loop, then build the
`FetchResult`; a successful body is written to the html cache). -/
def fetchNet (url : String) (retries : Nat) (net : Nat → NetOutcome) : FetchOut :=
  let out := fetchGo retries net 1 retries none none
  match out.success with
  | some body =>
    ⟨⟨url, out.statusCode, some body, none, false⟩, out.sleeps, out.attempts, some body⟩
  | none =>
    ⟨⟨url, out.statusCode, none, some (pyOrStr out.lastError "fetch_failed"), false⟩,
      out.sleeps, out.attempts, none⟩

/-- `fetch_article`: `if cached_html:` short-circuits only on a truthy
(non-`None`, non-empty) cached body. -/
def fetchArticle (url : String) (cachedHtml : Option String) (retries : Nat)
    (net : Nat → NetOutcome) : FetchOut :=
  match cachedHtml with
  | some h =>
    if h == "" then fetchNet url retries net
    else ⟨⟨url, some 200, some h, none, true⟩, [], 0, none⟩
  | none => fetchNet url retries net

/-! ### `urllib.parse` — the pieces `url_normalize.py` and `llm_client.py` use

Modelled from CPython's `urllib/parse.py` (3.10 line): `urlsplit` strips
leading/trailing C0-control-or-space characters, removes tab/CR/LF anywhere,
recognises and lowercases a scheme, splits `//netloc` up to the first
`/?#`, rejects unbalanced brackets in the netloc (`ValueError` becomes
`none`), then splits off the fragment at the first `#` and the query at the
first `?`.  `unquote` percent-decodes within ASCII runs and decodes the byte
runs as UTF-8 with U+FFFD replacement; `quote_plus` keeps `[A-Za-z0-9_.~-]`,
maps space to `+` and percent-encodes the UTF-8 bytes of everything else. -/

def isAsciiAlpha (c : Char) : Bool :=
  (65 ≤ c.toNat && c.toNat ≤ 90) || (97 ≤ c.toNat && c.toNat ≤ 122)

def isAsciiDigit (c : Char) : Bool := 48 ≤ c.toNat && c.toNat ≤ 57

def isSchemeChar (c : Char) : Bool :=
  isAsciiAlpha c || isAsciiDigit c || c == '+' || c == '-' || c == '.'

def isC0OrSpace (c : Char) : Bool := c.toNat ≤ 0x20

def isTRN (c : Char) : Bool := c == '\x09' || c == '\r' || c == '\n'

/-- CPython 3.11 `urlsplit` only lstrips C0-control-or-space (trailing
space is deliberately preserved there). -/
def lstripC0 (l : List Char) : List Char := l.dropWhile isC0OrSpace

def removeTRN (l : List Char) : List Char := l.filter (fun c => !(isTRN c))

/-- Scheme recognition of `urlsplit`: a `:` preceded by an ASCII letter and
scheme characters; the scheme comes back lowercased. -/
def parseScheme (l : List Char) : List Char × List Char :=
  let before := l.takeWhile (fun x => !(x == ':'))
  match l.dropWhile (fun x => !(x == ':')) with
  | [] => ([], l)
  | _ :: rest =>
    match before with
    | [] => ([], l)
    | c :: cs =>
      if isAsciiAlpha c && (c :: cs).all isSchemeChar then (pyLowerList (c :: cs), rest)
      else ([], l)

def isNetlocEnd (c : Char) : Bool := c == '/' || c == '?' || c == '#'

def splitNetloc (l : List Char) : List Char × List Char :=
  (l.takeWhile (fun c => !(isNetlocEnd c)), l.dropWhile (fun c => !(isNetlocEnd c)))

/-- Split at the first occurrence of `ch` (Python `s.split(ch, 1)`); `none`
when `ch` does not occur. -/
def splitOnceChar (ch : Char) (l : List Char) : List Char × Option (List Char) :=
  match l.dropWhile (fun c => !(c == ch)) with
  | [] => (l.takeWhile (fun c => !(c == ch)), none)
  | _ :: rest => (l.takeWhile (fun c => !(c == ch)), some rest)

def hexVal (c : Char) : Option Nat :=
  if 48 ≤ c.toNat && c.toNat ≤ 57 then some (c.toNat - 48)
  else if 65 ≤ c.toNat && c.toNat ≤ 70 then some (c.toNat - 55)
  else if 97 ≤ c.toNat && c.toNat ≤ 102 then some (c.toNat - 87)
  else none

def splitOnCharAux (ch : Char) : List Char → List Char → List (List Char)
  | [], acc => [acc.reverse]
  | c :: rest, acc =>
    if c == ch then acc.reverse :: splitOnCharAux ch rest []
    else splitOnCharAux ch rest (c :: acc)

/-- Python `s.split(ch)` (note: `"".split(ch) == [""]`). -/
def splitOnChar (ch : Char) (l : List Char) : List (List Char) := splitOnCharAux ch l []

structure SplitUrl where
  scheme : List Char
  netloc : List Char
  path : List Char
  query : List Char
  fragment : List Char
  deriving DecidableEq

def isHexChar (c : Char) : Bool := (hexVal c).isSome

def isDotChar (c : Char) : Bool := c == '.'

/-- `ipaddress`'s IPv4 octet: 1-3 ASCII digits, no leading zero, `≤ 255`. -/
def ipv4OctetOk (s : List Char) : Bool :=
  !s.isEmpty && s.length ≤ 3 && s.all isAsciiDigit &&
    (s.length == 1 || !(s.take 1 == ['0'])) &&
    decide (s.foldl (fun n c => 10 * n + (c.toNat - 48)) 0 ≤ 255)

def ipv4Ok (s : List Char) : Bool :=
  let octets := splitOnChar '.' s
  octets.length == 4 && octets.all ipv4OctetOk

/-- An IPv6 hextet: 1-4 hex digits. -/
def hextetOk (s : List Char) : Bool :=
  !s.isEmpty && s.length ≤ 4 && s.all isHexChar

/-- `IPv6Address._ip_int_from_string` as a validity predicate (on a
lowercased address; IPv6 text validity is case-insensitive). -/
def ipv6Core (addr : List Char) : Bool :=
  let parts0 := splitOnChar ':' addr
  if parts0.length < 3 then false
  else
    let lastPart := parts0.getLast?.getD []
    let ipv4 := lastPart.contains '.'
    if ipv4 && !(ipv4Ok lastPart) then false
    else
      let parts := if ipv4 then parts0.dropLast ++ [['0'], ['0']] else parts0
      if parts.length > 9 then false
      else
        let inner := (parts.drop 1).dropLast
        let skips := inner.countP (fun p => p.isEmpty)
        if skips > 1 then false
        else if skips == 1 then
          let skipIdx := 1 + (inner.findIdx (fun p => p.isEmpty))
          let partsHi0 := skipIdx
          let partsLo0 := parts.length - skipIdx - 1
          let headEmpty := (parts.headD [' ']).isEmpty
          let lastEmpty := (parts.getLast?.getD [' ']).isEmpty
          if headEmpty && !(partsHi0 == 1) then false
          else if lastEmpty && !(partsLo0 == 1) then false
          else
            let partsHi := if headEmpty then 0 else partsHi0
            let partsLo := if lastEmpty then 0 else partsLo0
            if 8 - (partsHi + partsLo) < 1 then false
            else
              ((parts.take partsHi).all hextetOk) &&
                ((parts.drop (parts.length - partsLo)).all hextetOk)
        else
          parts.length == 8 && !(parts.headD []).isEmpty &&
            !(parts.getLast?.getD []).isEmpty && parts.all hextetOk

/-- `IPv6Address` including an optional `%scope`. -/
def ipv6Ok (s : List Char) : Bool :=
  match splitOnceChar '%' s with
  | (addr, none) => ipv6Core (pyLowerList addr)
  | (addr, some scope) =>
    !scope.isEmpty && !(scope.contains '%') && ipv6Core (pyLowerList addr)

/-- `_check_bracketed_host` (3.11): an `v`-prefixed IPvFuture literal, or a
valid non-IPv4 `ip_address` (so: a valid IPv6 literal). -/
def checkBracketedHost (h : List Char) : Bool :=
  if h.take 1 == ['v'] then
    match splitOnceChar '.' (h.drop 1) with
    | (hex, some rest) => !hex.isEmpty && hex.all isHexChar && !rest.isEmpty
    | (_, none) => false
  else ipv6Ok h

/-- The text between the first `[` and the following `]`
(`netloc.partition("[")[2].partition("]")[0]`). -/
def bracketedHostOf (netloc : List Char) : List Char :=
  match splitOnceChar '[' netloc with
  | (_, none) => []
  | (_, some after) => (splitOnceChar ']' after).1

def urlsplitList (l0 : List Char) : Option SplitUrl :=
  let l1 := removeTRN (lstripC0 l0)
  let sr := parseScheme l1
  let nl :=
    if sr.2.take 2 == ['/', '/'] then splitNetloc (sr.2.drop 2) else ([], sr.2)
  if (nl.1.contains '[') != (nl.1.contains ']') then none
  else if nl.1.contains '[' && nl.1.contains ']'
      && !(checkBracketedHost (bracketedHostOf nl.1)) then none
  else
    let bf := splitOnceChar '#' nl.2
    let pq := splitOnceChar '?' bf.1
    some ⟨sr.1, nl.1, pq.1, (pq.2.getD []), (bf.2.getD [])⟩

/-! #### unquote / quote_plus -/

inductive QTok
  | byte (b : Nat)
  | chr (c : Char)
  deriving DecidableEq

/-- Tokenize for `unquote`: `%XX` with two hex digits becomes a byte, other
ASCII characters become their own byte, non-ASCII characters pass through. -/
def unquoteTokens : List Char → List QTok
  | [] => []
  | c :: c1 :: c2 :: rest =>
    if c == '%' then
      match hexVal c1, hexVal c2 with
      | some h1, some h2 => .byte (16 * h1 + h2) :: unquoteTokens rest
      | _, _ => .byte 37 :: unquoteTokens (c1 :: c2 :: rest)
    else if c.toNat < 128 then .byte c.toNat :: unquoteTokens (c1 :: c2 :: rest)
    else .chr c :: unquoteTokens (c1 :: c2 :: rest)
  | c :: rest =>
    if c.toNat < 128 then .byte c.toNat :: unquoteTokens rest
    else .chr c :: unquoteTokens rest

def repl : Char := Char.ofNat 0xFFFD

/-- State of the incremental UTF-8 decoder: how many continuation bytes are
still expected, the accumulated code point, and the admissible range of the
next byte. -/
inductive Utf8State
  | start
  | need (k : Nat) (acc : Nat) (lo : Nat) (hi : Nat)
  deriving DecidableEq

/-- Feed one lead byte from the start state (the ranges implement the
standard tight UTF-8 table: no overlongs, no surrogates, max U+10FFFF). -/
def startByte (b : Nat) : List Char × Utf8State :=
  if b < 128 then ([Char.ofNat b], .start)
  else if 194 ≤ b && b ≤ 223 then ([], .need 1 (b - 192) 128 191)
  else if b == 224 then ([], .need 2 (b - 224) 160 191)
  else if 225 ≤ b && b ≤ 236 then ([], .need 2 (b - 224) 128 191)
  else if b == 237 then ([], .need 2 (b - 224) 128 159)
  else if 238 ≤ b && b ≤ 239 then ([], .need 2 (b - 224) 128 191)
  else if b == 240 then ([], .need 3 (b - 240) 144 191)
  else if 241 ≤ b && b ≤ 243 then ([], .need 3 (b - 240) 128 191)
  else if b == 244 then ([], .need 3 (b - 240) 128 143)
  else ([repl], .start)

/-- An interrupted multi-byte sequence becomes one replacement character. -/
def flushState : Utf8State → List Char
  | .start => []
  | .need _ _ _ _ => [repl]

/-- Feed one token to the decoder (`errors="replace"`, maximal-subpart
policy: an invalid byte flushes the pending sequence and is reprocessed as a
lead byte). -/
def feedTok (st : Utf8State) (t : QTok) : List Char × Utf8State :=
  match t with
  | .chr c => (flushState st ++ [c], .start)
  | .byte b =>
    match st with
    | .start => startByte b
    | .need k acc lo hi =>
      if lo ≤ b && b ≤ hi then
        match k with
        | 0 => ([repl], .start)
        | 1 => ([Char.ofNat (acc * 64 + (b - 128))], .start)
        | k' + 1 => ([], .need k' (acc * 64 + (b - 128)) 128 191)
      else ([repl] ++ (startByte b).1, (startByte b).2)

def decodeGo (st : Utf8State) : List QTok → List Char
  | [] => flushState st
  | t :: rest => (feedTok st t).1 ++ decodeGo (feedTok st t).2 rest

/-- UTF-8 decoding of the token stream with U+FFFD replacement. -/
def decodeToks (l : List QTok) : List Char := decodeGo .start l

def unquotePy (l : List Char) : List Char := decodeToks (unquoteTokens l)

def plusToSpace (l : List Char) : List Char := l.map (fun c => if c == '+' then ' ' else c)

/-- `parse_qsl`'s per-component decoding: `.replace("+", " ")` then
`unquote`. -/
def unquotePlus (l : List Char) : List Char := unquotePy (plusToSpace l)

/-- One `name=value` component (`split("=", 1)`; a missing `=` yields an
empty value since `keep_blank_values=True`). -/
def parsePair (seg : List Char) : List Char × List Char :=
  match splitOnceChar '=' seg with
  | (name, some value) => (name, value)
  | (name, none) => (name, [])

/-- `parse_qsl(qs, keep_blank_values=True)`. -/
def parseQsl (qs : List Char) : List (List Char × List Char) :=
  (splitOnChar '&' qs).filterMap (fun seg =>
    if seg.isEmpty then none
    else
      let nv := parsePair seg
      some (unquotePlus nv.1, unquotePlus nv.2))

def alwaysSafe (c : Char) : Bool :=
  isAsciiAlpha c || isAsciiDigit c || c == '_' || c == '.' || c == '-' || c == '~'

def hexDigit (n : Nat) : Char :=
  if n < 10 then Char.ofNat (48 + n) else Char.ofNat (55 + n)

/-- The UTF-8 bytes of one character. -/
def utf8Bytes (c : Char) : List Nat :=
  let n := c.toNat
  if n < 128 then [n]
  else if n < 2048 then [192 + n / 64, 128 + n % 64]
  else if n < 65536 then [224 + n / 4096, 128 + (n / 64) % 64, 128 + n % 64]
  else [240 + n / 262144, 128 + (n / 4096) % 64, 128 + (n / 64) % 64, 128 + n % 64]

def pctEncodeByte (b : Nat) : List Char := ['%', hexDigit (b / 16), hexDigit (b % 16)]

def quotePlusChar (c : Char) : List Char :=
  if alwaysSafe c then [c]
  else if c == ' ' then ['+']
  else (utf8Bytes c).flatMap pctEncodeByte

/-- `quote_plus(s, safe="")`. -/
def quotePlus (l : List Char) : List Char := l.flatMap quotePlusChar

/-- `urlencode(pairs, quote_via=quote_plus)`. -/
def urlencodePy (pairs : List (List Char × List Char)) : List Char :=
  List.intercalate ['&'] (pairs.map (fun p => quotePlus p.1 ++ '=' :: quotePlus p.2))

/-- `urllib.parse.uses_netloc`. -/
def usesNetloc : List (List Char) :=
  ["", "ftp", "http", "gopher", "nntp", "telnet", "imap", "wais", "file", "mms",
   "https", "shttp", "snews", "prospero", "rtsp", "rtsps", "rtspu", "rsync", "svn",
   "svn+ssh", "sftp", "nfs", "git", "git+ssh", "ws", "wss"].map String.data

/-- `urlunsplit` (3.11). -/
def urlunsplitList (scheme netloc path query fragment : List Char) : List Char :=
  let url1 :=
    if !netloc.isEmpty ||
        (!scheme.isEmpty && usesNetloc.contains scheme && !(path.take 2 == ['/', '/'])) then
      '/' :: '/' :: (netloc ++ (if !path.isEmpty && !(path.take 1 == ['/']) then '/' :: path
        else path))
    else path
  let url2 := if !scheme.isEmpty then scheme ++ ':' :: url1 else url1
  let url3 := if !query.isEmpty then url2 ++ '?' :: query else url2
  if !fragment.isEmpty then url3 ++ '#' :: fragment else url3

/-! ### `ingestion/url_normalize.py` -/

def trackingKeys : List (List Char) :=
  ["ref", "source", "fbclid", "gclid", "mc_cid", "mc_eid"].map String.data

/-- The query-parameter filter: drop `utm_*` and the deny-list (on the
lowercased key). -/
def isTracked (k : List Char) : Bool :=
  let kl := pyLowerList k
  kl.take 4 == ['u', 't', 'm', '_'] || trackingKeys.contains kl

/-- Python tuple `<=` on the decoded `(key, value)` pairs (code-point
lexicographic on each component, as `list.sort(key=lambda x: (x[0], x[1]))`
compares them). -/
def listCharLt : List Char → List Char → Bool
  | [], [] => false
  | [], _ :: _ => true
  | _ :: _, [] => false
  | a :: as, b :: bs => a < b || (a == b && listCharLt as bs)

def pairLe (a b : List Char × List Char) : Bool :=
  listCharLt a.1 b.1 || (a.1 == b.1 && (listCharLt a.2 b.2 || a.2 == b.2))

/-- `normalize_url` (`none` models the `ValueError` urlsplit can raise). -/
def normalizeUrlList (l : List Char) : Option (List Char) :=
  match urlsplitList (pyStripList l) with
  | none => none
  | some su =>
    let scheme := if su.scheme.isEmpty then "https".data else su.scheme
    let netloc := pyLowerList su.netloc
    let path0 := if su.path.isEmpty then ['/'] else su.path
    let path :=
      if !(path0 == ['/']) && path0.getLast? == some '/' then path0.dropLast else path0
    let filtered := (parseQsl su.query).filter (fun p => !(isTracked p.1))
    let sortedPairs := filtered.mergeSort pairLe
    let query := urlencodePy sortedPairs
    some (urlunsplitList scheme netloc path query [])

def normalizeUrl (s : String) : Option String :=
  (normalizeUrlList s.data).map (fun l => ⟨l⟩)

/-- `deduplicate`'s `OrderedDict` assignment `d[k] = v` (replaces in place,
keeps insertion order). -/
def odSet (k : String) (v : FeedItem) :
    List (String × FeedItem) → List (String × FeedItem)
  | [] => [(k, v)]
  | (k2, v2) :: rest => if k2 == k then (k2, v) :: rest else (k2, v2) :: odSet k v rest

def odFind (k : String) (l : List (String × FeedItem)) : Option FeedItem :=
  (l.find? (fun e => e.1 == k)).map (fun e => e.2)

def updNormalized (i : FeedItem) (k : String) : FeedItem :=
  ⟨i.url, k, i.title, i.feed_title, i.published, i.updated, i.source_type⟩

/-- One iteration of the `deduplicate` loop. -/
def dedupStep (acc : List (String × FeedItem)) (item : FeedItem) (normalized : String) :
    List (String × FeedItem) :=
  let current := updNormalized item normalized
  match odFind normalized acc with
  | none => acc ++ [(normalized, current)]
  | some existing =>
    if existing.source_type == SourceType.direct
        && current.source_type == SourceType.feed then
      odSet normalized current acc
    else acc

def dedupGo : List FeedItem → List (String × FeedItem) → Option (List (String × FeedItem))
  | [], acc => some acc
  | i :: rest, acc =>
    match normalizeUrl i.url with
    | none => none
    | some k => dedupGo rest (dedupStep acc i k)

/-- `deduplicate` (propagates `normalize_url`'s possible `ValueError` as
`none`). -/
def deduplicate (items : List FeedItem) : Option (List FeedItem) :=
  (dedupGo items []).map (fun l => l.map Prod.snd)

/-- First-seen-order deduplication of a key list (the order an
`OrderedDict`'s keys end up in). -/
def firstSeen : List String → List String → List String
  | acc, [] => acc
  | acc, k :: rest => if acc.contains k then firstSeen acc rest else firstSeen (acc ++ [k]) rest

/-- What `deduplicate` keeps for a normalized URL `k`: the first feed-sourced
candidate with that key if one exists, else the first candidate with that
key (`key` gives each candidate's normalized URL). -/
def expectedEntry (key : FeedItem → String) (processed : List FeedItem) (k : String) :
    Option FeedItem :=
  match processed.find? (fun i => key i == k && (i.source_type == SourceType.feed)) with
  | some f => some (updNormalized f k)
  | none => (processed.find? (fun i => key i == k)).map (fun i => updNormalized i k)

/-! ### `summarization/llm_client.py` — dialect routing

The three transports (`client.responses.create`, `client.chat.completions
.create`, and the native `generateContent` POST of
`_call_gemini_generate_content`) are oracles mapping the prompt to either a
`(text, usage)` pair or a raised exception.  `Exc` carries what
`_should_fallback` inspects: the optional `status_code` attribute and
`str(exc)`.  Each call additionally reports the attempts it made, so the
theorems can speak about which wire calls happened. -/

structure TokenUsage where
  prompt_tokens : Nat
  completion_tokens : Nat
  total_tokens : Nat
  deriving DecidableEq

structure Exc where
  statusCode : Option Nat
  msg : String
  deriving DecidableEq

inductive LLMApiUsed
  | responses
  | chat_completions
  deriving DecidableEq

inductive ApiCall
  | responses
  | chat
  | gemini
  deriving DecidableEq

structure Transport where
  responses : String → Except Exc (String × TokenUsage)
  chat : String → Except Exc (String × TokenUsage)
  gemini : String → Except Exc (String × TokenUsage)

/-- `_is_gemini_native_base_url`: lowercase the URL, parse it, and test the
host for the native-provider substring and the path for an `openai`
segment.  `urlparse` = `urlsplit` plus the `;params` split on the last path
segment. -/
def splitParams (l : List Char) : List Char × List Char :=
  if l.contains ';' then
    let start :=
      if l.contains '/' then l.length - 1 - (l.reverse.takeWhile (fun c => !(c == '/'))).length
      else 0
    match (l.drop start).findIdx? (fun c => c == ';') with
    | none => (l, [])
    | some i => (l.take (start + i), l.drop (start + i + 1))
  else (l, [])

def isGeminiNativeBaseUrl (url : String) : Option Bool :=
  match urlsplitList (pyLowerList url.data) with
  | none => none
  | some su =>
    if !(decide ("generativelanguage.googleapis.com".data <:+: su.netloc)) then some false
    else
      let pathNoParams := (splitParams su.path).1
      let segs := (splitOnChar '/' pathNoParams).filter (fun s => !s.isEmpty)
      some (!(segs.contains "openai".data))

/-- `_should_fallback`. -/
def shouldFallback (e : Exc) : Bool :=
  e.statusCode == some 404 || e.statusCode == some 405 ||
  strContains (pyLower e.msg) "not supported" || strContains (pyLower e.msg) "unsupported"

/-- `_call_responses`: on success `api_used := RESPONSES`; an exception
leaves it unchanged. -/
def callResponses (st : Option LLMApiUsed) (t : Transport) (prompt : String) :
    Except Exc (String × TokenUsage) × Option LLMApiUsed × List (ApiCall × String) :=
  match t.responses prompt with
  | .ok r => (.ok r, some .responses, [(.responses, prompt)])
  | .error e => (.error e, st, [(.responses, prompt)])

/-- `_call_chat`: on success `api_used := CHAT_COMPLETIONS`. -/
def callChat (st : Option LLMApiUsed) (t : Transport) (prompt : String) :
    Except Exc (String × TokenUsage) × Option LLMApiUsed × List (ApiCall × String) :=
  match t.chat prompt with
  | .ok r => (.ok r, some .chat_completions, [(.chat, prompt)])
  | .error e => (.error e, st, [(.chat, prompt)])

/-- `_call_gemini_generate_content`, abstracted to its outcome: on success
it records `api_used := CHAT_COMPLETIONS` (the comment in the source keeps
the report enumeration stable); a raised error leaves `api_used`
unchanged. -/
def callGemini (st : Option LLMApiUsed) (t : Transport) (prompt : String) :
    Except Exc (String × TokenUsage) × Option LLMApiUsed × List (ApiCall × String) :=
  match t.gemini prompt with
  | .ok r => (.ok r, some .chat_completions, [(.gemini, prompt)])
  | .error e => (.error e, st, [(.gemini, prompt)])

/-- `_call_with_fallback`. -/
def callWithFallback (isNative : Bool) (st : Option LLMApiUsed) (t : Transport)
    (prompt : String) :
    Except Exc (String × TokenUsage) × Option LLMApiUsed × List (ApiCall × String) :=
  if isNative then callGemini st t prompt
  else
    match st with
    | some .chat_completions => callChat st t prompt
    | some .responses => callResponses st t prompt
    | none =>
      match callResponses st t prompt with
      | (.ok r, st2, tr) => (.ok r, st2, tr)
      | (.error e, st2, tr) =>
        if shouldFallback e then
          let c := callChat st2 t prompt
          (c.1, c.2.1, tr ++ c.2.2)
        else (.error e, st2, tr)

/-- A sequence of `_call_with_fallback` invocations on one client instance,
threading the sticky `api_used` state. -/
def runCalls (isNative : Bool) :
    Option LLMApiUsed → List (Transport × String) →
      List (Except Exc (String × TokenUsage) × List (ApiCall × String)) × Option LLMApiUsed
  | st, [] => ([], st)
  | st, (t, p) :: rest =>
    let c := callWithFallback isNative st t p
    let r := runCalls isNative c.2.1 rest
    ((c.1, c.2.2) :: r.1, r.2)

/-- The wire call a remembered `api_used` value routes to directly. -/
def apiCallOf : LLMApiUsed → ApiCall
  | .responses => .responses
  | .chat_completions => .chat

/-! ### `summarization/schemas.py` — `json.loads`, `_extract_json_blob`,
`parse_summary`, and `ArticleSummary.model_validate`

`json.loads` is embedded as a fuel-indexed recursive-descent parser with
CPython's semantics: whitespace is space/tab/LF/CR; strings are strict
(raw control characters rejected; `\uXXXX` escapes with surrogate-pair
combination, a lone surrogate kept as a bare code point); numbers follow
the JSON grammar plus the `NaN`/`Infinity`/`-Infinity` literals; an object
keeps every member in order and a repeated key reads as its last binding;
trailing data after the top-level value is an error.  Python strings are
modelled as code-point lists (`List Nat`) so lone surrogates are
representable; numeric values are exact rationals (IEEE-754 rounding is
not modelled — nothing downstream compares numeric results).  The
validation of `ArticleSummary.model_validate` is modelled for payloads
that come out of `json.loads`: required `str` fields accept exactly JSON
strings, `list[str]` fields accept exactly arrays of strings (missing ⇒
default `[]`), `notable_quotes` accepts arrays of objects with string
`quote` and `context` members, `confidence` accepts exactly JSON numbers
(missing ⇒ `0.0`); extra keys are ignored.  (pydantic's lax coercion of
numeric *strings* into `float` is outside the model; no claim touches
it.) -/

inductive JNum where
  | fin (q : ℚ)
  | pinf
  | ninf
  | nan
deriving DecidableEq

inductive JsonVal where
  | null
  | bool (b : Bool)
  | num (n : JNum)
  | str (s : List Nat)
  | arr (elems : List JsonVal)
  | obj (members : List (List Nat × JsonVal))

def jsonWsChar (c : Char) : Bool :=
  c == ' ' || c == '\t' || c == '\n' || c == '\r'

def skipWs (l : List Char) : List Char := l.dropWhile jsonWsChar

def digitsToNat (l : List Char) : Nat :=
  l.foldl (fun a c => a * 10 + (c.toNat - 48)) 0

/-- The tail of `json`'s NUMBER_RE after the integer part: an optional
fraction (a dot followed by at least one digit) and an optional exponent
(`e`/`E`, optional sign, at least one digit); anything malformed is left
unconsumed. -/
def parseNumTail (ip : List Char) (r1 : List Char) (neg : Bool) : JNum × List Char :=
  let fr : List Char × List Char :=
    match r1 with
    | '.' :: rest =>
      let ds := rest.takeWhile Char.isDigit
      if ds.isEmpty then ([], r1) else (ds, rest.drop ds.length)
    | _ => ([], r1)
  let er : Int × List Char :=
    match fr.2 with
    | e :: rest =>
      if e == 'e' || e == 'E' then
        match rest with
        | '+' :: rest2 =>
          let ds := rest2.takeWhile Char.isDigit
          if ds.isEmpty then ((0 : Int), fr.2) else ((digitsToNat ds : Int), rest2.drop ds.length)
        | '-' :: rest2 =>
          let ds := rest2.takeWhile Char.isDigit
          if ds.isEmpty then ((0 : Int), fr.2) else (-(digitsToNat ds : Int), rest2.drop ds.length)
        | _ =>
          let ds := rest.takeWhile Char.isDigit
          if ds.isEmpty then ((0 : Int), fr.2) else ((digitsToNat ds : Int), rest.drop ds.length)
      else ((0 : Int), fr.2)
    | [] => ((0 : Int), fr.2)
  let q : ℚ :=
    ((digitsToNat ip : ℚ) + (digitsToNat fr.1 : ℚ) / (10 : ℚ) ^ fr.1.length) * (10 : ℚ) ^ er.1
  (.fin (if neg then -q else q), er.2)

/-- `json`'s NUMBER_RE anchored at the start of `l`: `-?(0|[1-9]\d*)` then
`parseNumTail`. -/
def parseNumber : List Char → Option (JNum × List Char)
  | '-' :: '0' :: r => some (parseNumTail ['0'] r true)
  | '-' :: c :: r =>
    if c.isDigit then some (parseNumTail (c :: r.takeWhile Char.isDigit) (r.dropWhile Char.isDigit) true)
    else none
  | '0' :: r => some (parseNumTail ['0'] r false)
  | c :: r =>
    if c.isDigit then some (parseNumTail (c :: r.takeWhile Char.isDigit) (r.dropWhile Char.isDigit) false)
    else none
  | [] => none

def lbraceChar : Char := Char.ofNat 123

def rbraceChar : Char := Char.ofNat 125

/-- `py_scanstring` (strict): scan after the opening quote, returning the
code points and the remainder after the closing quote. -/
def parseStrGo : Nat → List Char → List Nat → Option (List Nat × List Char)
  | 0, _, _ => none
  | Nat.succ fuel, l, acc =>
    match l with
    | [] => none
    | c :: rest =>
      if c = '"' then some (acc.reverse, rest)
      else if c = '\\' then
        match rest with
        | [] => none
        | e :: rest2 =>
          if e = '"' then parseStrGo fuel rest2 (34 :: acc)
          else if e = '\\' then parseStrGo fuel rest2 (92 :: acc)
          else if e = '/' then parseStrGo fuel rest2 (47 :: acc)
          else if e = 'b' then parseStrGo fuel rest2 (8 :: acc)
          else if e = 'f' then parseStrGo fuel rest2 (12 :: acc)
          else if e = 'n' then parseStrGo fuel rest2 (10 :: acc)
          else if e = 'r' then parseStrGo fuel rest2 (13 :: acc)
          else if e = 't' then parseStrGo fuel rest2 (9 :: acc)
          else if e = 'u' then
            match rest2 with
            | a :: b :: c2 :: d :: rest3 =>
              match hexVal a, hexVal b, hexVal c2, hexVal d with
              | some ha, some hb, some hc, some hd =>
                let u1 := ((ha * 16 + hb) * 16 + hc) * 16 + hd
                if 0xD800 ≤ u1 ∧ u1 ≤ 0xDBFF then
                  match rest3 with
                  | '\\' :: 'u' :: a2 :: b2 :: c3 :: d2 :: rest4 =>
                    match hexVal a2, hexVal b2, hexVal c3, hexVal d2 with
                    | some h1, some h2, some h3, some h4 =>
                      let u2 := ((h1 * 16 + h2) * 16 + h3) * 16 + h4
                      if 0xDC00 ≤ u2 ∧ u2 ≤ 0xDFFF then
                        parseStrGo fuel rest4
                          ((0x10000 + (u1 - 0xD800) * 1024 + (u2 - 0xDC00)) :: acc)
                      else parseStrGo fuel rest3 (u1 :: acc)
                    | _, _, _, _ => none
                  | _ => parseStrGo fuel rest3 (u1 :: acc)
                else parseStrGo fuel rest3 (u1 :: acc)
              | _, _, _, _ => none
            | _ => none
          else none
      else if c.toNat < 32 then none
      else parseStrGo fuel rest (c.toNat :: acc)

mutual

/-- `_scan_once`: dispatch on the character at the scan position. -/
def parseVal : Nat → List Char → Option (JsonVal × List Char)
  | 0, _ => none
  | Nat.succ fuel, l =>
    match l with
    | [] => none
    | c :: rest =>
      if c = '"' then
        match parseStrGo (rest.length + 1) rest [] with
        | some (s, r) => some (.str s, r)
        | none => none
      else if c = lbraceChar then
        match skipWs rest with
        | c2 :: r2 =>
          if c2 = rbraceChar then some (.obj [], r2)
          else
            match parseObjMembers fuel (c2 :: r2) with
            | some (ms, r) => some (.obj ms, r)
            | none => none
        | [] => none
      else if c = '[' then
        match skipWs rest with
        | c2 :: r2 =>
          if c2 = ']' then some (.arr [], r2)
          else
            match parseArrElems fuel (c2 :: r2) with
            | some (xs, r) => some (.arr xs, r)
            | none => none
        | [] => none
      else if "null".data.isPrefixOf l then some (.null, l.drop 4)
      else if "true".data.isPrefixOf l then some (.bool true, l.drop 4)
      else if "false".data.isPrefixOf l then some (.bool false, l.drop 5)
      else
        match parseNumber l with
        | some (n, r) => some (.num n, r)
        | none =>
          if "NaN".data.isPrefixOf l then some (.num .nan, l.drop 3)
          else if "Infinity".data.isPrefixOf l then some (.num .pinf, l.drop 8)
          else if "-Infinity".data.isPrefixOf l then some (.num .ninf, l.drop 9)
          else none

/-- `JSONArray`'s element loop, positioned at the start of a value. -/
def parseArrElems : Nat → List Char → Option (List JsonVal × List Char)
  | 0, _ => none
  | Nat.succ fuel, l =>
    match parseVal fuel l with
    | none => none
    | some (v, r) =>
      match skipWs r with
      | ']' :: r2 => some ([v], r2)
      | ',' :: r2 =>
        match parseArrElems fuel (skipWs r2) with
        | some (vs, r3) => some (v :: vs, r3)
        | none => none
      | _ => none

/-- `JSONObject`'s member loop, positioned at the opening quote of a key. -/
def parseObjMembers : Nat → List Char → Option (List (List Nat × JsonVal) × List Char)
  | 0, _ => none
  | Nat.succ fuel, l =>
    match l with
    | '"' :: rest =>
      match parseStrGo (rest.length + 1) rest [] with
      | none => none
      | some (k, r) =>
        match skipWs r with
        | ':' :: r2 =>
          match parseVal fuel (skipWs r2) with
          | none => none
          | some (v, r3) =>
            match skipWs r3 with
            | c4 :: r4 =>
              if c4 = rbraceChar then some ([(k, v)], r4)
              else if c4 = ',' then
                match parseObjMembers fuel (skipWs r4) with
                | some (ms, r5) => some ((k, v) :: ms, r5)
                | none => none
              else none
            | [] => none
        | _ => none
    | _ => none

end

/-- `json.loads`: skip leading whitespace, scan one value, and require
only whitespace after it. -/
def jsonLoads (l : List Char) : Option JsonVal :=
  match parseVal (l.length + 1) (skipWs l) with
  | some (v, r) => if (skipWs r).isEmpty then some v else none
  | none => none

/-- A Python string literal as a code-point list. -/
def pyS (s : String) : List Nat := s.data.map Char.toNat

/-- Reading a key of a parsed JSON object: the LAST binding wins, as in
the dict produced by `json.loads`. -/
def objGet (ms : List (List Nat × JsonVal)) (k : List Nat) : Option JsonVal :=
  (ms.reverse.find? (fun m => m.1 == k)).map (fun m => m.2)

def asStrVal : JsonVal → Option (List Nat)
  | .str s => some s
  | _ => none

def asStrListVal : JsonVal → Option (List (List Nat))
  | .arr xs => xs.mapM asStrVal
  | _ => none

structure Quote where
  quote : List Nat
  context : List Nat
deriving DecidableEq

structure ArticleSummary where
  title : List Nat
  one_sentence : List Nat
  summary_bullets : List (List Nat)
  key_takeaways : List (List Nat)
  why_it_matters : List (List Nat)
  notable_quotes : List Quote
  tags : List (List Nat)
  confidence : JNum
deriving DecidableEq

def validateQuote : JsonVal → Option Quote
  | .obj ms =>
    match objGet ms (pyS "quote"), objGet ms (pyS "context") with
    | some (.str q), some (.str c) => some ⟨q, c⟩
    | _, _ => none
  | _ => none

def reqStr (ms : List (List Nat × JsonVal)) (k : List Nat) : Option (List Nat) :=
  match objGet ms k with
  | some (.str s) => some s
  | _ => none

def optStrList (ms : List (List Nat × JsonVal)) (k : List Nat) : Option (List (List Nat)) :=
  match objGet ms k with
  | none => some []
  | some v => asStrListVal v

def optQuoteList (ms : List (List Nat × JsonVal)) (k : List Nat) : Option (List Quote) :=
  match objGet ms k with
  | none => some []
  | some (.arr xs) => xs.mapM validateQuote
  | some _ => none

def optFloat (ms : List (List Nat × JsonVal)) (k : List Nat) : Option JNum :=
  match objGet ms k with
  | none => some (.fin 0)
  | some (.num n) => some n
  | some _ => none

/-- `ArticleSummary.model_validate` on a `json.loads` payload. -/
def validateSummary (v : JsonVal) : Option ArticleSummary :=
  match v with
  | .obj ms =>
    match reqStr ms (pyS "title"), reqStr ms (pyS "one_sentence"),
          optStrList ms (pyS "summary_bullets"), optStrList ms (pyS "key_takeaways"),
          optStrList ms (pyS "why_it_matters"), optQuoteList ms (pyS "notable_quotes"),
          optStrList ms (pyS "tags"), optFloat ms (pyS "confidence") with
    | some t, some o, some sb, some kt, some wm, some nq, some tg, some cf =>
      some ⟨t, o, sb, kt, wm, nq, tg, cf⟩
    | _, _, _, _, _, _, _, _ => none
  | _ => none

def fenceMarker : List Char := "\x60\x60\x60".data

/-- Split a list at the FIRST occurrence of `pat` (as a contiguous block),
returning what precedes it and what follows it. -/
def splitFirstSub (pat : List Char) : List Char → Option (List Char × List Char)
  | [] => none
  | c :: rest =>
    if pat.isPrefixOf (c :: rest) then some ([], (c :: rest).drop pat.length)
    else
      match splitFirstSub pat rest with
      | some (pre, post) => some (c :: pre, post)
      | none => none

/-- The optional case-insensitive `json` language tag right after the
opening fence (`(?:json)?` of JSON_FENCE_RE). -/
def dropJsonTag (l : List Char) : List Char :=
  if pyLowerList (l.take 4) = "json".data then l.drop 4 else l

/-- The `first "\x7b" .. last "\x7d"` fallback of `_extract_json_blob`. -/
def braceFallback (stripped : List Char) : List Char :=
  match stripped.findIdx? (fun c => c == lbraceChar),
        stripped.reverse.findIdx? (fun c => c == rbraceChar) with
  | some f, some jr =>
    let lastIdx := stripped.length - 1 - jr
    if f < lastIdx then (stripped.drop f).take (lastIdx + 1 - f) else stripped
  | _, _ => stripped

/-- `_extract_json_blob`: the regex search for a fenced block is embedded
as: find the first fence, drop the optional `json` tag, and require a
closing fence; the regex's lazy inner group with `\s*` padding plus the
final `.strip()` collapse into one strip of the raw inner content. -/
def extractJsonBlob (raw : List Char) : List Char :=
  let stripped := pyStripList raw
  match splitFirstSub fenceMarker stripped with
  | some (_, afterOpen) =>
    match splitFirstSub fenceMarker (dropJsonTag afterOpen) with
    | some (innerRaw, _) => pyStripList innerRaw
    | none => braceFallback stripped
  | none => braceFallback stripped

/-- The `SummaryParseError` tags of `schemas.py` and `summarize`; the
human-readable detail after each tag is abstracted away. -/
inductive SummaryParseError where
  | jsonDecode
  | schemaValidation
  | afterRepair (inner : SummaryParseError)
deriving DecidableEq

/-- The f-string prefix each tag renders to. -/
def SummaryParseError.tag : SummaryParseError → String
  | .jsonDecode => "json_decode_error"
  | .schemaValidation => "schema_validation_error"
  | .afterRepair e => "json_parse_error_after_repair:" ++ e.tag

/-- `parse_summary`. -/
def parseSummary (raw : String) : Except SummaryParseError ArticleSummary :=
  match jsonLoads (extractJsonBlob raw.data) with
  | none => .error .jsonDecode
  | some payload =>
    match validateSummary payload with
    | none => .error .schemaValidation
    | some s => .ok s

inductive SummarizeErr where
  | api (e : Exc)
  | parse (e : SummaryParseError)

/-- The repair-prompt literal of `LLMClient.summarize`. -/
def repairPrefix : String :=
  "The following output is invalid JSON for the required schema. Fix it and return only valid JSON.\n\n"

/-- `LLMClient.summarize`, starting from the already-built prompt
(`build_prompt` only constructs the string that is passed through, so the
claims about `summarize` are stated after it): first `_call_with_fallback`
on the prompt; on a parse failure, one repair call whose prompt embeds the
raw output; on repaired success the FIRST call's usage is returned; a
second parse failure wraps the repair attempt's error. -/
def summarize (isNative : Bool) (st : Option LLMApiUsed) (t : Transport) (prompt : String) :
    Except SummarizeErr (ArticleSummary × TokenUsage) × Option LLMApiUsed ×
      List (ApiCall × String) :=
  match callWithFallback isNative st t prompt with
  | (.error e, st1, tr1) => (.error (.api e), st1, tr1)
  | (.ok (raw, usage), st1, tr1) =>
    match parseSummary raw with
    | .ok s => (.ok (s, usage), st1, tr1)
    | .error _ =>
      match callWithFallback isNative st1 t (repairPrefix ++ raw) with
      | (.error e, st2, tr2) => (.error (.api e), st2, tr1 ++ tr2)
      | (.ok (raw2, _), st2, tr2) =>
        match parseSummary raw2 with
        | .ok s2 => (.ok (s2, usage), st2, tr1 ++ tr2)
        | .error e2 => (.error (.parse (.afterRepair e2)), st2, tr1 ++ tr2)

/-! ### `pipeline.py` — the cache-consuming stages of `process_one`

Only the cache-gated control flow of the extract and summarize stages is
embedded (timings, and the write-back serialisation of a freshly produced
summary, are outside every claim).  `extract_content` and
`llm_client.summarize` enter as oracle outcomes; the `Bool` returned along
the result records whether that oracle was invoked. -/

structure ExtractionResult where
  url : String
  title : Option String
  content : String
  content_length : Nat
  quality_score : ℚ
  error : Option String
  from_cache : Bool

/-- Python truthiness of `extraction.error` (`None` and `""` are falsy). -/
def optStrFalsy : Option String → Bool
  | none => true
  | some s => s == ""

/-- The extract stage of `process_one`: `cached_text = cache.get("text", url)`,
`if cached_text:` builds a from-cache `ExtractionResult`, else
`extract_content` runs and a non-empty, error-free extraction is written
back. -/
def textStage (mb : Nat) (fs : CacheFS) (url : String) (itemTitle : Option String)
    (html : String) (extractOut : ExtractionResult) : ExtractionResult × CacheFS :=
  match cacheGet fs "text" url "" with
  | some t =>
    if t == "" then
      (extractOut,
        if optStrFalsy extractOut.error && !(extractOut.content == "") then
          cachePut mb fs "text" url extractOut.content ""
        else fs)
    else
      (⟨url, itemTitle, t, t.length, (t.length : ℚ) / (max html.length 1 : ℚ), none, true⟩,
        fs)
  | none =>
    (extractOut,
      if optStrFalsy extractOut.error && !(extractOut.content == "") then
        cachePut mb fs "text" url extractOut.content ""
      else fs)

def PROMPT_VERSION : String := "1.0"

/-- `cached_summary = cache.get("summary", url, PROMPT_VERSION)`; a truthy
entry is parsed and a parse failure falls through to `summary = None`. -/
def cachedSummaryLookup (fs : CacheFS) (url : String) : Option ArticleSummary :=
  match cacheGet fs "summary" url PROMPT_VERSION with
  | some c =>
    if c == "" then none
    else
      match parseSummary c with
      | .ok s => some s
      | .error _ => none
  | none => none

/-- The summarize stage of `process_one`: `if summary is None`, the LLM
client is invoked (the `Bool` records that invocation); a cached summary
is returned with `usage = None`. -/
def summaryStage (fs : CacheFS) (url : String)
    (llmOut : Except SummarizeErr (ArticleSummary × TokenUsage)) :
    Except SummarizeErr (ArticleSummary × Option TokenUsage) × Bool :=
  match cachedSummaryLookup fs url with
  | some s => (.ok (s, none), false)
  | none =>
    match llmOut with
    | .ok su => (.ok (su.1, some su.2), true)
    | .error e => (.error e, true)

/-- What the fetch loop reports once the decisive attempt `k` is reached,
as a function of that attempt's outcome. -/
def decisiveSpec (net : Nat → NetOutcome) (k : Nat)
    (success lastError : Option String) (statusCode : Option Nat) : Prop :=
  match net k with
  | .resp s b =>
    if 400 ≤ s then
      success = none ∧ lastError = some ("http_error:" ++ toString s) ∧ statusCode = some s
    else success = some b ∧ statusCode = some s
  | .netErr m => success = none ∧ lastError = some m
  | .otherErr m => success = none ∧ lastError = some m

/-- Attempt `k` does not continue the loop. -/
def decisiveAt (net : Nat → NetOutcome) (retries k : Nat) : Prop :=
  match net k with
  | .resp s _ => ¬ (retryableStatus s = true ∧ k < retries)
  | .netErr _ => k = retries
  | .otherErr _ => True

/-! ## Theorems -/

theorem keyLe_trans (a b c : Nat × Int × String) :
    keyLe a b = true → keyLe b c = true → keyLe a c = true := by
  rcases a with ⟨a1, a2, a3⟩
  rcases b with ⟨b1, b2, b3⟩
  rcases c with ⟨c1, c2, c3⟩
  simp only [keyLe, Bool.or_eq_true, Bool.and_eq_true, decide_eq_true_eq, beq_iff_eq]
  rintro (h1 | ⟨rfl, h1⟩) (h2 | ⟨rfl, h2⟩)
  · exact Or.inl (h1.trans h2)
  · exact Or.inl h1
  · exact Or.inl h2
  · rcases h1 with h1 | ⟨rfl, h1⟩ <;> rcases h2 with h2 | ⟨rfl, h2⟩
    · exact Or.inr ⟨rfl, Or.inl (h1.trans h2)⟩
    · exact Or.inr ⟨rfl, Or.inl h1⟩
    · exact Or.inr ⟨rfl, Or.inl h2⟩
    · exact Or.inr ⟨rfl, Or.inr ⟨rfl, h1.trans h2⟩⟩

theorem keyLe_total (a b : Nat × Int × String) :
    (keyLe a b || keyLe b a) = true := by
  rcases a with ⟨a1, a2, a3⟩
  rcases b with ⟨b1, b2, b3⟩
  simp only [keyLe, Bool.or_eq_true, Bool.and_eq_true, decide_eq_true_eq, beq_iff_eq]
  rcases lt_trichotomy a1 b1 with h | rfl | h
  · exact Or.inl (Or.inl h)
  · rcases lt_trichotomy a2 b2 with h | rfl | h
    · exact Or.inl (Or.inr ⟨rfl, Or.inl h⟩)
    · rcases le_total a3 b3 with h | h
      · exact Or.inl (Or.inr ⟨rfl, Or.inr ⟨rfl, h⟩⟩)
      · exact Or.inr (Or.inr ⟨rfl, Or.inr ⟨rfl, h⟩⟩)
    · exact Or.inr (Or.inr ⟨rfl, Or.inl h⟩)
  · exact Or.inr (Or.inl h)

theorem itemLe_trans (a b c : FeedItem) :
    itemLe a b = true → itemLe b c = true → itemLe a c = true :=
  keyLe_trans _ _ _

theorem itemLe_total (a b : FeedItem) : (itemLe a b || itemLe b a) = true :=
  keyLe_total _ _

theorem skKey_mkSkip (i : FeedItem) (r : String) : skKey (mkSkip i r) = sortKey i := by
  simp only [skKey, mkSkip, sortKey]

theorem skipHere_iff (since : Option Int) (i : FeedItem) :
    skipHere since i = true ↔
      ∃ cut d, since = some cut ∧ i.sort_date = some d ∧ d < cut := by
  rcases since with _ | cut <;> rcases hd : i.sort_date with _ | d <;>
    simp [skipHere, hd]

/-- Membership in the `older_than_since` skip list of the selection loop. -/
theorem sinceSplit_snd_mem (since : Option Int) (l : List FeedItem) (sk : SkippedItem) :
    sk ∈ (sinceSplit since l).2 ↔
      ∃ i ∈ l, ∃ cut d, since = some cut ∧ i.sort_date = some d ∧ d < cut ∧
        sk = mkSkip i "older_than_since" := by
  induction l with
  | nil => simp [sinceSplit]
  | cons i rest ih =>
    by_cases h : skipHere since i = true
    · rw [show (sinceSplit since (i :: rest)).2
          = mkSkip i "older_than_since" :: (sinceSplit since rest).2 by
        simp [sinceSplit, h]]
      rw [List.mem_cons, ih]
      constructor
      · rintro (rfl | ⟨j, hj, p⟩)
        · rcases (skipHere_iff _ _).mp h with ⟨cut, d, h1, h2, h3⟩
          exact ⟨i, List.mem_cons_self i rest, cut, d, h1, h2, h3, rfl⟩
        · exact ⟨j, List.mem_cons_of_mem _ hj, p⟩
      · rintro ⟨j, hj, cut, d, h1, h2, h3, h4⟩
        rcases List.mem_cons.mp hj with rfl | hj
        · exact Or.inl h4
        · exact Or.inr ⟨j, hj, cut, d, h1, h2, h3, h4⟩
    · rw [show (sinceSplit since (i :: rest)).2 = (sinceSplit since rest).2 by
        simp [sinceSplit, h]]
      rw [ih]
      constructor
      · rintro ⟨j, hj, p⟩
        exact ⟨j, List.mem_cons_of_mem _ hj, p⟩
      · rintro ⟨j, hj, cut, d, h1, h2, h3, h4⟩
        rcases List.mem_cons.mp hj with rfl | hj
        · exact absurd ((skipHere_iff _ _).mpr ⟨cut, d, h1, h2, h3⟩) h
        · exact ⟨j, hj, cut, d, h1, h2, h3, h4⟩

/-- The surviving list of the selection loop is a sublist of the input. -/
theorem sinceSplit_fst_sublist (since : Option Int) (l : List FeedItem) :
    (sinceSplit since l).1.Sublist l := by
  induction l with
  | nil => simp [sinceSplit]
  | cons i rest ih =>
    by_cases h : skipHere since i = true
    · rw [show (sinceSplit since (i :: rest)).1 = (sinceSplit since rest).1 by
        simp [sinceSplit, h]]
      exact ih.cons i
    · rw [show (sinceSplit since (i :: rest)).1 = i :: (sinceSplit since rest).1 by
        simp [sinceSplit, h]]
      exact ih.cons₂ i

/-- Survivors of the date filter are not strictly older than the cutoff. -/
theorem sinceSplit_fst_not_old (since : Option Int) (l : List FeedItem) (i : FeedItem)
    (hmem : i ∈ (sinceSplit since l).1) (cut d : Int)
    (hs : since = some cut) (hd : i.sort_date = some d) : ¬ d < cut := by
  induction l with
  | nil => simp [sinceSplit] at hmem
  | cons j rest ih =>
    by_cases h : skipHere since j = true
    · rw [show (sinceSplit since (j :: rest)).1 = (sinceSplit since rest).1 by
        simp [sinceSplit, h]] at hmem
      exact ih hmem
    · rw [show (sinceSplit since (j :: rest)).1 = j :: (sinceSplit since rest).1 by
        simp [sinceSplit, h]] at hmem
      rcases List.mem_cons.mp hmem with rfl | hmem
      · intro hlt
        exact h ((skipHere_iff _ _).mpr ⟨cut, d, hs, hd, hlt⟩)
      · exact ih hmem

/-- Everything strictly older than the cutoff lands in the skip list. -/
theorem sinceSplit_complete (cut : Int) (l : List FeedItem) (i : FeedItem)
    (hmem : i ∈ l) (d : Int) (hd : i.sort_date = some d) (hlt : d < cut) :
    mkSkip i "older_than_since" ∈ (sinceSplit (some cut) l).2 :=
  (sinceSplit_snd_mem _ _ _).mpr ⟨i, hmem, cut, d, rfl, hd, hlt, rfl⟩

theorem selectItems_none_eq (items : List FeedItem) (since : Option Int) :
    selectItems items since none = sinceSplit since (items.mergeSort itemLe) := rfl

theorem selectItems_some_eq (items : List FeedItem) (since : Option Int) (m : Nat) :
    selectItems items since (some m) =
      ((sinceSplit since (items.mergeSort itemLe)).1.take m,
       (sinceSplit since (items.mergeSort itemLe)).2 ++
         ((sinceSplit since (items.mergeSort itemLe)).1.drop m).map
           (fun i => mkSkip i "max_items_limit")) := rfl

/-- Sorting facts reused by the C4 theorem. -/
theorem selectItems_sorted (items : List FeedItem) :
    (items.mergeSort itemLe).Perm items ∧
      List.Pairwise (fun a b => keyLe (sortKey a) (sortKey b) = true)
        (items.mergeSort itemLe) ∧
      List.Pairwise (fun a b => b.sort_date.isSome → a.sort_date.isSome)
        (items.mergeSort itemLe) := by
  have hp := List.sorted_mergeSort itemLe_trans itemLe_total items
  refine ⟨List.mergeSort_perm _ _, hp, hp.imp ?_⟩
  intro a b hab hb
  rcases ha : a.sort_date with _ | d
  · exfalso
    rcases hbd : b.sort_date with _ | e
    · rw [hbd] at hb; simp at hb
    · simp only [itemLe, sortKey, ha, hbd, keyLe] at hab
      simp at hab
  · simp

/-- The date-filtered list inherits the sort order. -/
theorem sinceSplit_pairwise (items : List FeedItem) (since : Option Int) :
    List.Pairwise (fun a b => keyLe (sortKey a) (sortKey b) = true)
      (sinceSplit since (items.mergeSort itemLe)).1 :=
  List.Pairwise.sublist (sinceSplit_fst_sublist since _) (selectItems_sorted items).2.1

/-- C4: `select_items` sorts candidates by (has-date descending, date
descending, normalized URL ascending), so undated items come after all dated
items; with a `since` cutoff every item dated strictly before the cutoff is
skipped as `older_than_since` and only such items are, so undated items are
never `since`-filtered; with `max_items` the selected list is the first
`max_items` of the date-filtered sorted list, everything beyond the cap is
skipped as `max_items_limit`, and every selected item sorts no later than
every capped-out item (the cap keeps the most-recent items). -/
theorem C4_select_items_spec (items : List FeedItem) (since : Option Int)
    (maxItems : Option Nat) :
    ((items.mergeSort itemLe).Perm items ∧
      List.Pairwise (fun a b => keyLe (sortKey a) (sortKey b) = true)
        (items.mergeSort itemLe) ∧
      List.Pairwise (fun a b => b.sort_date.isSome → a.sort_date.isSome)
        (items.mergeSort itemLe)) ∧
    (∀ cut, since = some cut →
      (∀ i ∈ items, ∀ d, i.sort_date = some d → d < cut →
        mkSkip i "older_than_since" ∈ (selectItems items since maxItems).2) ∧
      (∀ i ∈ (selectItems items since maxItems).1, ∀ d,
        i.sort_date = some d → ¬ d < cut)) ∧
    (∀ sk ∈ (selectItems items since maxItems).2, sk.reason = "older_than_since" →
      ∃ cut d, since = some cut ∧ sk.date = some d ∧ d < cut) ∧
    (∀ m, maxItems = some m →
      (selectItems items since maxItems).1 =
        (sinceSplit since (items.mergeSort itemLe)).1.take m ∧
      ∀ i ∈ (sinceSplit since (items.mergeSort itemLe)).1.drop m,
        mkSkip i "max_items_limit" ∈ (selectItems items since maxItems).2) ∧
    (∀ sk ∈ (selectItems items since maxItems).2, sk.reason = "max_items_limit" →
      ∀ a ∈ (selectItems items since maxItems).1, keyLe (sortKey a) (skKey sk) = true) ∧
    (maxItems = none →
      (selectItems items since maxItems).1 =
        (sinceSplit since (items.mergeSort itemLe)).1) := by
  have hsorted := selectItems_sorted items
  have hsel1 : ∀ i, i ∈ (selectItems items since maxItems).1 →
      i ∈ (sinceSplit since (items.mergeSort itemLe)).1 := by
    intro i hi
    rcases maxItems with _ | m
    · rwa [selectItems_none_eq] at hi
    · rw [selectItems_some_eq] at hi
      exact (List.take_sublist _ _).mem hi
  refine ⟨hsorted, ?_, ?_, ?_, ?_, ?_⟩
  · intro cut hcut
    constructor
    · intro i hi d hd hlt
      have hmem : i ∈ items.mergeSort itemLe := hsorted.1.mem_iff.mpr hi
      have hskip := sinceSplit_complete cut _ i hmem d hd hlt
      rw [← hcut] at hskip
      rcases maxItems with _ | m
      · rwa [selectItems_none_eq]
      · rw [selectItems_some_eq]
        exact List.mem_append_left _ hskip
    · intro i hi d hd
      exact sinceSplit_fst_not_old since _ i (hsel1 i hi) cut d hcut hd
  · intro sk hsk hreason
    rcases maxItems with _ | m
    · rw [selectItems_none_eq] at hsk
      rcases (sinceSplit_snd_mem since _ sk).mp hsk with ⟨j, _, cut, d, h1, h2, h3, h4⟩
      refine ⟨cut, d, h1, ?_, h3⟩
      rw [h4]
      exact h2
    · rw [selectItems_some_eq] at hsk
      rcases List.mem_append.mp hsk with hsk | hsk
      · rcases (sinceSplit_snd_mem since _ sk).mp hsk with ⟨j, _, cut, d, h1, h2, h3, h4⟩
        refine ⟨cut, d, h1, ?_, h3⟩
        rw [h4]
        exact h2
      · rcases List.mem_map.mp hsk with ⟨j, _, rfl⟩
        simp [mkSkip] at hreason
  · intro m hm
    subst hm
    rw [selectItems_some_eq]
    refine ⟨rfl, ?_⟩
    intro i hi
    exact List.mem_append_right _ (List.mem_map.mpr ⟨i, hi, rfl⟩)
  · intro sk hsk hreason a ha
    rcases maxItems with _ | m
    · rw [selectItems_none_eq] at hsk
      rcases (sinceSplit_snd_mem since _ sk).mp hsk with ⟨j, _, cut, d, h1, h2, h3, h4⟩
      rw [h4] at hreason
      simp [mkSkip] at hreason
    · rw [selectItems_some_eq] at hsk
      rcases List.mem_append.mp hsk with hsk | hsk
      · rcases (sinceSplit_snd_mem since _ sk).mp hsk with ⟨j, _, cut, d, h1, h2, h3, h4⟩
        rw [h4] at hreason
        simp [mkSkip] at hreason
      · rcases List.mem_map.mp hsk with ⟨j, hj, rfl⟩
        rw [skKey_mkSkip]
        rw [selectItems_some_eq] at ha
        have hpair := sinceSplit_pairwise items since
        have hsplit := List.take_append_drop m (sinceSplit since (items.mergeSort itemLe)).1
        rw [← hsplit] at hpair
        exact (List.pairwise_append.mp hpair).2.2 a ha j hj
  · intro hm
    subst hm
    rw [selectItems_none_eq]

/-- C5: for each namespace in \x7bhtml, text, summary, meta\x7d, `put` then
`get` at the same url and discriminator returns the stored data (for html:
when the payload is within the byte ceiling, and assuming the underlying
read/write do not fail); `put` of an oversized html payload is a silent
no-op, so a subsequent `get` finds nothing; `get` degrades to absent on a
read failure instead of raising, and `put` swallows write failures. -/
theorem C5_cache_round_trip (maxB : Nat) (fs : CacheFS) (ns url disc data : String)
    (hns : ns = "html" ∨ ns = "text" ∨ ns = "summary" ∨ ns = "meta") :
    ((ns = "html" → data.utf8ByteSize ≤ maxB) →
      fs.writeFails (pathFor ns url disc) = false →
      fs.readFails (pathFor ns url disc) = false →
      cacheGet (cachePut maxB fs ns url data disc) ns url disc = some data) ∧
    (ns = "html" → maxB < data.utf8ByteSize →
      cachePut maxB fs ns url data disc = fs ∧
      (fsLookup fs.entries (pathFor ns url disc) = none →
        cacheGet (cachePut maxB fs ns url data disc) ns url disc = none)) ∧
    (fs.readFails (pathFor ns url disc) = true → cacheGet fs ns url disc = none) ∧
    (fs.writeFails (pathFor ns url disc) = true →
      (ns = "html" → data.utf8ByteSize ≤ maxB) →
      cachePut maxB fs ns url data disc = fs) := by
  clear hns
  refine ⟨?_, ?_, ?_, ?_⟩
  · intro hsize hw hr
    have hover : (ns == "html" && data.utf8ByteSize > maxB) = false := by
      rcases eq_or_ne ns "html" with rfl | hne
      · simp [Nat.not_lt.mpr (hsize rfl)]
      · simp [hne]
    simp [cachePut, hover, hw, cacheGet, fsLookup, hr]
  · intro hhtml hover
    have hcond : (ns == "html" && data.utf8ByteSize > maxB) = true := by
      simp [hhtml, hover]
    constructor
    · simp [cachePut, hcond]
    · intro hnone
      simp [cachePut, hcond, cacheGet, hnone]
  · intro hr
    unfold cacheGet
    rcases h : fsLookup fs.entries (pathFor ns url disc) with _ | c
    · rfl
    · simp [hr]
  · intro hw hsize
    have hover : (ns == "html" && data.utf8ByteSize > maxB) = false := by
      rcases eq_or_ne ns "html" with rfl | hne
      · simp [Nat.not_lt.mpr (hsize rfl)]
      · simp [hne]
    simp [cachePut, hover, hw]

theorem C5_cache_round_trip_witness :
    cacheGet (cachePut 10 ⟨[], fun _ => false, fun _ => false⟩ "text" "u" "d" "v")
      "text" "u" "v" = some "d" :=
  (C5_cache_round_trip 10 ⟨[], fun _ => false, fun _ => false⟩ "text" "u" "v" "d"
    (Or.inr (Or.inl rfl))).1 (by decide) rfl rfl

theorem fetchGo_decisive (retries : Nat) (net : Nat → NetOutcome) (k : Nat)
    (hk2 : k ≤ retries) (hdec : decisiveAt net retries k) :
    ∀ a rem lastE statusC, rem = retries + 1 - a → 1 ≤ a → a ≤ k →
    (∀ j, a ≤ j → j < k → retryableOutcome (net j) = true) →
    (fetchGo retries net a rem lastE statusC).sleeps
        = (List.range' a (k - a)).map backoff ∧
    (fetchGo retries net a rem lastE statusC).attempts = k + 1 - a ∧
    decisiveSpec net k (fetchGo retries net a rem lastE statusC).success
      (fetchGo retries net a rem lastE statusC).lastError
      (fetchGo retries net a rem lastE statusC).statusCode := by
  intro a rem
  induction rem generalizing a with
  | zero =>
    intro lastE statusC hrem ha1 hak _
    omega
  | succ r ih =>
    intro lastE statusC hrem ha1 hak hr
    rcases eq_or_lt_of_le hak with rfl | hlt
    · have hzero : a - a = 0 := by omega
      unfold decisiveAt at hdec
      rcases hnet : net a with ⟨s, b⟩ | m | m
      · rw [hnet] at hdec
        have hcond : (retryableStatus s && decide (a < retries)) = false := by
          rcases hcond : retryableStatus s with _ | _
          · simp
          · simp only [Bool.true_and, decide_eq_false_iff_not]
            intro hlt2
            exact hdec ⟨hcond, hlt2⟩
        by_cases h400 : 400 ≤ s
        · have hstep : fetchGo retries net a (r + 1) lastE statusC =
              ⟨none, some ("http_error:" ++ toString s), some s, [], 1⟩ := by
            simp only [fetchGo, hnet, hcond, Bool.false_eq_true, if_false, if_pos h400]
          rw [hstep]
          refine ⟨by simp [hzero], by show (1 : Nat) = a + 1 - a; omega, ?_⟩
          unfold decisiveSpec
          rw [hnet]
          simp [h400]
        · have hstep : fetchGo retries net a (r + 1) lastE statusC =
              ⟨some b, lastE, some s, [], 1⟩ := by
            simp only [fetchGo, hnet, hcond, Bool.false_eq_true, if_false, if_neg h400]
          rw [hstep]
          refine ⟨by simp [hzero], by show (1 : Nat) = a + 1 - a; omega, ?_⟩
          unfold decisiveSpec
          rw [hnet]
          simp [h400]
      · rw [hnet] at hdec
        have hstep : fetchGo retries net a (r + 1) lastE statusC =
            ⟨none, some m, statusC, [], 1⟩ := by
          simp only [fetchGo, hnet]
          rw [if_neg (by omega)]
        rw [hstep]
        refine ⟨by simp [hzero], by show (1 : Nat) = a + 1 - a; omega, ?_⟩
        unfold decisiveSpec
        rw [hnet]
        exact ⟨rfl, rfl⟩
      · have hstep : fetchGo retries net a (r + 1) lastE statusC =
            ⟨none, some m, statusC, [], 1⟩ := by
          simp only [fetchGo, hnet]
        rw [hstep]
        refine ⟨by simp [hzero], by show (1 : Nat) = a + 1 - a; omega, ?_⟩
        unfold decisiveSpec
        rw [hnet]
        exact ⟨rfl, rfl⟩
    · have hra : retryableOutcome (net a) = true := hr a le_rfl hlt
      have haret : a < retries := lt_of_lt_of_le hlt hk2
      have hrange : List.range' a (k - a) = a :: List.range' (a + 1) (k - (a + 1)) := by
        have h1 : k - a = (k - (a + 1)) + 1 := by omega
        rw [h1, List.range'_succ]
      rcases hnet : net a with ⟨s, b⟩ | m | m
      · rw [hnet] at hra
        have hcond : (retryableStatus s && decide (a < retries)) = true := by
          simp only [retryableOutcome] at hra
          simp [hra, haret]
        have hstep : fetchGo retries net a (r + 1) lastE statusC =
            ⟨(fetchGo retries net (a + 1) r lastE (some s)).success,
             (fetchGo retries net (a + 1) r lastE (some s)).lastError,
             (fetchGo retries net (a + 1) r lastE (some s)).statusCode,
             backoff a :: (fetchGo retries net (a + 1) r lastE (some s)).sleeps,
             (fetchGo retries net (a + 1) r lastE (some s)).attempts + 1⟩ := by
          simp only [fetchGo, hnet, hcond, if_true]
        have hrec := ih (a + 1) lastE (some s) (by omega) (by omega) (by omega)
          (fun j h1 h2 => hr j (by omega) h2)
        rw [hstep]
        refine ⟨?_, ?_, ?_⟩
        · simp only [hrange, List.map_cons]
          rw [hrec.1]
        · have h2 := hrec.2.1
          simp only [h2]
          omega
        · exact hrec.2.2
      · have hstep : fetchGo retries net a (r + 1) lastE statusC =
            ⟨(fetchGo retries net (a + 1) r (some m) statusC).success,
             (fetchGo retries net (a + 1) r (some m) statusC).lastError,
             (fetchGo retries net (a + 1) r (some m) statusC).statusCode,
             backoff a :: (fetchGo retries net (a + 1) r (some m) statusC).sleeps,
             (fetchGo retries net (a + 1) r (some m) statusC).attempts + 1⟩ := by
          simp only [fetchGo, hnet]
          rw [if_pos haret]
        have hrec := ih (a + 1) (some m) statusC (by omega) (by omega) (by omega)
          (fun j h1 h2 => hr j (by omega) h2)
        rw [hstep]
        refine ⟨?_, ?_, ?_⟩
        · simp only [hrange, List.map_cons]
          rw [hrec.1]
        · have h2 := hrec.2.1
          simp only [h2]
          omega
        · exact hrec.2.2
      · rw [hnet] at hra
        simp [retryableOutcome] at hra

theorem append_ne_empty_of_ne (pre x : String) (hpre : pre.data ≠ []) :
    ((pre ++ x) == "") = false := by
  rw [beq_eq_false_iff_ne]
  intro h
  have hd : (pre ++ x).data = ("" : String).data := by rw [h]
  rw [String.data_append] at hd
  rcases pre with ⟨pd⟩
  rcases pd with _ | ⟨c, cs⟩
  · exact hpre rfl
  · cases hd

/-- C3 (amended: a present but empty cached body does not short-circuit —
see the counterexample): `fetch_article` with a non-empty cached html body
returns immediately from cache with status 200 and no network attempt;
otherwise it attempts up to `retries` GETs, retrying exactly on 429/5xx
statuses and network errors, sleeping `0.5 * 2^(attempt-1)` seconds after
each non-final retried attempt; a non-retried status ≥ 400 ends the fetch
with error `http_error:<status>` after exactly that attempt; a success
(status < 400) returns the body and writes it to the html cache; a network
error on the final attempt reports that error's message; with no attempts
available the error is `fetch_failed`. -/
theorem C3_fetch_article_spec (url : String) (cached : Option String) (retries : Nat)
    (net : Nat → NetOutcome) :
    (∀ h, cached = some h → h ≠ "" →
      fetchArticle url cached retries net = ⟨⟨url, some 200, some h, none, true⟩, [], 0, none⟩) ∧
    (fetchArticle url (some "") retries net = fetchArticle url none retries net) ∧
    (cached = none → retries = 0 →
      (fetchArticle url cached retries net).result.error = some "fetch_failed" ∧
      (fetchArticle url cached retries net).attempts = 0) ∧
    (cached = none →
      ∀ k, 1 ≤ k → k ≤ retries →
      (∀ j, 1 ≤ j → j < k → retryableOutcome (net j) = true) →
      (∀ s b, net k = .resp s b → ¬ (retryableStatus s = true ∧ k < retries) → 400 ≤ s →
        (fetchArticle url cached retries net).result.error =
          some ("http_error:" ++ toString s) ∧
        (fetchArticle url cached retries net).result.status_code = some s ∧
        (fetchArticle url cached retries net).result.html = none ∧
        (fetchArticle url cached retries net).attempts = k ∧
        (fetchArticle url cached retries net).sleeps = (List.range' 1 (k - 1)).map backoff) ∧
      (∀ s b, net k = .resp s b → s < 400 →
        (fetchArticle url cached retries net).result.html = some b ∧
        (fetchArticle url cached retries net).result.status_code = some s ∧
        (fetchArticle url cached retries net).result.error = none ∧
        (fetchArticle url cached retries net).result.from_cache = false ∧
        (fetchArticle url cached retries net).htmlPut = some b ∧
        (fetchArticle url cached retries net).attempts = k ∧
        (fetchArticle url cached retries net).sleeps = (List.range' 1 (k - 1)).map backoff) ∧
      (∀ m, net k = .netErr m → k = retries → m ≠ "" →
        (fetchArticle url cached retries net).result.error = some m ∧
        (fetchArticle url cached retries net).result.html = none ∧
        (fetchArticle url cached retries net).attempts = k ∧
        (fetchArticle url cached retries net).sleeps = (List.range' 1 (k - 1)).map backoff)) := by
  refine ⟨?_, ?_, ?_, ?_⟩
  · rintro h rfl hne
    have hb : (h == "") = false := beq_eq_false_iff_ne.mpr hne
    simp [fetchArticle, hb]
  · simp [fetchArticle]
  · rintro rfl rfl
    constructor <;> rfl
  · rintro rfl k hk1 hk2 hr
    refine ⟨?_, ?_, ?_⟩
    · intro s b hnet hnf h400
      have hdec : decisiveAt net retries k := by
        unfold decisiveAt
        rw [hnet]
        exact hnf
      have hmain := fetchGo_decisive retries net k hk2 hdec 1 retries none none
        (by omega) le_rfl hk1 (fun j h1 h2 => hr j h1 h2)
      rcases hmain with ⟨hs, ha, hspec⟩
      unfold decisiveSpec at hspec
      simp only [hnet] at hspec
      rw [if_pos h400] at hspec
      rcases hspec with ⟨hsucc, herr, hstat⟩
      have ha2 : (fetchGo retries net 1 retries none none).attempts = k := by
        rw [ha]
        omega
      have hne : (("http_error:" ++ toString s) == "") = false :=
        append_ne_empty_of_ne _ _ (by decide)
      rw [show fetchArticle url none retries net = fetchNet url retries net from rfl]
      simp only [fetchNet, hsucc]
      simp [herr, hstat, pyOrStr, hne, ha2, hs]
    · intro s b hnet h400
      have hdec : decisiveAt net retries k := by
        unfold decisiveAt
        rw [hnet]
        rintro ⟨habs, -⟩
        simp only [retryableStatus, Bool.or_eq_true, beq_iff_eq, Bool.and_eq_true,
          decide_eq_true_eq] at habs
        omega
      have hmain := fetchGo_decisive retries net k hk2 hdec 1 retries none none
        (by omega) le_rfl hk1 (fun j h1 h2 => hr j h1 h2)
      rcases hmain with ⟨hs, ha, hspec⟩
      unfold decisiveSpec at hspec
      simp only [hnet] at hspec
      rw [if_neg (by omega)] at hspec
      rcases hspec with ⟨hsucc, hstat⟩
      have ha2 : (fetchGo retries net 1 retries none none).attempts = k := by
        rw [ha]
        omega
      rw [show fetchArticle url none retries net = fetchNet url retries net from rfl]
      simp only [fetchNet, hsucc]
      simp [hstat, ha2, hs]
    · intro m hnet hkr hm
      have hdec : decisiveAt net retries k := by
        unfold decisiveAt
        rw [hnet]
        exact hkr
      have hmain := fetchGo_decisive retries net k hk2 hdec 1 retries none none
        (by omega) le_rfl hk1 (fun j h1 h2 => hr j h1 h2)
      rcases hmain with ⟨hs, ha, hspec⟩
      unfold decisiveSpec at hspec
      simp only [hnet] at hspec
      rcases hspec with ⟨hsucc, herr⟩
      have ha2 : (fetchGo retries net 1 retries none none).attempts = k := by
        rw [ha]
        omega
      have hne : (m == "") = false := beq_eq_false_iff_ne.mpr hm
      rw [show fetchArticle url none retries net = fetchNet url retries net from rfl]
      simp only [fetchNet, hsucc]
      simp [herr, pyOrStr, hne, ha2, hs]

theorem C3_fetch_article_spec_witness :
    (fetchArticle "u" (some "page") 3 (fun _ => NetOutcome.netErr "boom")).result
      = ⟨"u", some 200, some "page", none, true⟩ ∧
    (fetchArticle "u" none 3 (fun j => if j = 1 then NetOutcome.resp 503 "e"
        else NetOutcome.resp 200 "ok")).result.html = some "ok" ∧
    (fetchArticle "u" none 3 (fun j => if j = 1 then NetOutcome.resp 503 "e"
        else NetOutcome.resp 200 "ok")).sleeps = [backoff 1] := by
  refine ⟨?_, ?_⟩
  · have h := (C3_fetch_article_spec "u" (some "page") 3 (fun _ => NetOutcome.netErr "boom")).1
      "page" rfl (by decide)
    rw [h]
  · have h := ((C3_fetch_article_spec "u" none 3 (fun j => if j = 1 then NetOutcome.resp 503 "e"
        else NetOutcome.resp 200 "ok")).2.2.2 rfl 2 (by omega) (by omega)
      (by intro j h1 h2
          have hj : j = 1 := Nat.le_antisymm (by omega) h1
          subst hj
          rfl)).2.1 200 "ok" rfl (by omega)
    exact ⟨h.1, (h.2.2.2.2.2.2).trans (by rfl)⟩

/-- C3, counterexample to the claim as stated: an html cache entry that is
present but empty does not short-circuit the fetch — `from_cache` stays
`false` and a network attempt is made. -/
theorem C3_counterexample :
    (fetchArticle "u" (some "") 1 (fun _ => NetOutcome.resp 200 "b")).result.from_cache
        = false ∧
    (fetchArticle "u" (some "") 1 (fun _ => NetOutcome.resp 200 "b")).attempts = 1 := by
  constructor <;> rfl

theorem updNormalized_source (i : FeedItem) (k : String) :
    (updNormalized i k).source_type = i.source_type := rfl

theorem updNormalized_url (i : FeedItem) (k : String) :
    (updNormalized i k).normalized_url = k := rfl

theorem odFind_append_single (k k2 : String) (v : FeedItem) (acc : List (String × FeedItem)) :
    odFind k (acc ++ [(k2, v)]) =
      match odFind k acc with
      | some x => some x
      | none => if k2 == k then some v else none := by
  unfold odFind
  rw [List.find?_append]
  rcases h : acc.find? (fun e => e.1 == k) with _ | e
  · simp only [h, Option.none_or]
    by_cases hk : k2 == k
    · simp [List.find?_cons, hk]
    · simp only [List.find?_cons]
      rw [show ((k2, v).1 == k) = false from by simpa using hk]
      simp
  · simp [h]

theorem odFind_odSet_self (k : String) (v w : FeedItem) (acc : List (String × FeedItem))
    (h : odFind k acc = some w) : odFind k (odSet k v acc) = some v := by
  induction acc with
  | nil => simp [odFind] at h
  | cons e rest ih =>
    rcases e with ⟨k2, v2⟩
    by_cases hk : k2 = k
    · subst hk
      simp [odSet, odFind, List.find?_cons]
    · have hk2 : (k2 == k) = false := by simpa using hk
      have h2 : odFind k ((k2, v2) :: rest) = odFind k rest := by
        simp [odFind, List.find?_cons, hk2]
      have h3 : odSet k v ((k2, v2) :: rest) = (k2, v2) :: odSet k v rest := by
        simp [odSet, hk]
      have h4 : odFind k ((k2, v2) :: odSet k v rest) = odFind k (odSet k v rest) := by
        simp [odFind, List.find?_cons, hk2]
      rw [h3, h4]
      rw [h2] at h
      exact ih h

theorem odFind_odSet_ne (k k' : String) (v : FeedItem) (acc : List (String × FeedItem))
    (h : ¬ k' = k) : odFind k' (odSet k v acc) = odFind k' acc := by
  have hkk : (k == k') = false := by
    simp only [beq_eq_false_iff_ne]
    exact fun hh => h hh.symm
  induction acc with
  | nil => simp [odSet, odFind, List.find?_cons, hkk, List.find?]
  | cons e rest ih =>
    rcases e with ⟨k2, v2⟩
    by_cases hk : k2 = k
    · subst hk
      simp [odSet, odFind, List.find?_cons, hkk]
    · by_cases hb : (k2 == k') = true
      · simp [odSet, if_neg hk, odFind, List.find?_cons, hb]
      · have hb2 : (k2 == k') = false := by simpa using hb
        simpa [odSet, if_neg hk, odFind, List.find?_cons, hb2] using ih

theorem odSet_map_fst (k : String) (v : FeedItem) (acc : List (String × FeedItem)) :
    odFind k acc = some v → ∀ w, (odSet k w acc).map Prod.fst = acc.map Prod.fst := by
  induction acc with
  | nil => intro h; simp [odFind] at h
  | cons e rest ih =>
    rcases e with ⟨k2, v2⟩
    intro h w
    by_cases hk : k2 = k
    · subst hk
      simp [odSet]
    · have hk2 : (k2 == k) = false := by simpa using hk
      have h2 : odFind k ((k2, v2) :: rest) = odFind k rest := by
        simp [odFind, List.find?_cons, hk2]
      rw [h2] at h
      have h3 : odSet k w ((k2, v2) :: rest) = (k2, v2) :: odSet k w rest := by
        simp [odSet, hk]
      rw [h3, List.map_cons, List.map_cons, ih h w]

theorem odFind_eq_none_iff (k : String) (acc : List (String × FeedItem)) :
    odFind k acc = none ↔ k ∉ acc.map Prod.fst := by
  unfold odFind
  rcases h : acc.find? (fun e => e.1 == k) with _ | e
  · rw [h]
    rw [List.find?_eq_none] at h
    simp only [Option.map_none', true_iff]
    intro hmem
    rcases List.mem_map.mp hmem with ⟨e, he, rfl⟩
    exact h e he (by simp)
  · rw [h]
    simp only [Option.map_some']
    constructor
    · intro hh; cases hh
    · intro hmem
      exfalso
      apply hmem
      have hpe := List.find?_some h
      have hme := List.mem_of_find?_eq_some h
      simp only [beq_iff_eq] at hpe
      exact hpe ▸ List.mem_map_of_mem Prod.fst hme

theorem firstSeen_snoc (l : List String) (k : String) : ∀ acc,
    firstSeen acc (l ++ [k]) =
      (if (firstSeen acc l).contains k then firstSeen acc l else firstSeen acc l ++ [k]) := by
  induction l with
  | nil => intro acc; simp [firstSeen]
  | cons x rest ih =>
    intro acc
    have hstep : ∀ tail, firstSeen acc (x :: tail) =
        (if acc.contains x then firstSeen acc tail else firstSeen (acc ++ [x]) tail) := by
      intro tail
      rfl
    rw [List.cons_append, hstep, hstep]
    by_cases hx : acc.contains x
    · rw [if_pos hx, if_pos hx, ih acc]
    · rw [if_neg hx, if_neg hx, ih (acc ++ [x])]

theorem firstSeen_nodup (l : List String) : ∀ acc, acc.Nodup → (firstSeen acc l).Nodup := by
  induction l with
  | nil => intro acc h; exact h
  | cons x rest ih =>
    intro acc h
    have hstep : firstSeen acc (x :: rest) =
        (if acc.contains x then firstSeen acc rest else firstSeen (acc ++ [x]) rest) := rfl
    rw [hstep]
    by_cases hx : acc.contains x
    · rw [if_pos hx]
      exact ih acc h
    · rw [if_neg hx]
      refine ih (acc ++ [x]) ?_
      rw [List.nodup_append]
      refine ⟨h, List.nodup_singleton x, ?_⟩
      intro a ha hax
      rw [List.mem_singleton] at hax
      exact absurd (List.elem_iff.mpr (hax ▸ ha)) (by simpa using hx)

theorem feedPred_of_find (key : FeedItem → String) (k : String) (l : List FeedItem)
    (f : FeedItem)
    (h : l.find? (fun i => key i == k && (i.source_type == SourceType.feed)) = some f) :
    key f = k ∧ f.source_type = SourceType.feed := by
  have hp := List.find?_some h
  simp only [Bool.and_eq_true, beq_iff_eq] at hp
  exact hp

/-- How `expectedEntry` evolves when one more candidate is processed. -/
theorem expectedEntry_snoc (key : FeedItem → String) (processed : List FeedItem)
    (i : FeedItem) (k : String) :
    expectedEntry key (processed ++ [i]) k =
      match expectedEntry key processed k with
      | some e =>
        if e.source_type == SourceType.direct && key i == k
            && (i.source_type == SourceType.feed) then
          some (updNormalized i k)
        else some e
      | none => if key i == k then some (updNormalized i k) else none := by
  unfold expectedEntry
  rw [List.find?_append, List.find?_append]
  rcases hf : processed.find? (fun j => key j == k && (j.source_type == SourceType.feed))
      with _ | f
  · rcases hp : processed.find? (fun j => key j == k) with _ | p
    · simp only [hf, hp, Option.none_or, Option.map_none']
      by_cases hk : key i = k
      · by_cases hs : i.source_type = SourceType.feed
        · simp [List.find?_cons, hk, hs]
        · have hs2 : (i.source_type == SourceType.feed) = false := by simpa using hs
          simp [List.find?_cons, hk, hs2]
      · have hk2 : (key i == k) = false := by simpa using hk
        simp [List.find?_cons, hk2]
    · have hpk : key p = k := by simpa using List.find?_some hp
      have hps : (p.source_type == SourceType.feed) = false := by
        rcases hfn : (p.source_type == SourceType.feed) with _ | _
        · rfl
        · exfalso
          have := List.find?_eq_none.mp hf p (List.mem_of_find?_eq_some hp)
          simp [hpk, hfn] at this
      simp only [hf, hp, Option.none_or, Option.map_some']
      have hpd : p.source_type = SourceType.direct := by
        rcases hsrc : p.source_type with _ | _
        · rw [hsrc] at hps
          simp at hps
        · rfl
      by_cases hk : key i = k
      · by_cases hs : i.source_type = SourceType.feed
        · have : (updNormalized p k).source_type = SourceType.direct := by
            rw [updNormalized_source, hpd]
          simp [List.find?_cons, hk, hs, this]
        · have hs2 : (i.source_type == SourceType.feed) = false := by simpa using hs
          have : (updNormalized p k).source_type = SourceType.direct := by
            rw [updNormalized_source, hpd]
          simp [List.find?_cons, hk, hs2, this]
      · have hk2 : (key i == k) = false := by simpa using hk
        simp [List.find?_cons, hk2]
  · have hfk := feedPred_of_find key k processed f hf
    have hfs : (updNormalized f k).source_type = SourceType.feed := by
      rw [updNormalized_source, hfk.2]
    have hor : (some f).or (List.find? (fun j => key j == k
        && (j.source_type == SourceType.feed)) [i]) = some f := rfl
    simp only [hf, hor, Option.map_some']
    simp [hfs]

theorem dedupStep_none (acc : List (String × FeedItem)) (i : FeedItem) (k : String)
    (h : odFind k acc = none) :
    dedupStep acc i k = acc ++ [(k, updNormalized i k)] := by
  simp [dedupStep, h]

theorem dedupStep_some (acc : List (String × FeedItem)) (i : FeedItem) (k : String)
    (ex : FeedItem) (h : odFind k acc = some ex) :
    dedupStep acc i k =
      if ex.source_type == SourceType.direct && (i.source_type == SourceType.feed) then
        odSet k (updNormalized i k) acc
      else acc := by
  simp [dedupStep, h, updNormalized]

theorem odFind_some_mem_fst (k : String) (acc : List (String × FeedItem)) (ex : FeedItem)
    (h : odFind k acc = some ex) : k ∈ acc.map Prod.fst := by
  by_contra hmem
  rw [← odFind_eq_none_iff] at hmem
  rw [h] at hmem
  cases hmem

/-- The `deduplicate` loop invariant: the accumulator's keys are the
first-seen normalized URLs of the processed prefix, and its entry for every
key is the first feed candidate with that key, else the first candidate. -/
theorem dedupGo_spec (key : FeedItem → String) :
    ∀ (todo processed : List FeedItem) (acc : List (String × FeedItem)),
    (∀ i ∈ todo, normalizeUrl i.url = some (key i)) →
    acc.map Prod.fst = firstSeen [] (processed.map key) →
    (∀ k, odFind k acc = expectedEntry key processed k) →
    ∃ final, dedupGo todo acc = some final ∧
      final.map Prod.fst = firstSeen [] ((processed ++ todo).map key) ∧
      (∀ k, odFind k final = expectedEntry key (processed ++ todo) k) := by
  intro todo
  induction todo with
  | nil =>
    intro processed acc _ h1 h2
    exact ⟨acc, rfl, by simpa using h1, by simpa using h2⟩
  | cons i rest ih =>
    intro processed acc hn h1 h2
    have hni : normalizeUrl i.url = some (key i) := hn i (List.mem_cons_self i rest)
    have hstep : dedupGo (i :: rest) acc = dedupGo rest (dedupStep acc i (key i)) := by
      simp [dedupGo, hni]
    rw [hstep]
    have hkeys : (dedupStep acc i (key i)).map Prod.fst
        = firstSeen [] ((processed ++ [i]).map key) := by
      rw [List.map_append, show List.map key [i] = [key i] from rfl, firstSeen_snoc, ← h1]
      rcases ho : odFind (key i) acc with _ | ex
      · have hnotmem : key i ∉ acc.map Prod.fst := (odFind_eq_none_iff _ _).mp ho
        have hcontains : (acc.map Prod.fst).contains (key i) = false := by
          rcases hc : (acc.map Prod.fst).contains (key i) with _ | _
          · rfl
          · exact absurd (List.elem_iff.mp hc) hnotmem
        rw [dedupStep_none acc i (key i) ho,
          if_neg (by rw [hcontains]; exact Bool.false_ne_true), List.map_append]
        rfl
      · have hmem : key i ∈ acc.map Prod.fst := odFind_some_mem_fst _ _ _ ho
        rw [dedupStep_some acc i (key i) ex ho, if_pos (List.elem_iff.mpr hmem)]
        by_cases hc : (ex.source_type == SourceType.direct
            && (i.source_type == SourceType.feed)) = true
        · rw [if_pos hc]
          exact odSet_map_fst (key i) ex acc ho _
        · rw [if_neg hc]
    have hfind : ∀ k, odFind k (dedupStep acc i (key i))
        = expectedEntry key (processed ++ [i]) k := by
      intro k
      rw [expectedEntry_snoc, ← h2]
      by_cases hk : key i = k
      · subst hk
        rcases ho : odFind (key i) acc with _ | ex
        · rw [dedupStep_none acc i (key i) ho, odFind_append_single, ho]
        · rw [dedupStep_some acc i (key i) ex ho]
          have hupd := odFind_odSet_self (key i) (updNormalized i (key i)) ex acc ho
          by_cases hc : (ex.source_type == SourceType.direct
              && (i.source_type == SourceType.feed)) = true
          · rcases Bool.and_eq_true_iff.mp hc with ⟨hc1, hc3⟩
            rw [if_pos hc]
            simp [hupd, hc1, hc3]
          · rw [if_neg hc, ho]
            have hc2 : (ex.source_type == SourceType.direct && (key i == key i)
                && (i.source_type == SourceType.feed)) = false := by
              rcases hb1 : (ex.source_type == SourceType.direct) with _ | _
              · simp [hb1]
              · rcases hb2 : (i.source_type == SourceType.feed) with _ | _
                · simp [hb1, hb2]
                · exact absurd (by simp [hb1, hb2]) hc
            have hprop : ¬ (ex.source_type = SourceType.direct
                ∧ i.source_type = SourceType.feed) := by
              intro hand
              exact hc (by simp [hand.1, hand.2])
            simp [hc2, hprop]
      · have hk2 : (key i == k) = false := by simpa using hk
        have hlhs : odFind k (dedupStep acc i (key i)) = odFind k acc := by
          rcases ho : odFind (key i) acc with _ | ex
          · rw [dedupStep_none acc i (key i) ho, odFind_append_single]
            rcases hoo : odFind k acc with _ | v
            · simp [hk2]
            · simp
          · rw [dedupStep_some acc i (key i) ex ho]
            by_cases hc : (ex.source_type == SourceType.direct
                && (i.source_type == SourceType.feed)) = true
            · rw [if_pos hc]
              exact odFind_odSet_ne (key i) k _ acc (fun hh => hk hh.symm)
            · rw [if_neg hc]
        rw [hlhs]
        rcases hoo : odFind k acc with _ | v
        · simp [hk2]
        · simp [hk2]
    have hres := ih (processed ++ [i]) (dedupStep acc i (key i))
      (fun j hj => hn j (List.mem_cons_of_mem _ hj)) hkeys hfind
    rcases hres with ⟨final, hgo, hf1, hf2⟩
    refine ⟨final, hgo, ?_, ?_⟩
    · rw [hf1]
      rw [List.append_assoc]
      rfl
    · intro k
      rw [hf2 k, List.append_assoc]
      rfl

theorem odFind_of_mem_nodup (acc : List (String × FeedItem))
    (hnd : (acc.map Prod.fst).Nodup) (k : String) (v : FeedItem) (hm : (k, v) ∈ acc) :
    odFind k acc = some v := by
  induction acc with
  | nil => cases hm
  | cons e rest ih =>
    rcases e with ⟨k2, v2⟩
    rw [List.map_cons, List.nodup_cons] at hnd
    rcases List.mem_cons.mp hm with heq | hm2
    · rcases heq
      simp [odFind, List.find?_cons]
    · have hne : (k2 == k) = false := by
        simp only [beq_eq_false_iff_ne]
        rintro rfl
        exact hnd.1 (List.mem_map.mpr ⟨(k2, v), hm2, rfl⟩)
      have hstep : odFind k ((k2, v2) :: rest) = odFind k rest := by
        simp [odFind, List.find?_cons, hne]
      rw [hstep]
      exact ih hnd.2 hm2

/-- C8: `deduplicate` yields exactly one entry per normalized URL, in
first-seen order; the entry kept for each normalized URL is the first
feed-sourced candidate bearing it if any exists (so a feed/direct pair
collapses to the feed variant regardless of input order, and a feed-sourced
entry is never displaced by a direct-sourced one), else the first candidate
bearing it. -/
theorem C8_deduplicate_spec (items : List FeedItem) (key : FeedItem → String)
    (hkeys : ∀ i ∈ items, normalizeUrl i.url = some (key i)) :
    ∃ out, deduplicate items = some out ∧
      (out.map FeedItem.normalized_url).Nodup ∧
      out.map FeedItem.normalized_url = firstSeen [] (items.map key) ∧
      (∀ e ∈ out, expectedEntry key items e.normalized_url = some e) ∧
      (∀ e ∈ out, ∀ f ∈ items, key f = e.normalized_url →
        f.source_type = SourceType.feed → e.source_type = SourceType.feed) := by
  have hbase2 : ∀ k, odFind k ([] : List (String × FeedItem)) = expectedEntry key [] k := by
    intro k
    rfl
  rcases dedupGo_spec key items [] [] hkeys rfl hbase2 with ⟨final, hgo, hf1, hf2⟩
  rw [List.nil_append] at hf1 hf2
  have hnd : (final.map Prod.fst).Nodup := by
    rw [hf1]
    exact firstSeen_nodup _ [] List.nodup_nil
  have hval : ∀ p ∈ final, (p.2).normalized_url = p.1 := by
    rintro ⟨k, v⟩ hp
    have h := odFind_of_mem_nodup final hnd k v hp
    rw [hf2 k] at h
    unfold expectedEntry at h
    rcases hfind : items.find? (fun j => key j == k && (j.source_type == SourceType.feed))
        with _ | f
    · simp only [hfind, Option.map_eq_some'] at h
      rcases h with ⟨j, _, hj⟩
      rw [← hj, updNormalized_url]
    · simp only [hfind, Option.some.injEq] at h
      rw [← h, updNormalized_url]
  have hmapmap : (final.map Prod.snd).map FeedItem.normalized_url = final.map Prod.fst := by
    rw [List.map_map]
    refine List.map_eq_map_iff.mpr ?_
    intro p hp
    exact hval p hp
  refine ⟨final.map Prod.snd, ?_, ?_, ?_, ?_, ?_⟩
  · unfold deduplicate
    rw [hgo, Option.map_some']
  · rw [hmapmap]
    exact hnd
  · rw [hmapmap, hf1]
  · intro e he
    rcases List.mem_map.mp he with ⟨p, hp, rfl⟩
    have hk := hval p hp
    rw [hk]
    have h := odFind_of_mem_nodup final hnd p.1 p.2 (by
      rcases p with ⟨k, v⟩
      exact hp)
    rw [hf2 p.1] at h
    exact h
  · intro e he f hf hfk hfs
    rcases List.mem_map.mp he with ⟨p, hp, rfl⟩
    have hk := hval p hp
    have h := odFind_of_mem_nodup final hnd p.1 p.2 (by
      rcases p with ⟨k, v⟩
      exact hp)
    rw [hf2 p.1] at h
    unfold expectedEntry at h
    rcases hfind : items.find? (fun j => key j == p.1 && (j.source_type == SourceType.feed))
        with _ | g
    · exfalso
      have hsome : (items.find? (fun j => key j == p.1
          && (j.source_type == SourceType.feed))).isSome = true := by
        rw [List.find?_isSome]
        refine ⟨f, hf, ?_⟩
        rw [hk] at hfk
        simp [hfk, hfs]
      rw [hfind] at hsome
      cases hsome
    · simp only [hfind, Option.some.injEq] at h
      rw [← h, updNormalized_source]
      exact (feedPred_of_find key p.1 items g hfind).2

unseal List.merge List.mergeSort in
theorem C8_deduplicate_spec_witness :
    ∃ out,
      deduplicate
          [(⟨"https://example.com/post?utm_source=x", "", none, none, none, none,
              SourceType.direct⟩ : FeedItem),
           ⟨"https://example.com/post", "", none, none, none, none, SourceType.feed⟩]
        = some out ∧
      (out.map FeedItem.normalized_url).Nodup ∧
      out.map FeedItem.normalized_url =
        firstSeen []
          (([(⟨"https://example.com/post?utm_source=x", "", none, none, none, none,
              SourceType.direct⟩ : FeedItem),
            ⟨"https://example.com/post", "", none, none, none, none,
              SourceType.feed⟩]).map (fun _ => "https://example.com/post")) ∧
      (∀ e ∈ out,
        expectedEntry (fun _ => "https://example.com/post")
          [(⟨"https://example.com/post?utm_source=x", "", none, none, none, none,
              SourceType.direct⟩ : FeedItem),
           ⟨"https://example.com/post", "", none, none, none, none, SourceType.feed⟩]
          e.normalized_url = some e) ∧
      (∀ e ∈ out,
        ∀ f ∈ [⟨"https://example.com/post?utm_source=x", "", none, none, none, none,
              SourceType.direct⟩,
            (⟨"https://example.com/post", "", none, none, none, none,
              SourceType.feed⟩ : FeedItem)],
          (fun (_ : FeedItem) => "https://example.com/post") f = e.normalized_url →
          f.source_type = SourceType.feed → e.source_type = SourceType.feed) :=
  C8_deduplicate_spec
    [(⟨"https://example.com/post?utm_source=x", "", none, none, none, none,
        SourceType.direct⟩ : FeedItem),
     ⟨"https://example.com/post", "", none, none, none, none, SourceType.feed⟩]
    (fun _ => "https://example.com/post")
    (by
      intro i hi
      rcases List.mem_cons.mp hi with rfl | hi2
      · rfl
      · rcases List.mem_cons.mp hi2 with rfl | h3
        · rfl
        · cases h3)

/-- C1 (amended: the native-dialect test is a substring test on the host —
see the counterexample): a client whose lowercased base URL host contains
the native-provider generative-content host and whose path has no `openai`
segment is classified native; a native client answers every call with the
native generateContent POST alone (never an OpenAI-style attempt), and on
success records the dialect as `chat_completions`.  A non-native client
tries the structured-responses shape first, falls back to chat-completions
exactly when that attempt fails with a 404/405 status or a message
containing "not supported"/"unsupported" (any other failure propagates
un-retried), and the shape that succeeded is reused directly on every
subsequent call. -/
theorem C1_dialect_routing_spec (t t2 : Transport) (p p2 : String) :
    (∀ url su, urlsplitList (pyLowerList url.data) = some su →
      (isGeminiNativeBaseUrl url = some true ↔
        ("generativelanguage.googleapis.com".data <:+: su.netloc ∧
          "openai".data ∉
            (splitOnChar '/' (splitParams su.path).1).filter (fun s => !s.isEmpty)))) ∧
    (∀ st calls, ∀ c ∈ (runCalls true st calls).1, ∀ a ∈ c.2, a.1 = ApiCall.gemini) ∧
    (∀ st, (callWithFallback true st t p).1 = t.gemini p ∧
      (callWithFallback true st t p).2.2 = [(ApiCall.gemini, p)] ∧
      (∀ r, t.gemini p = .ok r →
        (callWithFallback true st t p).2.1 = some LLMApiUsed.chat_completions)) ∧
    (∀ r, t.responses p = .ok r →
      callWithFallback false none t p =
        (.ok r, some LLMApiUsed.responses, [(ApiCall.responses, p)])) ∧
    (∀ e, t.responses p = .error e → shouldFallback e = false →
      callWithFallback false none t p = (.error e, none, [(ApiCall.responses, p)])) ∧
    (∀ e, t.responses p = .error e → shouldFallback e = true →
      (callWithFallback false none t p).1 = t.chat p ∧
      (callWithFallback false none t p).2.2 = [(ApiCall.responses, p), (ApiCall.chat, p)] ∧
      (∀ r, t.chat p = .ok r →
        (callWithFallback false none t p).2.1 = some LLMApiUsed.chat_completions)) ∧
    ((callWithFallback false (some LLMApiUsed.chat_completions) t p).1 = t.chat p ∧
      (callWithFallback false (some LLMApiUsed.chat_completions) t p).2.2
        = [(ApiCall.chat, p)]) ∧
    ((callWithFallback false (some LLMApiUsed.responses) t p).1 = t.responses p ∧
      (callWithFallback false (some LLMApiUsed.responses) t p).2.2
        = [(ApiCall.responses, p)]) ∧
    (∀ st r, (callWithFallback false st t p).1 = .ok r →
      ∃ u, (callWithFallback false st t p).2.1 = some u ∧
        (callWithFallback false (some u) t2 p2).2.2 = [(apiCallOf u, p2)] ∧
        (callWithFallback false (some u) t2 p2).1 =
          (match u with
           | LLMApiUsed.responses => t2.responses p2
           | LLMApiUsed.chat_completions => t2.chat p2)) := by
  refine ⟨?_, ?_, ?_, ?_, ?_, ?_, ?_, ?_, ?_⟩
  · intro url su hsu
    unfold isGeminiNativeBaseUrl
    simp only [hsu]
    by_cases hh : ("generativelanguage.googleapis.com".data <:+: su.netloc)
    · rw [decide_eq_true hh]
      constructor
      · intro hb
        refine ⟨hh, fun hmem => ?_⟩
        rw [show (((splitOnChar '/' (splitParams su.path).1).filter
            (fun s => !s.isEmpty)).contains "openai".data) = true
          from List.elem_iff.mpr hmem] at hb
        simp at hb
      · rintro ⟨-, hnm⟩
        have hc : (((splitOnChar '/' (splitParams su.path).1).filter
            (fun s => !s.isEmpty)).contains "openai".data) = false := by
          rcases hc2 : (((splitOnChar '/' (splitParams su.path).1).filter
              (fun s => !s.isEmpty)).contains "openai".data) with _ | _
          · exact hc2
          · exact absurd (List.elem_iff.mp hc2) hnm
        rw [hc]
        simp
    · rw [decide_eq_false hh]
      constructor
      · intro hb
        simp at hb
      · rintro ⟨hmem, -⟩
        exact absurd hmem hh
  · intro st calls
    induction calls generalizing st with
    | nil => intro c hc; cases hc
    | cons tp rest ih =>
      intro c hc a ha
      rcases tp with ⟨tr, pr⟩
      have hstep : runCalls true st ((tr, pr) :: rest) =
          (((callWithFallback true st tr pr).1, (callWithFallback true st tr pr).2.2)
              :: (runCalls true (callWithFallback true st tr pr).2.1 rest).1,
            (runCalls true (callWithFallback true st tr pr).2.1 rest).2) := rfl
      rw [hstep] at hc
      rcases List.mem_cons.mp hc with rfl | hc2
      · have htr : (callWithFallback true st tr pr).2.2 = [(ApiCall.gemini, pr)] := by
          unfold callWithFallback callGemini
          rcases tr.gemini pr with r | e <;> rfl
        rw [htr] at ha
        rcases List.mem_singleton.mp ha with rfl
        rfl
      · exact ih _ c hc2 a ha
  · intro st
    unfold callWithFallback callGemini
    rcases t.gemini p with e | r
    · exact ⟨rfl, rfl, fun r2 h2 => by cases h2⟩
    · exact ⟨rfl, rfl, fun r2 h2 => rfl⟩
  · intro r hr
    unfold callWithFallback callResponses
    rw [hr]
    rfl
  · intro e he hf
    unfold callWithFallback callResponses
    rw [he]
    simp [hf]
  · intro e he hf
    unfold callWithFallback callResponses callChat
    rw [he]
    simp only [hf, if_true]
    rcases t.chat p with e2 | r
    · exact ⟨rfl, rfl, fun r2 h2 => by cases h2⟩
    · exact ⟨rfl, rfl, fun r2 h2 => rfl⟩
  · unfold callWithFallback callChat
    rcases t.chat p with r | e <;> exact ⟨rfl, rfl⟩
  · unfold callWithFallback callResponses
    rcases t.responses p with r | e <;> exact ⟨rfl, rfl⟩
  · intro st r hok
    rcases st with _ | u
    · unfold callWithFallback at hok ⊢
      rcases hr : t.responses p with e | r2
      · by_cases hf : shouldFallback e = true
        · rcases hc : t.chat p with e3 | r3
          · exfalso
            unfold callResponses callChat at hok
            rw [hr] at hok
            simp [hf, hc] at hok
          · refine ⟨LLMApiUsed.chat_completions, ?_, ?_, ?_⟩
            · unfold callResponses callChat
              rw [hr]
              simp [hf, hc]
            · unfold callChat
              rcases t2.chat p2 with e4 | r4 <;> rfl
            · unfold callChat
              rcases t2.chat p2 with e4 | r4 <;> rfl
        · exfalso
          have hf2 : shouldFallback e = false := by simpa using hf
          unfold callResponses at hok
          rw [hr] at hok
          simp [hf2] at hok
      · refine ⟨LLMApiUsed.responses, ?_, ?_, ?_⟩
        · unfold callResponses
          rw [hr]
          rfl
        · unfold callResponses
          rcases t2.responses p2 with e3 | r3 <;> rfl
        · unfold callResponses
          rcases t2.responses p2 with e3 | r3 <;> rfl
    · rcases u with _ | _
      · refine ⟨LLMApiUsed.responses, ?_, ?_, ?_⟩
        · unfold callWithFallback callResponses
          rcases t.responses p with e2 | r2 <;> rfl
        · unfold callWithFallback callResponses
          rcases t2.responses p2 with e3 | r3 <;> rfl
        · unfold callWithFallback callResponses
          rcases t2.responses p2 with e3 | r3 <;> rfl
      · refine ⟨LLMApiUsed.chat_completions, ?_, ?_, ?_⟩
        · unfold callWithFallback callChat
          rcases t.chat p with e2 | r2 <;> rfl
        · unfold callWithFallback callChat
          rcases t2.chat p2 with e3 | r3 <;> rfl
        · unfold callWithFallback callChat
          rcases t2.chat p2 with e3 | r3 <;> rfl

/-- C1, counterexample to the claim as stated: a base URL whose host merely
contains the native host as a substring (and so is not "the
native-provider generative-content host") is still classified native, and
the first call of such a client issues only the native POST — it never
attempts the structured-responses shape. -/
theorem C1_counterexample :
    (∃ su, urlsplitList (pyLowerList
        ("https://generativelanguage.googleapis.com.evil.example/v1").data) = some su ∧
      su.netloc ≠ "generativelanguage.googleapis.com".data) ∧
    isGeminiNativeBaseUrl "https://generativelanguage.googleapis.com.evil.example/v1"
      = some true ∧
    (callWithFallback true none
        ⟨fun _ => .error ⟨none, "r"⟩, fun _ => .error ⟨none, "c"⟩,
          fun _ => .ok ("x", ⟨0, 0, 0⟩)⟩ "p").2.2 = [(ApiCall.gemini, "p")] := by
  refine ⟨⟨⟨"https".data,
      "generativelanguage.googleapis.com.evil.example".data,
      "/v1".data, [], []⟩, by decide, by decide⟩, by decide, rfl⟩


/-! ### Lemmas for `_extract_json_blob` and `parse_summary` -/

lemma mem_pyStripList {c : Char} {l : List Char} (h : c ∈ pyStripList l) : c ∈ l := by
  unfold pyStripList dropTrailing at h
  have h2 : c ∈ (List.dropWhile pyIsSpace l).reverse :=
    List.Sublist.mem (List.mem_reverse.mp h) (List.dropWhile_sublist _)
  exact List.Sublist.mem (List.mem_reverse.mp h2) (List.dropWhile_sublist _)

lemma fence_explicit : fenceMarker = '\x60' :: '\x60' :: '\x60' :: [] := rfl

lemma splitFirstSub_none_of_not_mem {l : List Char} (h : '\x60' ∉ l) :
    splitFirstSub fenceMarker l = none := by
  induction l with
  | nil => rfl
  | cons c rest ih =>
    have h1 : '\x60' ≠ c := fun he => h (List.mem_cons.mpr (Or.inl he))
    have h2 : '\x60' ∉ rest := fun hm => h (List.mem_cons.mpr (Or.inr hm))
    have hpre : fenceMarker.isPrefixOf (c :: rest) = false := by
      rcases hp : fenceMarker.isPrefixOf (c :: rest) with _ | _
      · rfl
      · exfalso
        have hx := List.isPrefixOf_iff_prefix.mp hp
        rw [fence_explicit] at hx
        exact h1 (List.cons_prefix_cons.mp hx).1
    simp [splitFirstSub, hpre, ih h2]

lemma splitFirstSub_eq_none_of_no_occurrence {pat l : List Char} (h : ¬ pat <:+: l) :
    splitFirstSub pat l = none := by
  induction l with
  | nil => rfl
  | cons c rest ih =>
    have h1 : pat.isPrefixOf (c :: rest) = false := by
      rcases hp : pat.isPrefixOf (c :: rest) with _ | _
      · rfl
      · exact absurd (List.isPrefixOf_iff_prefix.mp hp).isInfix h
    have h2 : ¬ pat <:+: rest := fun hi => h (List.infix_cons hi)
    simp [splitFirstSub, h1, ih h2]

lemma splitFirstSub_fence_exact {l r : List Char} (hl : '\x60' ∉ l) :
    splitFirstSub fenceMarker (l ++ fenceMarker ++ r) = some (l, r) := by
  induction l with
  | nil =>
    show splitFirstSub fenceMarker ('\x60' :: '\x60' :: '\x60' :: r) = some ([], r)
    unfold splitFirstSub
    rw [if_pos]
    · rfl
    · rw [fence_explicit]
      simp [List.isPrefixOf]
  | cons c l' ih =>
    have h1 : '\x60' ≠ c := fun he => hl (List.mem_cons.mpr (Or.inl he))
    have h2 : '\x60' ∉ l' := fun hm => hl (List.mem_cons.mpr (Or.inr hm))
    have hpre : fenceMarker.isPrefixOf (c :: (l' ++ fenceMarker ++ r)) = false := by
      rcases hp : fenceMarker.isPrefixOf (c :: (l' ++ fenceMarker ++ r)) with _ | _
      · rfl
      · exfalso
        have hx := List.isPrefixOf_iff_prefix.mp hp
        rw [fence_explicit] at hx
        exact h1 (List.cons_prefix_cons.mp hx).1
    have hstep : (c :: l') ++ fenceMarker ++ r = c :: (l' ++ fenceMarker ++ r) := by simp
    rw [hstep]
    unfold splitFirstSub
    rw [hpre]
    simp only [Bool.false_eq_true, if_false]
    rw [ih h2]

lemma braceFallback_exact {A M B : List Char}
    (hA : ∀ c ∈ A, c ≠ lbraceChar ∧ c ≠ rbraceChar)
    (hB : ∀ c ∈ B, c ≠ lbraceChar ∧ c ≠ rbraceChar)
    (hM1 : M.head? = some lbraceChar) (hM2 : M.getLast? = some rbraceChar)
    (hlen : 2 ≤ M.length) :
    braceFallback (A ++ M ++ B) = M := by
  have hAn : List.findIdx? (fun c => c == lbraceChar) A = none :=
    List.findIdx?_eq_none_iff.mpr (fun x hx => by simpa using (hA x hx).1)
  have hBn : List.findIdx? (fun c => c == rbraceChar) B.reverse = none :=
    List.findIdx?_eq_none_iff.mpr
      (fun x hx => by simpa using (hB x (List.mem_reverse.mp hx)).2)
  obtain ⟨M1, hM1'⟩ : ∃ M1, M = lbraceChar :: M1 := by
    cases M with
    | nil => cases hM1
    | cons m M1 =>
      have hm := Option.some.inj hM1
      exact ⟨M1, by rw [hm]⟩
  obtain ⟨M2, hM2'⟩ : ∃ M2, M.reverse = rbraceChar :: M2 := by
    have hr : M.reverse.head? = some rbraceChar := by rw [List.head?_reverse]; exact hM2
    cases hrev : M.reverse with
    | nil => rw [hrev] at hr; cases hr
    | cons m M2 =>
      rw [hrev] at hr
      have hm := Option.some.inj hr
      exact ⟨M2, by rw [hm]⟩
  have hfirst : List.findIdx? (fun c => c == lbraceChar) (A ++ M ++ B) = some A.length := by
    rw [List.append_assoc, List.findIdx?_append, hAn, hM1', List.cons_append,
      List.findIdx?_cons]
    simp
  have hlast : List.findIdx? (fun c => c == rbraceChar) (A ++ M ++ B).reverse
      = some B.length := by
    have hrw : (A ++ M ++ B).reverse = B.reverse ++ (M.reverse ++ A.reverse) := by
      simp [List.reverse_append]
    rw [hrw, List.findIdx?_append, hBn, hM2', List.cons_append, List.findIdx?_cons]
    simp
  have hL : (A ++ M ++ B).length = A.length + M.length + B.length := by
    simp
    omega
  unfold braceFallback
  rw [hfirst, hlast, hL]
  have hcond : A.length < A.length + M.length + B.length - 1 - B.length := by omega
  show (if A.length < A.length + M.length + B.length - 1 - B.length then
      List.take (A.length + M.length + B.length - 1 - B.length + 1 - A.length)
        (List.drop A.length (A ++ M ++ B))
    else A ++ M ++ B) = M
  rw [if_pos hcond]
  have hidx : A.length + M.length + B.length - 1 - B.length + 1 - A.length = M.length := by
    omega
  rw [hidx, List.append_assoc, List.drop_left, List.take_left]

lemma braceFallback_self {l : List Char} (h : ∀ c ∈ l, c ≠ lbraceChar) :
    braceFallback l = l := by
  have hn : List.findIdx? (fun c => c == lbraceChar) l = none :=
    List.findIdx?_eq_none_iff.mpr (fun x hx => by simpa using h x hx)
  unfold braceFallback
  rw [hn]

lemma pyStripList_pad {l : List Char} :
    pyStripList ('\n' :: (l ++ ['\n'])) = pyStripList l := by
  unfold pyStripList dropTrailing
  rw [List.dropWhile_cons]
  have hnl : pyIsSpace '\n' = true := rfl
  rw [if_pos hnl, List.dropWhile_append]
  by_cases he : (List.dropWhile pyIsSpace l).isEmpty
  · rw [if_pos he]
    have h0 : List.dropWhile pyIsSpace ['\n'] = [] := rfl
    rw [h0, List.isEmpty_iff.mp he]
  · rw [if_neg he]
    have hrw : (List.dropWhile pyIsSpace l ++ ['\n']).reverse
        = '\n' :: (List.dropWhile pyIsSpace l).reverse := by simp
    rw [hrw, List.dropWhile_cons, if_pos hnl]

lemma pyStripList_eq_self {l : List Char} {c d : Char}
    (hh : l.head? = some c) (hc : pyIsSpace c = false)
    (hl : l.getLast? = some d) (hd : pyIsSpace d = false) : pyStripList l = l := by
  obtain ⟨t, rfl⟩ : ∃ t, l = c :: t := by
    cases l with
    | nil => cases hh
    | cons x t =>
      have hx := Option.some.inj hh
      exact ⟨t, by rw [hx]⟩
  obtain ⟨t', ht'⟩ : ∃ t', (c :: t).reverse = d :: t' := by
    have hr : (c :: t).reverse.head? = some d := by rw [List.head?_reverse]; exact hl
    cases hrev : (c :: t).reverse with
    | nil => rw [hrev] at hr; cases hr
    | cons x t' =>
      rw [hrev] at hr
      have hx := Option.some.inj hr
      exact ⟨t', by rw [hx]⟩
  unfold pyStripList dropTrailing
  rw [List.dropWhile_cons, if_neg (by rw [hc]; exact Bool.false_ne_true), ht',
    List.dropWhile_cons, if_neg (by rw [hd]; exact Bool.false_ne_true), ← ht',
    List.reverse_reverse]

lemma parseSummary_congr {a b : String} (h : extractJsonBlob a.data = extractJsonBlob b.data) :
    parseSummary a = parseSummary b := by
  unfold parseSummary
  rw [h]

lemma extractJsonBlob_bare {j : String} (hb : '\x60' ∉ j.data)
    (hjh : (pyStripList j.data).head? = some lbraceChar)
    (hjl : (pyStripList j.data).getLast? = some rbraceChar)
    (hjlen : 2 ≤ (pyStripList j.data).length) :
    extractJsonBlob j.data = pyStripList j.data := by
  have hnm : '\x60' ∉ pyStripList j.data := fun hm => hb (mem_pyStripList hm)
  unfold extractJsonBlob
  simp only [splitFirstSub_none_of_not_mem hnm]
  have := braceFallback_exact (A := []) (B := []) (M := pyStripList j.data)
    (by intro c hc; cases hc) (by intro c hc; cases hc) hjh hjl hjlen
  simpa using this


lemma extractJsonBlob_fenced_tagged {j : String} (hb : '\x60' ∉ j.data) :
    extractJsonBlob ("\x60\x60\x60json\n" ++ j ++ "\n\x60\x60\x60").data
      = pyStripList j.data := by
  have hdata : ("\x60\x60\x60json\n" ++ j ++ "\n\x60\x60\x60").data
      = fenceMarker ++ ("json\n".data ++ (j.data ++ ("\n\x60\x60\x60").data)) := by
    have hlit : ("\x60\x60\x60json\n").data = fenceMarker ++ "json\n".data := rfl
    rw [String.data_append, String.data_append, hlit, List.append_assoc, List.append_assoc]
  have hstrip : pyStripList (("\x60\x60\x60json\n" ++ j ++ "\n\x60\x60\x60").data)
      = ("\x60\x60\x60json\n" ++ j ++ "\n\x60\x60\x60").data := by
    refine pyStripList_eq_self (c := '\x60') (d := '\x60') ?_ rfl ?_ rfl
    · rw [hdata]; rfl
    · rw [hdata, List.getLast?_append, List.getLast?_append, List.getLast?_append]
      rfl
  unfold extractJsonBlob
  simp only [hstrip]
  rw [hdata]
  have hs1 : splitFirstSub fenceMarker
      (fenceMarker ++ ("json\n".data ++ (j.data ++ ("\n\x60\x60\x60").data)))
      = some ([], "json\n".data ++ (j.data ++ ("\n\x60\x60\x60").data)) := by
    have h0 := splitFirstSub_fence_exact
      (l := []) (r := "json\n".data ++ (j.data ++ ("\n\x60\x60\x60").data))
      (by intro h; cases h)
    simpa using h0
  simp only [hs1]
  have hdrop : dropJsonTag ("json\n".data ++ (j.data ++ ("\n\x60\x60\x60").data))
      = '\n' :: (j.data ++ ("\n\x60\x60\x60").data) := by
    unfold dropJsonTag
    have hcond : pyLowerList (("json\n".data ++ (j.data ++ ("\n\x60\x60\x60").data)).take 4)
        = "json".data := rfl
    rw [if_pos hcond]
    rfl
  rw [hdrop]
  have hshape2 : '\n' :: (j.data ++ ("\n\x60\x60\x60").data)
      = ('\n' :: (j.data ++ ['\n'])) ++ fenceMarker ++ [] := by
    have hB2 : ("\n\x60\x60\x60").data = '\n' :: fenceMarker := rfl
    rw [hB2]
    simp
  rw [hshape2]
  have hs2 : splitFirstSub fenceMarker (('\n' :: (j.data ++ ['\n'])) ++ fenceMarker ++ [])
      = some ('\n' :: (j.data ++ ['\n']), []) := by
    refine splitFirstSub_fence_exact ?_
    intro hm
    rcases List.mem_cons.mp hm with he | hm2
    · exact absurd he (by decide)
    · rcases List.mem_append.mp hm2 with h3 | h4
      · exact hb h3
      · simp at h4
  simp only [hs2]
  exact pyStripList_pad

lemma dropJsonTag_newline {Y : List Char} : dropJsonTag ('\n' :: Y) = '\n' :: Y := by
  unfold dropJsonTag
  rw [if_neg]
  intro h
  have h4 : ('\n' :: Y).take 4 = '\n' :: Y.take 3 := rfl
  rw [h4] at h
  unfold pyLowerList at h
  rw [List.map_cons] at h
  have h1 : pyLowerChar '\n' = 'j' := by
    have := List.cons.injEq (pyLowerChar '\n') (List.map pyLowerChar (Y.take 3))
      'j' "son".data
    rw [this] at h
    exact h.1
  exact absurd h1 (by decide)

lemma extractJsonBlob_fenced_plain {j : String} (hb : '\x60' ∉ j.data) :
    extractJsonBlob ("\x60\x60\x60\n" ++ j ++ "\n\x60\x60\x60").data
      = pyStripList j.data := by
  have hdata : ("\x60\x60\x60\n" ++ j ++ "\n\x60\x60\x60").data
      = fenceMarker ++ ('\n' :: (j.data ++ ("\n\x60\x60\x60").data)) := by
    have hlit : ("\x60\x60\x60\n").data = fenceMarker ++ ['\n'] := rfl
    rw [String.data_append, String.data_append, hlit, List.append_assoc, List.append_assoc,
      List.singleton_append]
  have hstrip : pyStripList (("\x60\x60\x60\n" ++ j ++ "\n\x60\x60\x60").data)
      = ("\x60\x60\x60\n" ++ j ++ "\n\x60\x60\x60").data := by
    refine pyStripList_eq_self (c := '\x60') (d := '\x60') ?_ rfl ?_ rfl
    · rw [hdata]; rfl
    · rw [hdata, ← List.singleton_append, List.getLast?_append, List.getLast?_append,
        List.getLast?_append]
      rfl
  unfold extractJsonBlob
  simp only [hstrip]
  rw [hdata]
  have hs1 : splitFirstSub fenceMarker
      (fenceMarker ++ ('\n' :: (j.data ++ ("\n\x60\x60\x60").data)))
      = some ([], '\n' :: (j.data ++ ("\n\x60\x60\x60").data)) := by
    have h0 := splitFirstSub_fence_exact
      (l := []) (r := '\n' :: (j.data ++ ("\n\x60\x60\x60").data))
      (by intro h; cases h)
    simpa using h0
  simp only [hs1]
  rw [dropJsonTag_newline]
  have hshape2 : '\n' :: (j.data ++ ("\n\x60\x60\x60").data)
      = ('\n' :: (j.data ++ ['\n'])) ++ fenceMarker ++ [] := by
    have hB2 : ("\n\x60\x60\x60").data = '\n' :: fenceMarker := rfl
    rw [hB2]
    simp
  rw [hshape2]
  have hs2 : splitFirstSub fenceMarker (('\n' :: (j.data ++ ['\n'])) ++ fenceMarker ++ [])
      = some ('\n' :: (j.data ++ ['\n']), []) := by
    refine splitFirstSub_fence_exact ?_
    intro hm
    rcases List.mem_cons.mp hm with he | hm2
    · exact absurd he (by decide)
    · rcases List.mem_append.mp hm2 with h3 | h4
      · exact hb h3
      · simp at h4
  simp only [hs2]
  exact pyStripList_pad

lemma extractJsonBlob_prose {raw j : String} {A B : List Char} (hb : '\x60' ∉ j.data)
    (hjh : (pyStripList j.data).head? = some lbraceChar)
    (hjl : (pyStripList j.data).getLast? = some rbraceChar)
    (hjlen : 2 ≤ (pyStripList j.data).length)
    (hA : ∀ c ∈ A, c ≠ lbraceChar ∧ c ≠ rbraceChar ∧ c ≠ '\x60')
    (hB : ∀ c ∈ B, c ≠ lbraceChar ∧ c ≠ rbraceChar ∧ c ≠ '\x60')
    (hsplit : pyStripList raw.data = A ++ pyStripList j.data ++ B) :
    extractJsonBlob raw.data = pyStripList j.data := by
  have hnm : '\x60' ∉ pyStripList raw.data := by
    rw [hsplit]
    intro hm
    rcases List.mem_append.mp hm with h1 | h2
    · rcases List.mem_append.mp h1 with ha | hm2
      · exact (hA _ ha).2.2 rfl
      · exact hb (mem_pyStripList hm2)
    · exact (hB _ h2).2.2 rfl
  unfold extractJsonBlob
  simp only [splitFirstSub_none_of_not_mem hnm]
  rw [hsplit]
  exact braceFallback_exact (fun c hc => ⟨(hA c hc).1, (hA c hc).2.1⟩)
    (fun c hc => ⟨(hB c hc).1, (hB c hc).2.1⟩) hjh hjl hjlen


/-- C6 (amended: when neither a fenced block nor a brace pair is present,
the candidate is the raw text STRIPPED of surrounding whitespace, not the
raw text verbatim — see the counterexample): extraction prefers a fenced
code block (optionally `json`-tagged, case-insensitively) over the
first-brace-to-last-brace substring; consequently the same JSON object
presented fenced (tagged or untagged), bare, or embedded in surrounding
prose parses to the same result; a JSON decode failure yields exactly the
error tagged `json_decode_error`, a schema validation failure exactly the
distinct error tagged `schema_validation_error`. -/
theorem C6_parse_summary_spec (j raw : String) (A B : List Char)
    (hb : '\x60' ∉ j.data)
    (hjh : (pyStripList j.data).head? = some lbraceChar)
    (hjl : (pyStripList j.data).getLast? = some rbraceChar)
    (hjlen : 2 ≤ (pyStripList j.data).length)
    (hA : ∀ c ∈ A, c ≠ lbraceChar ∧ c ≠ rbraceChar ∧ c ≠ '\x60')
    (hB : ∀ c ∈ B, c ≠ lbraceChar ∧ c ≠ rbraceChar ∧ c ≠ '\x60')
    (hsplit : pyStripList raw.data = A ++ pyStripList j.data ++ B) :
    parseSummary ("\x60\x60\x60json\n" ++ j ++ "\n\x60\x60\x60") = parseSummary j ∧
    parseSummary ("\x60\x60\x60\n" ++ j ++ "\n\x60\x60\x60") = parseSummary j ∧
    parseSummary raw = parseSummary j ∧
    (∀ r2 : String, jsonLoads (extractJsonBlob r2.data) = none ↔
      parseSummary r2 = .error .jsonDecode) ∧
    (∀ r2 : String,
      (∃ v, jsonLoads (extractJsonBlob r2.data) = some v ∧ validateSummary v = none) ↔
        parseSummary r2 = .error .schemaValidation) ∧
    SummaryParseError.jsonDecode ≠ SummaryParseError.schemaValidation ∧
    (∀ r2 : String, ¬ fenceMarker <:+: pyStripList r2.data →
      (∀ c ∈ r2.data, c ≠ lbraceChar) →
      extractJsonBlob r2.data = pyStripList r2.data) := by
  have hbare : extractJsonBlob j.data = pyStripList j.data :=
    extractJsonBlob_bare hb hjh hjl hjlen
  refine ⟨?_, ?_, ?_, ?_, ?_, ?_, ?_⟩
  · exact parseSummary_congr ((extractJsonBlob_fenced_tagged hb).trans hbare.symm)
  · exact parseSummary_congr ((extractJsonBlob_fenced_plain hb).trans hbare.symm)
  · exact parseSummary_congr
      ((extractJsonBlob_prose hb hjh hjl hjlen hA hB hsplit).trans hbare.symm)
  · intro r2
    constructor
    · intro h
      unfold parseSummary
      rw [h]
    · intro h
      rcases h1 : jsonLoads (extractJsonBlob r2.data) with _ | v
      · rfl
      · exfalso
        unfold parseSummary at h
        rw [h1] at h
        rcases h2 : validateSummary v with _ | s2 <;> simp [h2] at h
  · intro r2
    constructor
    · rintro ⟨v, h1, h2⟩
      unfold parseSummary
      rw [h1]
      simp [h2]
    · intro h
      unfold parseSummary at h
      rcases h1 : jsonLoads (extractJsonBlob r2.data) with _ | v
      · exfalso
        simp only [h1] at h
        simp at h
      · refine ⟨v, rfl, ?_⟩
        simp only [h1] at h
        rcases h2 : validateSummary v with _ | s2
        · rfl
        · exfalso
          simp only [h2] at h
          simp at h
  · exact fun h => SummaryParseError.noConfusion h
  · intro r2 hf hbr
    unfold extractJsonBlob
    simp only [splitFirstSub_eq_none_of_no_occurrence hf]
    exact braceFallback_self (fun c hc => hbr c (mem_pyStripList hc))

/-- C6, counterexample to "otherwise the raw text verbatim": with no fence
and no braces the blob passed to `json.loads` is the STRIPPED text.  For
the raw text `"null\x0c"` (a form feed is Python whitespace but not JSON
whitespace) the extracted blob `"null"` decodes and then fails schema
validation, whereas the verbatim raw text would not decode at all. -/
theorem C6_counterexample :
    extractJsonBlob ("null\x0c").data ≠ ("null\x0c").data ∧
    extractJsonBlob ("null\x0c").data = "null".data ∧
    ¬ fenceMarker <:+: ("null\x0c").data ∧
    (∀ c ∈ ("null\x0c").data, c ≠ lbraceChar) ∧
    jsonLoads (("null\x0c").data) = none ∧
    parseSummary "null\x0c" = .error .schemaValidation := by
  refine ⟨by decide, by decide, by decide, by decide, by rfl, by rfl⟩

/-- C6 witness: a concrete JSON object presented fenced, bare, and inside
prose. -/
theorem C6_parse_summary_spec_witness :
    parseSummary ("\x60\x60\x60json\n" ++ "\x7b\"title\": \"T\", \"one_sentence\": \"S\"\x7d"
        ++ "\n\x60\x60\x60")
      = parseSummary "\x7b\"title\": \"T\", \"one_sentence\": \"S\"\x7d" ∧
    parseSummary ("\x60\x60\x60\n" ++ "\x7b\"title\": \"T\", \"one_sentence\": \"S\"\x7d"
        ++ "\n\x60\x60\x60")
      = parseSummary "\x7b\"title\": \"T\", \"one_sentence\": \"S\"\x7d" ∧
    parseSummary "Sure: \x7b\"title\": \"T\", \"one_sentence\": \"S\"\x7d ok"
      = parseSummary "\x7b\"title\": \"T\", \"one_sentence\": \"S\"\x7d" ∧
    (∀ r2 : String, jsonLoads (extractJsonBlob r2.data) = none ↔
      parseSummary r2 = .error .jsonDecode) ∧
    (∀ r2 : String,
      (∃ v, jsonLoads (extractJsonBlob r2.data) = some v ∧ validateSummary v = none) ↔
        parseSummary r2 = .error .schemaValidation) ∧
    SummaryParseError.jsonDecode ≠ SummaryParseError.schemaValidation ∧
    (∀ r2 : String, ¬ fenceMarker <:+: pyStripList r2.data →
      (∀ c ∈ r2.data, c ≠ lbraceChar) →
      extractJsonBlob r2.data = pyStripList r2.data) :=
  C6_parse_summary_spec "\x7b\"title\": \"T\", \"one_sentence\": \"S\"\x7d"
    "Sure: \x7b\"title\": \"T\", \"one_sentence\": \"S\"\x7d ok"
    ("Sure: ".data) (" ok".data)
    (by decide) (by decide) (by decide) (by decide) (by decide) (by decide) (by decide)


/-- C2 (amended: the terminal error wraps the REPAIR attempt's failure
detail, not the original failure's — see the counterexample): when the
first call's output fails to parse, `summarize` makes exactly one repair
call, whose corrective prompt is the fixed instruction with the invalid
output appended; if the repaired output parses, that summary is returned
(with the first call's usage); if it also fails, the terminal error is
`json_parse_error_after_repair:` wrapping the repair failure, and no
further call is made (the trace is exactly the two calls'); an API error
during the repair call propagates. -/
theorem C2_summarize_repair_spec (isNative : Bool) (st : Option LLMApiUsed) (t : Transport)
    (prompt raw : String) (usage : TokenUsage) (st1 : Option LLMApiUsed)
    (tr1 : List (ApiCall × String)) (e1 : SummaryParseError)
    (hcall : callWithFallback isNative st t prompt = (.ok (raw, usage), st1, tr1))
    (hparse : parseSummary raw = .error e1) :
    (∀ raw2 u2 st2 tr2,
      callWithFallback isNative st1 t (repairPrefix ++ raw) = (.ok (raw2, u2), st2, tr2) →
      (∀ s2, parseSummary raw2 = .ok s2 →
        summarize isNative st t prompt = (.ok (s2, usage), st2, tr1 ++ tr2)) ∧
      (∀ e2, parseSummary raw2 = .error e2 →
        summarize isNative st t prompt
          = (.error (.parse (.afterRepair e2)), st2, tr1 ++ tr2))) ∧
    (∀ e st2 tr2,
      callWithFallback isNative st1 t (repairPrefix ++ raw) = (.error e, st2, tr2) →
      summarize isNative st t prompt = (.error (.api e), st2, tr1 ++ tr2)) := by
  constructor
  · intro raw2 u2 st2 tr2 hrepair
    constructor
    · intro s2 hs2
      unfold summarize
      simp only [hcall, hparse, hrepair, hs2]
    · intro e2 he2
      unfold summarize
      simp only [hcall, hparse, hrepair, he2]
  · intro e st2 tr2 hrepair
    unfold summarize
    simp only [hcall, hparse, hrepair]

/-- C2, counterexample to "wrapping the original failure detail": the
first output fails with the JSON-decode tag, the repaired output fails
with the schema-validation tag, and the terminal error wraps the latter
(the repair failure), which differs from a wrap of the original
failure. -/
theorem C2_counterexample :
    parseSummary "nope" = .error .jsonDecode ∧
    parseSummary "\x7b\"title\": 5\x7d" = .error .schemaValidation ∧
    (summarize false none
        ⟨fun p => if p = "P" then .ok ("nope", ⟨1, 2, 3⟩)
            else .ok ("\x7b\"title\": 5\x7d", ⟨4, 5, 9⟩),
          fun _ => .error ⟨none, "chat"⟩, fun _ => .error ⟨none, "gem"⟩⟩ "P").1
      = .error (.parse (.afterRepair .schemaValidation)) ∧
    SummaryParseError.afterRepair .schemaValidation
      ≠ SummaryParseError.afterRepair .jsonDecode := by
  refine ⟨by rfl, by rfl, by rfl, by decide⟩

/-- C2 witness: a repair round-trip on concrete transports. -/
theorem C2_summarize_repair_spec_witness :
    (∀ raw2 u2 st2 tr2,
      callWithFallback false (some LLMApiUsed.responses)
          ⟨fun p => if p = "W" then .ok ("bad", ⟨1, 1, 2⟩) else .ok ("still bad", ⟨4, 5, 9⟩),
            fun _ => .error ⟨none, "chat"⟩, fun _ => .error ⟨none, "gem"⟩⟩
          (repairPrefix ++ "bad") = (.ok (raw2, u2), st2, tr2) →
      (∀ s2, parseSummary raw2 = .ok s2 →
        summarize false (some LLMApiUsed.responses)
            ⟨fun p => if p = "W" then .ok ("bad", ⟨1, 1, 2⟩) else .ok ("still bad", ⟨4, 5, 9⟩),
              fun _ => .error ⟨none, "chat"⟩, fun _ => .error ⟨none, "gem"⟩⟩ "W"
          = (.ok (s2, ⟨1, 1, 2⟩), st2, [(ApiCall.responses, "W")] ++ tr2)) ∧
      (∀ e2, parseSummary raw2 = .error e2 →
        summarize false (some LLMApiUsed.responses)
            ⟨fun p => if p = "W" then .ok ("bad", ⟨1, 1, 2⟩) else .ok ("still bad", ⟨4, 5, 9⟩),
              fun _ => .error ⟨none, "chat"⟩, fun _ => .error ⟨none, "gem"⟩⟩ "W"
          = (.error (.parse (.afterRepair e2)), st2, [(ApiCall.responses, "W")] ++ tr2))) ∧
    (∀ e st2 tr2,
      callWithFallback false (some LLMApiUsed.responses)
          ⟨fun p => if p = "W" then .ok ("bad", ⟨1, 1, 2⟩) else .ok ("still bad", ⟨4, 5, 9⟩),
            fun _ => .error ⟨none, "chat"⟩, fun _ => .error ⟨none, "gem"⟩⟩
          (repairPrefix ++ "bad") = (.error e, st2, tr2) →
      summarize false (some LLMApiUsed.responses)
          ⟨fun p => if p = "W" then .ok ("bad", ⟨1, 1, 2⟩) else .ok ("still bad", ⟨4, 5, 9⟩),
            fun _ => .error ⟨none, "chat"⟩, fun _ => .error ⟨none, "gem"⟩⟩ "W"
        = (.error (.api e), st2, [(ApiCall.responses, "W")] ++ tr2)) :=
  C2_summarize_repair_spec false (some LLMApiUsed.responses)
    ⟨fun p => if p = "W" then .ok ("bad", ⟨1, 1, 2⟩) else .ok ("still bad", ⟨4, 5, 9⟩),
      fun _ => .error ⟨none, "chat"⟩, fun _ => .error ⟨none, "gem"⟩⟩
    "W" "bad" ⟨1, 1, 2⟩ (some LLMApiUsed.responses) [(ApiCall.responses, "W")]
    SummaryParseError.jsonDecode (by rfl) (by rfl)

/-- C10: when the first output fails to parse and the repaired output
parses, the returned usage is the FIRST call's, whatever the repair
call's usage was. -/
theorem C10_first_usage_spec (isNative : Bool) (st : Option LLMApiUsed) (t : Transport)
    (prompt raw raw2 : String) (usage u2 : TokenUsage) (st1 st2 : Option LLMApiUsed)
    (tr1 tr2 : List (ApiCall × String)) (e1 : SummaryParseError) (s2 : ArticleSummary)
    (hcall : callWithFallback isNative st t prompt = (.ok (raw, usage), st1, tr1))
    (hparse : parseSummary raw = .error e1)
    (hrepair : callWithFallback isNative st1 t (repairPrefix ++ raw) = (.ok (raw2, u2), st2, tr2))
    (hparse2 : parseSummary raw2 = .ok s2) :
    (summarize isNative st t prompt).1 = .ok (s2, usage) := by
  unfold summarize
  simp only [hcall, hparse, hrepair, hparse2]

/-- C10 witness: the repair call's usage (⟨7, 7, 14⟩) is discarded in
favour of the first call's (⟨1, 1, 2⟩). -/
theorem C10_first_usage_spec_witness :
    (summarize false (some LLMApiUsed.responses)
        ⟨fun p => if p = "W" then .ok ("bad", ⟨1, 1, 2⟩)
            else .ok ("\x7b\"title\": \"T\", \"one_sentence\": \"S\"\x7d", ⟨7, 7, 14⟩),
          fun _ => .error ⟨none, "chat"⟩, fun _ => .error ⟨none, "gem"⟩⟩ "W").1
      = .ok (⟨pyS "T", pyS "S", [], [], [], [], [], JNum.fin 0⟩, ⟨1, 1, 2⟩) :=
  C10_first_usage_spec false (some LLMApiUsed.responses)
    ⟨fun p => if p = "W" then .ok ("bad", ⟨1, 1, 2⟩)
        else .ok ("\x7b\"title\": \"T\", \"one_sentence\": \"S\"\x7d", ⟨7, 7, 14⟩),
      fun _ => .error ⟨none, "chat"⟩, fun _ => .error ⟨none, "gem"⟩⟩
    "W" "bad" "\x7b\"title\": \"T\", \"one_sentence\": \"S\"\x7d" ⟨1, 1, 2⟩ ⟨7, 7, 14⟩
    (some LLMApiUsed.responses) (some LLMApiUsed.responses)
    [(ApiCall.responses, "W")]
    [(ApiCall.responses, repairPrefix ++ "bad")]
    SummaryParseError.jsonDecode
    ⟨pyS "T", pyS "S", [], [], [], [], [], JNum.fin 0⟩
    (by rfl) (by rfl) (by rfl) (by rfl)


lemma fetchGo_attempts_pos (retries : Nat) (net : Nat → NetOutcome) (attempt rem : Nat)
    (lastE : Option String) (statusC : Option Nat) (h : 1 ≤ rem) :
    1 ≤ (fetchGo retries net attempt rem lastE statusC).attempts := by
  match rem, h with
  | rem' + 1, _ =>
    unfold fetchGo
    rcases net attempt with ⟨s, body⟩ | ⟨msg⟩ | ⟨msg⟩ <;> dsimp only
    · by_cases h1 : (retryableStatus s && decide (attempt < retries)) = true
      · simp only [h1, if_true]
        omega
      · simp only [h1, Bool.false_eq_true, if_false]
        by_cases h2 : 400 ≤ s
        · rw [if_pos h2]
        · rw [if_neg h2]
    · by_cases h1 : attempt < retries
      · simp only [if_pos h1]
        omega
      · rw [if_neg h1]
    · exact Nat.le_refl 1

/-- C9: an empty cached string is a miss at every consuming stage — the
fetch with an empty cached html body behaves exactly like a fetch with no
cache entry (`from_cache` stays false and at least one GET is attempted);
an empty cached text entry hands the stage result to `extract_content`
(while a non-empty entry short-circuits with `from_cache = true`); an
empty cached summary entry makes the cached-summary lookup come up empty
so the LLM client is invoked, exactly as when the entry is absent. -/
theorem C9_empty_cache_entry_is_miss (url : String) (retries : Nat) (net : Nat → NetOutcome)
    (mb : Nat) (fs : CacheFS) (itemTitle : Option String) (html : String)
    (extractOut : ExtractionResult)
    (llmOut : Except SummarizeErr (ArticleSummary × TokenUsage)) :
    fetchArticle url (some "") retries net = fetchArticle url none retries net ∧
    (fetchArticle url (some "") retries net).result.from_cache = false ∧
    (1 ≤ retries → 1 ≤ (fetchArticle url (some "") retries net).attempts) ∧
    (cacheGet fs "text" url "" = some "" →
      (textStage mb fs url itemTitle html extractOut).1 = extractOut) ∧
    (∀ t, cacheGet fs "text" url "" = some t → t ≠ "" →
      (textStage mb fs url itemTitle html extractOut).1
        = ⟨url, itemTitle, t, t.length, (t.length : ℚ) / (max html.length 1 : ℚ),
            none, true⟩) ∧
    (cacheGet fs "summary" url PROMPT_VERSION = some "" →
      cachedSummaryLookup fs url = none ∧ (summaryStage fs url llmOut).2 = true) ∧
    (cacheGet fs "summary" url PROMPT_VERSION = none →
      cachedSummaryLookup fs url = none ∧ (summaryStage fs url llmOut).2 = true) := by
  have hsumm : cachedSummaryLookup fs url = none → (summaryStage fs url llmOut).2 = true := by
    intro hn
    unfold summaryStage
    rw [hn]
    rcases llmOut with e | su <;> rfl
  have hgo := fetchGo_attempts_pos retries net 1 retries none none
  refine ⟨rfl, ?_, ?_, ?_, ?_, ?_, ?_⟩
  · show (fetchNet url retries net).result.from_cache = false
    unfold fetchNet
    rcases hs : (fetchGo retries net 1 retries none none).success with _ | body <;>
      simp [hs]
  · intro hr
    show 1 ≤ (fetchNet url retries net).attempts
    unfold fetchNet
    rcases hs : (fetchGo retries net 1 retries none none).success with _ | body <;>
      simpa [hs] using hgo hr
  · intro he
    unfold textStage
    rw [he]
    rfl
  · intro t ht hne
    have hcond : ¬ (t == "") = true := by
      intro hh
      exact hne (by simpa using hh)
    unfold textStage
    rw [ht]
    dsimp only
    rw [if_neg hcond]
  · intro he
    have hn : cachedSummaryLookup fs url = none := by
      unfold cachedSummaryLookup
      rw [he]
      rfl
    exact ⟨hn, hsumm hn⟩
  · intro he
    have hn : cachedSummaryLookup fs url = none := by
      unfold cachedSummaryLookup
      rw [he]
    exact ⟨hn, hsumm hn⟩


/-! ### Lemmas towards `normalize_url` idempotence (C7) -/

lemma toNat_ofNat {n : Nat} (h : Nat.isValidChar n) : (Char.ofNat n).toNat = n := by
  unfold Char.ofNat
  rw [dif_pos h]
  rfl

lemma char_valid (c : Char) : c.toNat < 55296 ∨ (57344 ≤ c.toNat ∧ c.toNat < 1114112) :=
  c.valid

lemma toNat_inj {a b : Char} (h : a.toNat = b.toNat) : a = b := by
  have := Char.ofNat_toNat a
  rw [h, Char.ofNat_toNat] at this
  exact this.symm

lemma pyLowerChar_idem (c : Char) : pyLowerChar (pyLowerChar c) = pyLowerChar c := by
  unfold pyLowerChar
  by_cases h : (65 ≤ c.toNat && c.toNat ≤ 90) = true
  · rw [if_pos h]
    simp only [Bool.and_eq_true, decide_eq_true_eq] at h
    have hv : Nat.isValidChar (c.toNat + 32) := Or.inl (by omega)
    have ht : (Char.ofNat (c.toNat + 32)).toNat = c.toNat + 32 := toNat_ofNat hv
    rw [if_neg]
    intro hcon
    simp only [ht, Bool.and_eq_true, decide_eq_true_eq] at hcon
    omega
  · rw [if_neg h, if_neg h]

lemma pyLowerList_idem (l : List Char) : pyLowerList (pyLowerList l) = pyLowerList l := by
  unfold pyLowerList
  rw [List.map_map]
  exact List.map_congr_left (fun c _ => pyLowerChar_idem c)

/-- Characters that lowering fixes and that nothing else lowers to:
everything outside both the uppercase and the lowercase ASCII letters. -/
lemma pyLowerChar_eq_iff {t : Char} (ht : t.toNat < 65 ∨ (90 < t.toNat ∧ t.toNat < 97) ∨ 122 < t.toNat)
    (c : Char) : (pyLowerChar c = t) ↔ c = t := by
  unfold pyLowerChar
  by_cases h : (65 ≤ c.toNat && c.toNat ≤ 90) = true
  · rw [if_pos h]
    simp only [Bool.and_eq_true, decide_eq_true_eq] at h
    have hv : Nat.isValidChar (c.toNat + 32) := Or.inl (by omega)
    have hnt : (Char.ofNat (c.toNat + 32)).toNat = c.toNat + 32 := toNat_ofNat hv
    constructor
    · intro he
      exfalso
      have : (Char.ofNat (c.toNat + 32)).toNat = t.toNat := by rw [he]
      rw [hnt] at this
      omega
    · intro he
      exfalso
      have : c.toNat = t.toNat := by rw [he]
      omega
  · rw [if_neg h]

lemma pyLowerChar_beq_iff {t : Char}
    (ht : t.toNat < 65 ∨ (90 < t.toNat ∧ t.toNat < 97) ∨ 122 < t.toNat)
    (c : Char) : (pyLowerChar c == t) = (c == t) := by
  rcases hc : c == t with _ | _
  · rcases hd : pyLowerChar c == t with _ | _
    · rfl
    · exfalso
      have h1 : pyLowerChar c = t := by simpa using hd
      have h2 : c = t := (pyLowerChar_eq_iff ht c).mp h1
      rw [h2] at hc
      simp at hc
  · have h2 : c = t := by simpa using hc
    have h1 : pyLowerChar c = t := (pyLowerChar_eq_iff ht c).mpr h2
    simp [h1]

lemma takeWhile_append_all {p : α → Bool} {l r : List α} (h : ∀ c ∈ l, p c = true) :
    List.takeWhile p (l ++ r) = l ++ List.takeWhile p r := by
  induction l with
  | nil => rfl
  | cons c cs ih =>
    rw [List.cons_append, List.takeWhile_cons, if_pos (h c (List.mem_cons_self c cs)),
      ih (fun x hx => h x (List.mem_cons.mpr (Or.inr hx)))]
    rfl

lemma dropWhile_append_all {p : α → Bool} {l r : List α} (h : ∀ c ∈ l, p c = true) :
    List.dropWhile p (l ++ r) = List.dropWhile p r := by
  induction l with
  | nil => rfl
  | cons c cs ih =>
    rw [List.cons_append, List.dropWhile_cons, if_pos (h c (List.mem_cons_self c cs)),
      ih (fun x hx => h x (List.mem_cons.mpr (Or.inr hx)))]

lemma takeWhile_eq_self {p : α → Bool} {l : List α} (h : ∀ c ∈ l, p c = true) :
    List.takeWhile p l = l := by
  have := takeWhile_append_all (r := []) h
  simpa using this

lemma dropWhile_eq_nil {p : α → Bool} {l : List α} (h : ∀ c ∈ l, p c = true) :
    List.dropWhile p l = [] := by
  have := dropWhile_append_all (r := []) h
  simpa using this

lemma takeWhile_cons_neg {p : α → Bool} {c : α} {l : List α} (h : p c = false) :
    List.takeWhile p (c :: l) = [] := by
  rw [List.takeWhile_cons, if_neg]
  rw [h]
  exact Bool.false_ne_true

lemma dropWhile_cons_neg {p : α → Bool} {c : α} {l : List α} (h : p c = false) :
    List.dropWhile p (c :: l) = c :: l := by
  rw [List.dropWhile_cons, if_neg]
  rw [h]
  exact Bool.false_ne_true

/-- `splitOnceChar` when the first occurrence is the explicit one. -/
lemma splitOnceChar_exact {ch : Char} {l r : List Char} (h : ∀ c ∈ l, (c == ch) = false) :
    splitOnceChar ch (l ++ ch :: r) = (l, some r) := by
  unfold splitOnceChar
  have h1 : ∀ c ∈ l, (!(c == ch)) = true := fun c hc => by rw [h c hc]; rfl
  rw [dropWhile_append_all h1, dropWhile_cons_neg (by simp), takeWhile_append_all h1,
    takeWhile_cons_neg (by simp)]
  rw [List.append_nil]

/-- `splitOnceChar` when the character does not occur. -/
lemma splitOnceChar_none {ch : Char} {l : List Char} (h : ∀ c ∈ l, (c == ch) = false) :
    splitOnceChar ch l = (l, none) := by
  unfold splitOnceChar
  have h1 : ∀ c ∈ l, (!(c == ch)) = true := fun c hc => by rw [h c hc]; rfl
  rw [dropWhile_eq_nil h1, takeWhile_eq_self h1]


lemma hexVal_hexDigit {n : Nat} (h : n < 16) : hexVal (hexDigit n) = some n := by
  unfold hexDigit hexVal
  by_cases h10 : n < 10
  · rw [if_pos h10]
    have ht : (Char.ofNat (48 + n)).toNat = 48 + n := toNat_ofNat (Or.inl (by omega))
    rw [ht]
    rw [if_pos (by simp only [Bool.and_eq_true, decide_eq_true_eq]; omega)]
    have he : 48 + n - 48 = n := by omega
    rw [he]
  · rw [if_neg h10]
    have ht : (Char.ofNat (55 + n)).toNat = 55 + n := toNat_ofNat (Or.inl (by omega))
    rw [ht]
    rw [if_neg (by simp only [Bool.and_eq_true, decide_eq_true_eq]; omega)]
    rw [if_pos (by simp only [Bool.and_eq_true, decide_eq_true_eq]; omega)]
    have he : 55 + n - 55 = n := by omega
    rw [he]

lemma hexDigit_toNat {n : Nat} (h : n < 16) :
    (48 ≤ (hexDigit n).toNat ∧ (hexDigit n).toNat ≤ 57) ∨
      (65 ≤ (hexDigit n).toNat ∧ (hexDigit n).toNat ≤ 70) := by
  unfold hexDigit
  by_cases h10 : n < 10
  · rw [if_pos h10, toNat_ofNat (Or.inl (by omega))]
    omega
  · rw [if_neg h10, toNat_ofNat (Or.inl (by omega))]
    omega

lemma utf8Bytes_lt {b : Nat} {c : Char} (h : b ∈ utf8Bytes c) : b < 256 := by
  have hv := char_valid c
  unfold utf8Bytes at h
  by_cases h1 : c.toNat < 128
  · rw [if_pos h1] at h
    rcases List.mem_singleton.mp h with rfl
    omega
  · rw [if_neg h1] at h
    by_cases h2 : c.toNat < 2048
    · rw [if_pos h2] at h
      simp only [List.mem_cons, List.not_mem_nil, or_false] at h
      rcases h with rfl | rfl <;> omega
    · rw [if_neg h2] at h
      by_cases h3 : c.toNat < 65536
      · rw [if_pos h3] at h
        simp only [List.mem_cons, List.not_mem_nil, or_false] at h
        rcases h with rfl | rfl | rfl <;> omega
      · rw [if_neg h3] at h
        simp only [List.mem_cons, List.not_mem_nil, or_false] at h
        rcases h with rfl | rfl | rfl | rfl <;> omega

/-- Where the characters of `quote_plus` output live: digits, letters,
`_ . - ~`, `+`, or `%`. -/
lemma quotePlus_mem_toNat {c' : Char} {s : List Char} (h : c' ∈ quotePlus s) :
    (48 ≤ c'.toNat ∧ c'.toNat ≤ 57) ∨ (65 ≤ c'.toNat ∧ c'.toNat ≤ 90) ∨
    (97 ≤ c'.toNat ∧ c'.toNat ≤ 122) ∨ c'.toNat = 95 ∨ c'.toNat = 46 ∨ c'.toNat = 45 ∨
    c'.toNat = 126 ∨ c'.toNat = 43 ∨ c'.toNat = 37 := by
  unfold quotePlus at h
  rcases List.mem_flatMap.mp h with ⟨c, _, hc⟩
  unfold quotePlusChar at hc
  by_cases hsafe : alwaysSafe c = true
  · rw [if_pos hsafe] at hc
    rcases List.mem_singleton.mp hc with rfl
    unfold alwaysSafe isAsciiAlpha isAsciiDigit at hsafe
    simp only [Bool.or_eq_true, Bool.and_eq_true, decide_eq_true_eq, beq_iff_eq] at hsafe
    rcases hsafe with ((((((h1 | h1) | h1) | h1) | h1) | h1) | h1)
    · omega
    · omega
    · omega
    · rw [h1]; decide
    · rw [h1]; decide
    · rw [h1]; decide
    · rw [h1]; decide
  · rw [if_neg hsafe] at hc
    by_cases hsp : (c == ' ') = true
    · rw [if_pos hsp] at hc
      rcases List.mem_singleton.mp hc with rfl
      decide
    · rw [if_neg hsp] at hc
      rcases List.mem_flatMap.mp hc with ⟨b, hb, hcb⟩
      have hb256 := utf8Bytes_lt hb
      unfold pctEncodeByte at hcb
      simp only [List.mem_cons, List.not_mem_nil, or_false] at hcb
      rcases hcb with rfl | rfl | rfl
      · decide
      · rcases hexDigit_toNat (n := b / 16) (by omega) with h1 | h1
        · omega
        · omega
      · rcases hexDigit_toNat (n := b % 16) (by omega) with h1 | h1
        · omega
        · omega

lemma quotePlus_ne {c' : Char} {s : List Char} (h : c' ∈ quotePlus s) {t : Char}
    (ht : t.toNat < 37 ∨ (38 ≤ t.toNat ∧ t.toNat < 43) ∨ t.toNat = 44 ∨ t.toNat = 47 ∨
      (58 ≤ t.toNat ∧ t.toNat ≤ 64) ∨ (91 ≤ t.toNat ∧ t.toNat ≤ 94) ∨ t.toNat = 96 ∨
      (123 ≤ t.toNat ∧ t.toNat ≤ 125) ∨ 127 ≤ t.toNat) :
    (c' == t) = false := by
  have hm := quotePlus_mem_toNat h
  rcases hb : c' == t with _ | _
  · rfl
  · exfalso
    have he : c' = t := by simpa using hb
    rw [he] at hm
    rcases hm with h1 | h1 | h1 | h1 | h1 | h1 | h1 | h1 | h1 <;>
      rcases ht with h2 | h2 | h2 | h2 | h2 | h2 | h2 | h2 | h2 <;> omega

lemma quotePlus_not_space {c' : Char} {s : List Char} (h : c' ∈ quotePlus s) :
    pyIsSpace c' = false := by
  have hm := quotePlus_mem_toNat h
  rw [Bool.eq_false_iff]
  intro ht
  unfold pyIsSpace at ht
  simp only [Bool.or_eq_true, Bool.and_eq_true, decide_eq_true_eq, beq_iff_eq] at ht
  omega

lemma quotePlus_not_trn {c' : Char} {s : List Char} (h : c' ∈ quotePlus s) :
    isTRN c' = false := by
  have hm := quotePlus_mem_toNat h
  rw [Bool.eq_false_iff]
  intro ht
  unfold isTRN at ht
  simp only [Bool.or_eq_true, beq_iff_eq] at ht
  rcases ht with (h1 | h1) | h1 <;> rw [h1] at hm <;> revert hm <;> decide

lemma quotePlus_not_netlocEnd {c' : Char} {s : List Char} (h : c' ∈ quotePlus s) :
    isNetlocEnd c' = false := by
  have hm := quotePlus_mem_toNat h
  rw [Bool.eq_false_iff]
  intro ht
  unfold isNetlocEnd at ht
  simp only [Bool.or_eq_true, beq_iff_eq] at ht
  rcases ht with (h1 | h1) | h1 <;> rw [h1] at hm <;> revert hm <;> decide


lemma beq_false_of_toNat_ne {a b : Char} (h : a.toNat ≠ b.toNat) : (a == b) = false := by
  rcases hb : a == b with _ | _
  · rfl
  · exact absurd (congrArg Char.toNat (by simpa using hb)) h

lemma unquoteTokens_cons_ascii {c : Char} {l : List Char} (hne : (c == '%') = false)
    (hlt : c.toNat < 128) :
    unquoteTokens (c :: l) = .byte c.toNat :: unquoteTokens l := by
  rcases l with _ | ⟨x, _ | ⟨y, rest⟩⟩
  · simp only [unquoteTokens]
    rw [if_pos hlt]
  · simp only [unquoteTokens]
    rw [if_pos hlt]
  · simp only [unquoteTokens, hne, Bool.false_eq_true, if_false]
    rw [if_pos hlt]

lemma unquoteTokens_pctEncode {b : Nat} (hb : b < 256) (l : List Char) :
    unquoteTokens (pctEncodeByte b ++ l) = .byte b :: unquoteTokens l := by
  show unquoteTokens ('%' :: hexDigit (b / 16) :: hexDigit (b % 16) :: l) = _
  simp only [unquoteTokens]
  rw [if_pos (show ('%' == '%') = true from rfl),
    hexVal_hexDigit (show b / 16 < 16 by omega), hexVal_hexDigit (show b % 16 < 16 by omega)]
  dsimp only
  have he : 16 * (b / 16) + b % 16 = b := by omega
  rw [he]

lemma unquoteTokens_bytes {bs : List Nat} (hb : ∀ b ∈ bs, b < 256) (l : List Char) :
    unquoteTokens (bs.flatMap pctEncodeByte ++ l) = bs.map QTok.byte ++ unquoteTokens l := by
  induction bs with
  | nil => simp
  | cons b bs ih =>
    rw [List.flatMap_cons, List.append_assoc,
      unquoteTokens_pctEncode (hb b (List.mem_cons_self b bs)) _,
      ih (fun x hx => hb x (List.mem_cons.mpr (Or.inr hx))), List.map_cons, List.cons_append]

lemma pct_chunk_ne_plus {x : Char} {b : Nat} (hb : b < 256) (h : x ∈ pctEncodeByte b) :
    (x == '+') = false := by
  unfold pctEncodeByte at h
  simp only [List.mem_cons, List.not_mem_nil, or_false] at h
  rcases h with rfl | rfl | rfl
  · rfl
  · apply beq_false_of_toNat_ne
    rcases hexDigit_toNat (n := b / 16) (by omega) with h1 | h1 <;>
      (intro he; rw [show ('+').toNat = 43 from rfl] at he; omega)
  · apply beq_false_of_toNat_ne
    rcases hexDigit_toNat (n := b % 16) (by omega) with h1 | h1 <;>
      (intro he; rw [show ('+').toNat = 43 from rfl] at he; omega)

lemma alwaysSafe_facts {c : Char} (h : alwaysSafe c = true) :
    c.toNat < 128 ∧ (c == '%') = false ∧ (c == '+') = false ∧ utf8Bytes c = [c.toNat] := by
  have hrange : (48 ≤ c.toNat ∧ c.toNat ≤ 57) ∨ (65 ≤ c.toNat ∧ c.toNat ≤ 90) ∨
      (97 ≤ c.toNat ∧ c.toNat ≤ 122) ∨ c.toNat = 95 ∨ c.toNat = 46 ∨ c.toNat = 45 ∨
      c.toNat = 126 := by
    unfold alwaysSafe isAsciiAlpha isAsciiDigit at h
    simp only [Bool.or_eq_true, Bool.and_eq_true, decide_eq_true_eq, beq_iff_eq] at h
    rcases h with ((((((h1 | h1) | h1) | h1) | h1) | h1) | h1)
    · right; left; exact h1
    · right; right; left; exact h1
    · left; exact h1
    · right; right; right; left; rw [h1]; rfl
    · right; right; right; right; left; rw [h1]; rfl
    · right; right; right; right; right; left; rw [h1]; rfl
    · right; right; right; right; right; right; rw [h1]; rfl
  have hlt : c.toNat < 128 := by
    rcases hrange with h1 | h1 | h1 | h1 | h1 | h1 | h1 <;> omega
  refine ⟨hlt, ?_, ?_, ?_⟩
  · apply beq_false_of_toNat_ne
    intro he
    rw [show ('%').toNat = 37 from rfl] at he
    rcases hrange with h1 | h1 | h1 | h1 | h1 | h1 | h1 <;> omega
  · apply beq_false_of_toNat_ne
    intro he
    rw [show ('+').toNat = 43 from rfl] at he
    rcases hrange with h1 | h1 | h1 | h1 | h1 | h1 | h1 <;> omega
  · unfold utf8Bytes
    rw [if_pos hlt]

lemma unquoteTokens_plusToSpace_quotePlus (s : List Char) :
    unquoteTokens (plusToSpace (quotePlus s))
      = s.flatMap (fun c => (utf8Bytes c).map QTok.byte) := by
  induction s with
  | nil => rfl
  | cons c cs ih =>
    unfold plusToSpace at ih ⊢
    rw [show quotePlus (c :: cs) = quotePlusChar c ++ quotePlus cs from rfl, List.map_append]
    by_cases hsafe : alwaysSafe c = true
    · obtain ⟨hlt, hpct, hplus, hutf⟩ := alwaysSafe_facts hsafe
      have hchunk : quotePlusChar c = [c] := by
        unfold quotePlusChar
        rw [if_pos hsafe]
      have hmap1 : List.map (fun x => if x == '+' then ' ' else x) [c] = [c] := by
        have hne : ((c == '+') = true) → False := by
          rw [hplus]
          exact Bool.false_ne_true
        simp only [List.map_cons, List.map_nil]
        rw [if_neg hne]
      rw [hchunk, hmap1,
        List.singleton_append, unquoteTokens_cons_ascii hpct hlt, ih, List.flatMap_cons, hutf,
        List.map_cons, List.map_nil, List.singleton_append]
    · by_cases hsp : (c == ' ') = true
      · have hceq : c = ' ' := by simpa using hsp
        subst hceq
        rw [show quotePlusChar ' ' = ['+'] from rfl,
          show List.map (fun x => if x == '+' then ' ' else x) ['+'] = [' '] from rfl,
          List.singleton_append, unquoteTokens_cons_ascii (by decide) (by decide), ih,
          List.flatMap_cons]
        rfl
      · have hchunk : quotePlusChar c = (utf8Bytes c).flatMap pctEncodeByte := by
          unfold quotePlusChar
          rw [if_neg hsafe, if_neg hsp]
        rw [hchunk]
        have hcongr : ∀ x ∈ (utf8Bytes c).flatMap pctEncodeByte,
            (fun x => if x == '+' then ' ' else x) x = id x := by
          intro x hx
          rcases List.mem_flatMap.mp hx with ⟨b, hb, hxb⟩
          have hne : ((x == '+') = true) → False := by
            intro hc
            rw [pct_chunk_ne_plus (utf8Bytes_lt hb) hxb] at hc
            exact Bool.false_ne_true hc
          simp only [id]
          rw [if_neg hne]
        rw [List.map_congr_left hcongr, List.map_id,
          unquoteTokens_bytes (fun b hbm => utf8Bytes_lt hbm) _, ih, List.flatMap_cons]


lemma decodeGo_cons (st : Utf8State) (t : QTok) (rest : List QTok) :
    decodeGo st (t :: rest) = (feedTok st t).1 ++ decodeGo (feedTok st t).2 rest := rfl

lemma feedTok_need {k acc lo hi b : Nat} (h : (lo ≤ b && b ≤ hi) = true) :
    feedTok (.need k acc lo hi) (.byte b)
      = (match k with
         | 0 => ([repl], .start)
         | 1 => ([Char.ofNat (acc * 64 + (b - 128))], .start)
         | k' + 1 => ([], .need k' (acc * 64 + (b - 128)) 128 191)) := by
  unfold feedTok
  dsimp only
  rw [if_pos h]

lemma decode1 (b1 : Nat) (ts : List QTok) (h : b1 < 128) :
    decodeGo .start (.byte b1 :: ts) = Char.ofNat b1 :: decodeGo .start ts := by
  have hf : feedTok .start (.byte b1) = ([Char.ofNat b1], .start) := by
    show startByte b1 = _
    unfold startByte
    rw [if_pos h]
  rw [decodeGo_cons, hf]
  rfl

lemma decode2 (b1 b2 : Nat) (ts : List QTok) (h1 : 194 ≤ b1 ∧ b1 ≤ 223)
    (h2 : 128 ≤ b2 ∧ b2 ≤ 191) :
    decodeGo .start (.byte b1 :: .byte b2 :: ts)
      = Char.ofNat ((b1 - 192) * 64 + (b2 - 128)) :: decodeGo .start ts := by
  have hf1 : feedTok .start (.byte b1) = ([], .need 1 (b1 - 192) 128 191) := by
    show startByte b1 = _
    unfold startByte
    rw [if_neg (by omega), if_pos (by simp only [Bool.and_eq_true, decide_eq_true_eq]; omega)]
  have hf2 : feedTok (.need 1 (b1 - 192) 128 191) (.byte b2)
      = ([Char.ofNat ((b1 - 192) * 64 + (b2 - 128))], .start) :=
    feedTok_need (by simp only [Bool.and_eq_true, decide_eq_true_eq]; omega)
  rw [decodeGo_cons, hf1]
  dsimp only
  rw [decodeGo_cons, hf2]
  rfl

lemma decode3 (b1 b2 b3 : Nat) (ts : List QTok)
    (h : (b1 = 224 ∧ 160 ≤ b2 ∧ b2 ≤ 191) ∨ (225 ≤ b1 ∧ b1 ≤ 236 ∧ 128 ≤ b2 ∧ b2 ≤ 191) ∨
      (b1 = 237 ∧ 128 ≤ b2 ∧ b2 ≤ 159) ∨ (238 ≤ b1 ∧ b1 ≤ 239 ∧ 128 ≤ b2 ∧ b2 ≤ 191))
    (h3 : 128 ≤ b3 ∧ b3 ≤ 191) :
    decodeGo .start (.byte b1 :: .byte b2 :: .byte b3 :: ts)
      = Char.ofNat (((b1 - 224) * 64 + (b2 - 128)) * 64 + (b3 - 128)) :: decodeGo .start ts := by
  have hf1 : feedTok .start (.byte b1) = ([], .need 2 (b1 - 224) (if b1 = 224 then 160 else 128)
      (if b1 = 237 then 159 else 191)) := by
    show startByte b1 = _
    unfold startByte
    rcases h with ⟨rfl, -⟩ | ⟨ha, hb, -⟩ | ⟨rfl, -⟩ | ⟨ha, hb, -⟩
    · rw [if_neg (by omega), if_neg (by decide), if_pos (by decide)]
      rfl
    · rw [if_neg (by omega), if_neg (by simp only [Bool.and_eq_true, decide_eq_true_eq]; omega),
        if_neg (by simp only [beq_iff_eq]; omega),
        if_pos (by simp only [Bool.and_eq_true, decide_eq_true_eq]; omega),
        if_neg (by omega), if_neg (by omega)]
    · rw [if_neg (by omega), if_neg (by decide), if_neg (by decide), if_neg (by decide),
        if_pos (by decide)]
      rfl
    · rw [if_neg (by omega), if_neg (by simp only [Bool.and_eq_true, decide_eq_true_eq]; omega),
        if_neg (by simp only [beq_iff_eq]; omega),
        if_neg (by simp only [Bool.and_eq_true, decide_eq_true_eq]; omega),
        if_neg (by simp only [beq_iff_eq]; omega),
        if_pos (by simp only [Bool.and_eq_true, decide_eq_true_eq]; omega),
        if_neg (by omega), if_neg (by omega)]
  have hb2 : 128 ≤ b2 ∧ b2 ≤ 191 := by
    rcases h with ⟨-, hb⟩ | ⟨-, -, hb⟩ | ⟨-, hb⟩ | ⟨-, -, hb⟩ <;> omega
  have hcond : ((if b1 = 224 then 160 else 128) ≤ b2 &&
      b2 ≤ (if b1 = 237 then 159 else 191)) = true := by
    rcases h with ⟨rfl, hb⟩ | ⟨ha, ha2, hb⟩ | ⟨rfl, hb⟩ | ⟨ha, ha2, hb⟩
    · rw [if_pos rfl, if_neg (by omega)]
      simp only [Bool.and_eq_true, decide_eq_true_eq]
      omega
    · rw [if_neg (by omega), if_neg (by omega)]
      simp only [Bool.and_eq_true, decide_eq_true_eq]
      omega
    · rw [if_neg (by decide), if_pos rfl]
      simp only [Bool.and_eq_true, decide_eq_true_eq]
      omega
    · rw [if_neg (by omega), if_neg (by omega)]
      simp only [Bool.and_eq_true, decide_eq_true_eq]
      omega
  have hf2 : feedTok (.need 2 (b1 - 224) (if b1 = 224 then 160 else 128)
        (if b1 = 237 then 159 else 191)) (.byte b2)
      = ([], .need 1 ((b1 - 224) * 64 + (b2 - 128)) 128 191) :=
    feedTok_need hcond
  have hf3 : feedTok (.need 1 ((b1 - 224) * 64 + (b2 - 128)) 128 191) (.byte b3)
      = ([Char.ofNat (((b1 - 224) * 64 + (b2 - 128)) * 64 + (b3 - 128))], .start) :=
    feedTok_need (by simp only [Bool.and_eq_true, decide_eq_true_eq]; omega)
  rw [decodeGo_cons, hf1]
  dsimp only
  rw [decodeGo_cons, hf2]
  dsimp only
  rw [decodeGo_cons, hf3]
  rfl

lemma decode4 (b1 b2 b3 b4 : Nat) (ts : List QTok)
    (h : (b1 = 240 ∧ 144 ≤ b2 ∧ b2 ≤ 191) ∨ (241 ≤ b1 ∧ b1 ≤ 243 ∧ 128 ≤ b2 ∧ b2 ≤ 191) ∨
      (b1 = 244 ∧ 128 ≤ b2 ∧ b2 ≤ 143))
    (h3 : 128 ≤ b3 ∧ b3 ≤ 191) (h4 : 128 ≤ b4 ∧ b4 ≤ 191) :
    decodeGo .start (.byte b1 :: .byte b2 :: .byte b3 :: .byte b4 :: ts)
      = Char.ofNat ((((b1 - 240) * 64 + (b2 - 128)) * 64 + (b3 - 128)) * 64 + (b4 - 128))
          :: decodeGo .start ts := by
  have hf1 : feedTok .start (.byte b1) = ([], .need 3 (b1 - 240) (if b1 = 240 then 144 else 128)
      (if b1 = 244 then 143 else 191)) := by
    show startByte b1 = _
    unfold startByte
    rcases h with ⟨rfl, -⟩ | ⟨ha, hb, -⟩ | ⟨rfl, -⟩
    · rw [if_neg (by omega), if_neg (by decide), if_neg (by decide), if_neg (by decide),
        if_neg (by decide), if_neg (by decide), if_pos (by decide)]
      rfl
    · rw [if_neg (by omega), if_neg (by simp only [Bool.and_eq_true, decide_eq_true_eq]; omega),
        if_neg (by simp only [beq_iff_eq]; omega),
        if_neg (by simp only [Bool.and_eq_true, decide_eq_true_eq]; omega),
        if_neg (by simp only [beq_iff_eq]; omega),
        if_neg (by simp only [Bool.and_eq_true, decide_eq_true_eq]; omega),
        if_neg (by simp only [beq_iff_eq]; omega),
        if_pos (by simp only [Bool.and_eq_true, decide_eq_true_eq]; omega),
        if_neg (by omega), if_neg (by omega)]
    · rw [if_neg (by omega), if_neg (by decide), if_neg (by decide), if_neg (by decide),
        if_neg (by decide), if_neg (by decide), if_neg (by decide), if_neg (by decide),
        if_pos (by decide)]
      rfl
  have hcond : ((if b1 = 240 then 144 else 128) ≤ b2 &&
      b2 ≤ (if b1 = 244 then 143 else 191)) = true := by
    rcases h with ⟨rfl, hb⟩ | ⟨ha, ha2, hb⟩ | ⟨rfl, hb⟩
    · rw [if_pos rfl, if_neg (by omega)]
      simp only [Bool.and_eq_true, decide_eq_true_eq]
      omega
    · rw [if_neg (by omega), if_neg (by omega)]
      simp only [Bool.and_eq_true, decide_eq_true_eq]
      omega
    · rw [if_neg (by decide), if_pos rfl]
      simp only [Bool.and_eq_true, decide_eq_true_eq]
      omega
  have hf2 : feedTok (.need 3 (b1 - 240) (if b1 = 240 then 144 else 128)
        (if b1 = 244 then 143 else 191)) (.byte b2)
      = ([], .need 2 ((b1 - 240) * 64 + (b2 - 128)) 128 191) :=
    feedTok_need hcond
  have hf3 : feedTok (.need 2 ((b1 - 240) * 64 + (b2 - 128)) 128 191) (.byte b3)
      = ([], .need 1 (((b1 - 240) * 64 + (b2 - 128)) * 64 + (b3 - 128)) 128 191) :=
    feedTok_need (by simp only [Bool.and_eq_true, decide_eq_true_eq]; omega)
  have hf4 : feedTok (.need 1 (((b1 - 240) * 64 + (b2 - 128)) * 64 + (b3 - 128)) 128 191)
        (.byte b4)
      = ([Char.ofNat ((((b1 - 240) * 64 + (b2 - 128)) * 64 + (b3 - 128)) * 64 + (b4 - 128))],
          .start) :=
    feedTok_need (by simp only [Bool.and_eq_true, decide_eq_true_eq]; omega)
  rw [decodeGo_cons, hf1]
  dsimp only
  rw [decodeGo_cons, hf2]
  dsimp only
  rw [decodeGo_cons, hf3]
  dsimp only
  rw [decodeGo_cons, hf4]
  rfl


lemma decodeGo_utf8 (c : Char) (ts : List QTok) :
    decodeGo .start ((utf8Bytes c).map QTok.byte ++ ts) = c :: decodeGo .start ts := by
  have hv := char_valid c
  unfold utf8Bytes
  by_cases h1 : c.toNat < 128
  · rw [if_pos h1]
    simp only [List.map_cons, List.map_nil, List.cons_append, List.nil_append]
    rw [decode1 _ _ h1, Char.ofNat_toNat]
  · rw [if_neg h1]
    by_cases h2 : c.toNat < 2048
    · rw [if_pos h2]
      simp only [List.map_cons, List.map_nil, List.cons_append, List.nil_append]
      rw [decode2 _ _ _ (by omega) (by omega)]
      have he : (192 + c.toNat / 64 - 192) * 64 + (128 + c.toNat % 64 - 128) = c.toNat := by
        omega
      rw [he, Char.ofNat_toNat]
    · rw [if_neg h2]
      by_cases h3 : c.toNat < 65536
      · rw [if_pos h3]
        simp only [List.map_cons, List.map_nil, List.cons_append, List.nil_append]
        rw [decode3 _ _ _ _ (by omega) (by omega)]
        have he : ((224 + c.toNat / 4096 - 224) * 64 + (128 + c.toNat / 64 % 64 - 128)) * 64
            + (128 + c.toNat % 64 - 128) = c.toNat := by omega
        rw [he, Char.ofNat_toNat]
      · rw [if_neg h3]
        simp only [List.map_cons, List.map_nil, List.cons_append, List.nil_append]
        rw [decode4 _ _ _ _ _ (by omega) (by omega) (by omega)]
        have he : (((240 + c.toNat / 262144 - 240) * 64 + (128 + c.toNat / 4096 % 64 - 128))
            * 64 + (128 + c.toNat / 64 % 64 - 128)) * 64 + (128 + c.toNat % 64 - 128)
            = c.toNat := by omega
        rw [he, Char.ofNat_toNat]

lemma decodeToks_utf8 (s : List Char) :
    decodeToks (s.flatMap (fun c => (utf8Bytes c).map QTok.byte)) = s := by
  unfold decodeToks
  induction s with
  | nil => rfl
  | cons c cs ih => rw [List.flatMap_cons, decodeGo_utf8, ih]

lemma unquotePlus_quotePlus (s : List Char) : unquotePlus (quotePlus s) = s := by
  unfold unquotePlus unquotePy
  rw [unquoteTokens_plusToSpace_quotePlus]
  exact decodeToks_utf8 s

lemma splitOnCharAux_cons (ch c : Char) (rest acc : List Char) :
    splitOnCharAux ch (c :: rest) acc
      = if (c == ch) = true then acc.reverse :: splitOnCharAux ch rest []
        else splitOnCharAux ch rest (c :: acc) := rfl

lemma splitOnCharAux_no {ch : Char} {l : List Char} (acc : List Char)
    (h : ∀ c ∈ l, (c == ch) = false) :
    splitOnCharAux ch l acc = [acc.reverse ++ l] := by
  induction l generalizing acc with
  | nil => simp [splitOnCharAux]
  | cons c cs ih =>
    rw [splitOnCharAux_cons,
      if_neg (by rw [h c (List.mem_cons_self c cs)]; exact Bool.false_ne_true),
      ih (c :: acc) (fun x hx => h x (List.mem_cons.mpr (Or.inr hx)))]
    simp

lemma splitOnCharAux_split {ch : Char} {l r : List Char} (acc : List Char)
    (h : ∀ c ∈ l, (c == ch) = false) :
    splitOnCharAux ch (l ++ ch :: r) acc
      = (acc.reverse ++ l) :: splitOnCharAux ch r [] := by
  induction l generalizing acc with
  | nil =>
    rw [List.nil_append, splitOnCharAux_cons, if_pos (by simp)]
    simp
  | cons c cs ih =>
    rw [List.cons_append, splitOnCharAux_cons,
      if_neg (by rw [h c (List.mem_cons_self c cs)]; exact Bool.false_ne_true),
      ih (c :: acc) (fun x hx => h x (List.mem_cons.mpr (Or.inr hx)))]
    simp

lemma splitOnChar_no {ch : Char} {l : List Char} (h : ∀ c ∈ l, (c == ch) = false) :
    splitOnChar ch l = [l] := by
  unfold splitOnChar
  rw [splitOnCharAux_no [] h]
  rfl

lemma splitOnChar_split {ch : Char} {l r : List Char} (h : ∀ c ∈ l, (c == ch) = false) :
    splitOnChar ch (l ++ ch :: r) = l :: splitOnChar ch r := by
  unfold splitOnChar
  rw [splitOnCharAux_split [] h]
  rfl

lemma urlencodePy_single (p : List Char × List Char) :
    urlencodePy [p] = quotePlus p.1 ++ '=' :: quotePlus p.2 := by
  simp [urlencodePy, List.intercalate]

lemma urlencodePy_cons (p q : List Char × List Char) (rest : List (List Char × List Char)) :
    urlencodePy (p :: q :: rest)
      = (quotePlus p.1 ++ '=' :: quotePlus p.2) ++ '&' :: urlencodePy (q :: rest) := by
  simp only [urlencodePy, List.map_cons]
  rw [show ∀ a b (r : List (List Char)), List.intercalate ['&'] (a :: b :: r)
      = a ++ ['&'] ++ List.intercalate ['&'] (b :: r) from fun a b r => by
    simp [List.intercalate, List.intersperse]]
  simp

lemma parsePair_render (k v : List Char) :
    parsePair (quotePlus k ++ '=' :: quotePlus v) = (quotePlus k, quotePlus v) := by
  unfold parsePair
  rw [splitOnceChar_exact (fun c hc => quotePlus_ne hc (by decide))]

/-- `parse_qsl(urlencode(pairs))` gives the pairs back. -/
lemma parseQsl_urlencodePy (ps : List (List Char × List Char)) :
    parseQsl (urlencodePy ps) = ps := by
  induction ps with
  | nil => rfl
  | cons p rest ih =>
    rcases rest with _ | ⟨q, rest2⟩
    · unfold parseQsl
      rw [urlencodePy_single,
        splitOnChar_no (fun c hc => by
          rcases List.mem_append.mp hc with h1 | h2
          · exact quotePlus_ne h1 (by decide)
          · rcases List.mem_cons.mp h2 with rfl | h3
            · rfl
            · exact quotePlus_ne h3 (by decide))]
      have hne : (quotePlus p.1 ++ '=' :: quotePlus p.2).isEmpty = false := by
        rcases quotePlus p.1 with _ | ⟨x, xs⟩ <;> rfl
      rw [List.filterMap_cons]
      simp only [hne, Bool.false_eq_true, if_false, parsePair_render, unquotePlus_quotePlus]
      rfl
    · unfold parseQsl at ih ⊢
      rw [urlencodePy_cons,
        splitOnChar_split (fun c hc => by
          rcases List.mem_append.mp hc with h1 | h2
          · exact quotePlus_ne h1 (by decide)
          · rcases List.mem_cons.mp h2 with rfl | h3
            · rfl
            · exact quotePlus_ne h3 (by decide))]
      have hne : (quotePlus p.1 ++ '=' :: quotePlus p.2).isEmpty = false := by
        rcases quotePlus p.1 with _ | ⟨x, xs⟩ <;> rfl
      rw [List.filterMap_cons]
      simp only [hne, Bool.false_eq_true, if_false, parsePair_render, unquotePlus_quotePlus]
      rw [ih]


lemma listCharLt_cons (x y : Char) (xs ys : List Char) :
    listCharLt (x :: xs) (y :: ys) = (decide (x < y) || ((x == y) && listCharLt xs ys)) := rfl

lemma listCharLt_trichotomy (a b : List Char) :
    listCharLt a b = true ∨ a = b ∨ listCharLt b a = true := by
  induction a generalizing b with
  | nil =>
    cases b with
    | nil => exact Or.inr (Or.inl rfl)
    | cons y ys => exact Or.inl rfl
  | cons x xs ih =>
    cases b with
    | nil => exact Or.inr (Or.inr rfl)
    | cons y ys =>
      rcases lt_trichotomy x y with h | h | h
      · left
        rw [listCharLt_cons]
        simp [h]
      · subst h
        rcases ih ys with h1 | h1 | h1
        · left
          rw [listCharLt_cons]
          simp [h1]
        · subst h1
          exact Or.inr (Or.inl rfl)
        · right
          right
          rw [listCharLt_cons]
          simp [h1]
      · right
        right
        rw [listCharLt_cons]
        simp [h]

lemma listCharLt_trans {a b c : List Char} (h1 : listCharLt a b = true)
    (h2 : listCharLt b c = true) : listCharLt a c = true := by
  induction a generalizing b c with
  | nil =>
    cases b with
    | nil => cases h1
    | cons y ys =>
      cases c with
      | nil => cases h2
      | cons z zs => rfl
  | cons x xs ih =>
    cases b with
    | nil => cases h1
    | cons y ys =>
      cases c with
      | nil => cases h2
      | cons z zs =>
        rw [listCharLt_cons] at h1 h2 ⊢
        simp only [Bool.or_eq_true, Bool.and_eq_true, decide_eq_true_eq, beq_iff_eq]
          at h1 h2 ⊢
        rcases h1 with h1 | ⟨he1, ht1⟩
        · rcases h2 with h2 | ⟨he2, ht2⟩
          · exact Or.inl (lt_trans h1 h2)
          · subst he2
            exact Or.inl h1
        · subst he1
          rcases h2 with h2 | ⟨he2, ht2⟩
          · exact Or.inl h2
          · subst he2
            exact Or.inr ⟨rfl, ih ht1 ht2⟩

lemma pairLe_trans (a b c : List Char × List Char) (h1 : pairLe a b = true)
    (h2 : pairLe b c = true) : pairLe a c = true := by
  unfold pairLe at h1 h2 ⊢
  simp only [Bool.or_eq_true, Bool.and_eq_true, beq_iff_eq] at h1 h2 ⊢
  rcases h1 with h1 | ⟨he1, hv1⟩
  · rcases h2 with h2 | ⟨he2, hv2⟩
    · exact Or.inl (listCharLt_trans h1 h2)
    · rw [← he2]
      exact Or.inl h1
  · rw [he1]
    rcases h2 with h2 | ⟨he2, hv2⟩
    · exact Or.inl h2
    · refine Or.inr ⟨he2, ?_⟩
      rcases hv1 with hv1 | hv1
      · rcases hv2 with hv2 | hv2
        · exact Or.inl (listCharLt_trans hv1 hv2)
        · rw [← hv2]
          exact Or.inl hv1
      · rw [hv1]
        exact hv2

lemma pairLe_total (a b : List Char × List Char) : (pairLe a b || pairLe b a) = true := by
  unfold pairLe
  simp only [Bool.or_eq_true, Bool.and_eq_true, beq_iff_eq]
  rcases listCharLt_trichotomy a.1 b.1 with h | h | h
  · exact Or.inl (Or.inl h)
  · rcases listCharLt_trichotomy a.2 b.2 with h2 | h2 | h2
    · exact Or.inl (Or.inr ⟨h, Or.inl h2⟩)
    · exact Or.inl (Or.inr ⟨h, Or.inr h2⟩)
    · exact Or.inr (Or.inr ⟨h.symm, Or.inl h2⟩)
  · exact Or.inr (Or.inl h)


lemma isSchemeChar_facts {c : Char} (h : isSchemeChar c = true) :
    isTRN c = false ∧ (c == ':') = false ∧ isC0OrSpace c = false := by
  unfold isSchemeChar isAsciiAlpha isAsciiDigit at h
  simp only [Bool.or_eq_true, Bool.and_eq_true, decide_eq_true_eq, beq_iff_eq] at h
  have hn : (65 ≤ c.toNat ∧ c.toNat ≤ 90) ∨ (97 ≤ c.toNat ∧ c.toNat ≤ 122) ∨
      (48 ≤ c.toNat ∧ c.toNat ≤ 57) ∨ c.toNat = 43 ∨ c.toNat = 45 ∨ c.toNat = 46 := by
    rcases h with (((((h1 | h1) | h1) | h1) | h1) | h1)
    · exact Or.inl h1
    · exact Or.inr (Or.inl h1)
    · exact Or.inr (Or.inr (Or.inl h1))
    · rw [h1]; exact Or.inr (Or.inr (Or.inr (Or.inl rfl)))
    · rw [h1]; exact Or.inr (Or.inr (Or.inr (Or.inr (Or.inl rfl))))
    · rw [h1]; exact Or.inr (Or.inr (Or.inr (Or.inr (Or.inr rfl))))
  refine ⟨?_, ?_, ?_⟩
  · rw [Bool.eq_false_iff]
    intro ht
    unfold isTRN at ht
    simp only [Bool.or_eq_true, beq_iff_eq] at ht
    rcases ht with (h1 | h1) | h1 <;> rw [h1] at hn <;> revert hn <;> decide
  · apply beq_false_of_toNat_ne
    intro he
    rw [show (':').toNat = 58 from rfl] at he
    omega
  · unfold isC0OrSpace
    rw [Bool.eq_false_iff]
    intro ht
    simp only [decide_eq_true_eq] at ht
    omega

lemma pyLowerChar_flags (c : Char) :
    (isNetlocEnd c = false → isNetlocEnd (pyLowerChar c) = false) ∧
    (isTRN c = false → isTRN (pyLowerChar c) = false) := by
  constructor
  · intro h
    unfold isNetlocEnd at h ⊢
    rw [pyLowerChar_beq_iff (t := '/') (by decide) c, pyLowerChar_beq_iff (t := '?') (by decide) c,
      pyLowerChar_beq_iff (t := '#') (by decide) c]
    exact h
  · intro h
    unfold isTRN at h ⊢
    rw [pyLowerChar_beq_iff (t := '\x09') (by decide) c,
      pyLowerChar_beq_iff (t := '\r') (by decide) c,
      pyLowerChar_beq_iff (t := '\n') (by decide) c]
    exact h

lemma splitNetloc_exact {N rest : List Char} (hN : ∀ c ∈ N, isNetlocEnd c = false)
    (hrest : rest = [] ∨ ∃ c t, rest = c :: t ∧ isNetlocEnd c = true) :
    splitNetloc (N ++ rest) = (N, rest) := by
  unfold splitNetloc
  have h1 : ∀ c ∈ N, (!(isNetlocEnd c)) = true := fun c hc => by rw [hN c hc]; rfl
  rcases hrest with rfl | ⟨c, t, rfl, hc⟩
  · rw [List.append_nil, takeWhile_eq_self h1, dropWhile_eq_nil h1]
  · rw [takeWhile_append_all h1, dropWhile_append_all h1,
      takeWhile_cons_neg (by rw [hc]; rfl), dropWhile_cons_neg (by rw [hc]; rfl),
      List.append_nil]

lemma contains_pyLower {t : Char}
    (ht : t.toNat < 65 ∨ (90 < t.toNat ∧ t.toNat < 97) ∨ 122 < t.toNat)
    (l : List Char) : (pyLowerList l).contains t = l.contains t := by
  rcases h1 : (pyLowerList l).contains t with _ | _ <;>
    rcases h2 : l.contains t with _ | _ <;> try rfl
  · exfalso
    have hm : t ∈ l := List.elem_iff.mp h2
    have hm2 : pyLowerChar t ∈ pyLowerList l := List.mem_map_of_mem pyLowerChar hm
    rw [(pyLowerChar_eq_iff ht t).mpr rfl] at hm2
    have h3 : (pyLowerList l).contains t = true := List.elem_iff.mpr hm2
    rw [h1] at h3
    cases h3
  · exfalso
    have hm : t ∈ pyLowerList l := List.elem_iff.mp h1
    rcases List.mem_map.mp hm with ⟨c, hc, hce⟩
    have := (pyLowerChar_eq_iff ht c).mp hce
    rw [this] at hc
    have h3 : l.contains t = true := List.elem_iff.mpr hc
    rw [h2] at h3
    cases h3

lemma splitOnceChar_pyLower {ch : Char}
    (hch : ch.toNat < 65 ∨ (90 < ch.toNat ∧ ch.toNat < 97) ∨ 122 < ch.toNat)
    (l : List Char) :
    splitOnceChar ch (pyLowerList l)
      = (pyLowerList (splitOnceChar ch l).1, ((splitOnceChar ch l).2).map pyLowerList) := by
  unfold splitOnceChar pyLowerList
  rw [List.dropWhile_map, List.takeWhile_map]
  have hpred : ((fun c => !(c == ch)) ∘ pyLowerChar) = (fun c => !(c == ch)) := by
    funext c
    show (!(pyLowerChar c == ch)) = _
    rw [pyLowerChar_beq_iff hch]
  rw [hpred]
  rcases hdw : List.dropWhile (fun c => !(c == ch)) l with _ | ⟨x, rest⟩
  · rfl
  · rfl


lemma splitOnCharAux_shape (ch : Char) (l acc : List Char) :
    ∃ t, splitOnCharAux ch l acc
      = (acc.reverse ++ l.takeWhile (fun c => !(c == ch))) :: t := by
  induction l generalizing acc with
  | nil => exact ⟨[], by simp [splitOnCharAux]⟩
  | cons c cs ih =>
    rw [splitOnCharAux_cons]
    by_cases hc : (c == ch) = true
    · refine ⟨splitOnCharAux ch cs [], ?_⟩
      rw [if_pos hc, takeWhile_cons_neg (by rw [hc]; rfl)]
      simp
    · have hb : (c == ch) = false := by simpa using hc
      rcases ih (c :: acc) with ⟨t, ht⟩
      refine ⟨t, ?_⟩
      rw [if_neg hc, ht, List.takeWhile_cons, if_pos (by rw [hb]; rfl)]
      simp

lemma splitOnChar_head (ch : Char) (l : List Char) :
    ∃ t, splitOnChar ch l = (l.takeWhile (fun c => !(c == ch))) :: t := by
  rcases splitOnCharAux_shape ch l [] with ⟨t, ht⟩
  exact ⟨t, by simpa using ht⟩

lemma isEmpty_false_of_ne_nil {l : List α} (h : l ≠ []) : l.isEmpty = false := by
  rcases l with _ | ⟨c, cs⟩
  · exact absurd rfl h
  · rfl

lemma ipv6Core_head_bad {l : List Char} {H : List Char} {t : List (List Char)}
    (hsp : splitOnChar ':' l = H :: t) (hH1 : H ≠ []) (hHbad : hextetOk H = false) :
    ipv6Core l = false := by
  have hHe : H.isEmpty = false := isEmpty_false_of_ne_nil hH1
  unfold ipv6Core
  rw [hsp]
  by_cases hlen : (H :: t).length < 3
  · rw [if_pos hlen]
  · rw [if_neg hlen]
    dsimp only
    by_cases hc1 : (((H :: t).getLast?.getD []).contains '.'
        && !(ipv4Ok ((H :: t).getLast?.getD []))) = true
    · rw [if_pos hc1]
    · rw [if_neg hc1]
      have hparts : ∃ P : List (List Char),
          (if ((H :: t).getLast?.getD []).contains '.' = true then
            (H :: t).dropLast ++ [['0'], ['0']] else H :: t) = H :: P := by
        by_cases hip : ((H :: t).getLast?.getD []).contains '.' = true
        · rw [if_pos hip]
          rcases t with _ | ⟨a, t'⟩
          · exfalso
            exact hlen (by simp)
          · exact ⟨(a :: t').dropLast ++ [['0'], ['0']], rfl⟩
        · rw [if_neg hip]
          exact ⟨t, rfl⟩
      rcases hparts with ⟨P, hP⟩
      rw [hP]
      by_cases h9 : (H :: P).length > 9
      · rw [if_pos h9]
      · rw [if_neg h9]
        by_cases hsk1 : ((H :: P).drop 1).dropLast.countP (fun p => p.isEmpty) > 1
        · rw [if_pos hsk1]
        · rw [if_neg hsk1]
          by_cases hsk2 : (((H :: P).drop 1).dropLast.countP (fun p => p.isEmpty) == 1) = true
          · rw [if_pos hsk2]
            rw [show (H :: P).headD [' '] = H from rfl, hHe]
            rw [if_neg (by rw [Bool.false_and]; exact Bool.false_ne_true)]
            by_cases hle : (((H :: P).getLast?.getD [' ']).isEmpty
                && !((H :: P).length - (1 + ((H :: P).drop 1).dropLast.findIdx
                  (fun p => p.isEmpty)) - 1 == 1)) = true
            · rw [if_pos hle]
            · rw [if_neg hle]
              rw [if_neg (show ¬ (false = true) from Bool.false_ne_true)]
              by_cases h81 : 8 - ((1 + ((H :: P).drop 1).dropLast.findIdx (fun p => p.isEmpty))
                  + (if ((H :: P).getLast?.getD [' ']).isEmpty = true then 0
                     else (H :: P).length
                       - (1 + ((H :: P).drop 1).dropLast.findIdx (fun p => p.isEmpty)) - 1)) < 1
              · rw [if_pos h81]
              · rw [if_neg h81]
                rw [show 1 + ((H :: P).drop 1).dropLast.findIdx (fun p => p.isEmpty)
                    = ((H :: P).drop 1).dropLast.findIdx (fun p => p.isEmpty) + 1
                  from Nat.add_comm _ _]
                rw [List.take_succ_cons, List.all_cons, hHbad, Bool.false_and,
                  Bool.false_and]
          · rw [if_neg hsk2]
            rw [show (H :: P).all hextetOk = false from by
              rw [List.all_cons, hHbad, Bool.false_and]]
            rw [Bool.and_false]

lemma isHexChar_pyLower (c : Char) : isHexChar (pyLowerChar c) = isHexChar c := by
  unfold isHexChar hexVal
  unfold pyLowerChar
  by_cases h : (65 ≤ c.toNat && c.toNat ≤ 90) = true
  · rw [if_pos h]
    simp only [Bool.and_eq_true, decide_eq_true_eq] at h
    have ht : (Char.ofNat (c.toNat + 32)).toNat = c.toNat + 32 := toNat_ofNat (Or.inl (by omega))
    rw [ht]
    by_cases h2 : c.toNat ≤ 70
    · rw [if_neg (by simp only [Bool.and_eq_true, decide_eq_true_eq]; omega),
        if_neg (by simp only [Bool.and_eq_true, decide_eq_true_eq]; omega),
        if_pos (by simp only [Bool.and_eq_true, decide_eq_true_eq]; omega),
        if_neg (by simp only [Bool.and_eq_true, decide_eq_true_eq]; omega),
        if_pos (by simp only [Bool.and_eq_true, decide_eq_true_eq]; omega)]
      rfl
    · rw [if_neg (by simp only [Bool.and_eq_true, decide_eq_true_eq]; omega),
        if_neg (by simp only [Bool.and_eq_true, decide_eq_true_eq]; omega),
        if_neg (by simp only [Bool.and_eq_true, decide_eq_true_eq]; omega),
        if_neg (by simp only [Bool.and_eq_true, decide_eq_true_eq]; omega),
        if_neg (by simp only [Bool.and_eq_true, decide_eq_true_eq]; omega),
        if_neg (by simp only [Bool.and_eq_true, decide_eq_true_eq]; omega)]
  · rw [if_neg h]


lemma char_eq_of_toNat {a b : Char} (h : a.toNat = b.toNat) : a = b :=
  Char.eq_of_val_eq (UInt32.ext h)

lemma pyLowerChar_eq_v {c : Char} (h : pyLowerChar c = 'v') : c = 'v' ∨ c = 'V' := by
  unfold pyLowerChar at h
  by_cases hc : (65 ≤ c.toNat && c.toNat ≤ 90) = true
  · rw [if_pos hc] at h
    simp only [Bool.and_eq_true, decide_eq_true_eq] at hc
    have ht : (Char.ofNat (c.toNat + 32)).toNat = c.toNat + 32 := toNat_ofNat (Or.inl (by omega))
    have h2 : c.toNat + 32 = ('v').toNat := by rw [← ht, h]
    right
    refine char_eq_of_toNat ?_
    rw [show ('v').toNat = 118 from rfl] at h2
    rw [show ('V').toNat = 86 from rfl]
    omega
  · rw [if_neg hc] at h
    exact Or.inl h

lemma pyLowerList_isEmpty (l : List Char) : (pyLowerList l).isEmpty = l.isEmpty := by
  rcases l with _ | ⟨c, cs⟩ <;> rfl

lemma pyLowerList_all_isHexChar (l : List Char) :
    (pyLowerList l).all isHexChar = l.all isHexChar := by
  unfold pyLowerList
  rw [List.all_map, show (isHexChar ∘ pyLowerChar) = isHexChar from funext isHexChar_pyLower]

lemma hextetOk_head_not_hex {c : Char} {rest : List Char} (h : isHexChar c = false) :
    hextetOk (c :: rest) = false := by
  unfold hextetOk
  rw [List.all_cons, h, Bool.false_and, Bool.and_false]

lemma ipv6Core_head_not_hex (c : Char) (rest : List Char) (hc : isHexChar c = false)
    (hne : (c == ':') = false) : ipv6Core (c :: rest) = false := by
  obtain ⟨t, hsp⟩ := splitOnChar_head ':' (c :: rest)
  rw [List.takeWhile_cons, if_pos (by rw [hne]; rfl)] at hsp
  exact ipv6Core_head_bad hsp (List.cons_ne_nil _ _) (hextetOk_head_not_hex hc)

lemma ipv6Ok_pyLower (s : List Char) : ipv6Ok (pyLowerList s) = ipv6Ok s := by
  unfold ipv6Ok
  rw [splitOnceChar_pyLower (by decide) s]
  rcases hsp : splitOnceChar '%' s with ⟨addr, _ | scope⟩
  · show ipv6Core (pyLowerList (pyLowerList addr)) = ipv6Core (pyLowerList addr)
    rw [pyLowerList_idem]
  · show (!(pyLowerList scope).isEmpty && !((pyLowerList scope).contains '%')
        && ipv6Core (pyLowerList (pyLowerList addr)))
      = (!scope.isEmpty && !(scope.contains '%') && ipv6Core (pyLowerList addr))
    rw [pyLowerList_idem, contains_pyLower (by decide), pyLowerList_isEmpty]

lemma checkBracketedHost_pyLower {h : List Char} (hh : checkBracketedHost h = true) :
    checkBracketedHost (pyLowerList h) = true := by
  unfold checkBracketedHost at hh ⊢
  rcases h with _ | ⟨c, rest⟩
  · exact hh
  · by_cases hcv : c = 'v'
    · subst hcv
      rw [if_pos (by rfl)] at hh
      have hmap : pyLowerList ('v' :: rest) = 'v' :: pyLowerList rest := by
        unfold pyLowerList
        rw [List.map_cons, show pyLowerChar 'v' = 'v' from by decide]
      rw [hmap, if_pos (by rfl)]
      rw [show ('v' :: pyLowerList rest).drop 1 = pyLowerList rest from rfl]
      rw [show ('v' :: rest).drop 1 = rest from rfl] at hh
      rw [splitOnceChar_pyLower (by decide) rest]
      rcases hsp2 : splitOnceChar '.' rest with ⟨hex, ro⟩
      rw [hsp2] at hh
      rcases ro with _ | r2
      · exact hh
      · show (!(pyLowerList hex).isEmpty && (pyLowerList hex).all isHexChar
            && !(pyLowerList r2).isEmpty) = true
        rw [pyLowerList_isEmpty, pyLowerList_isEmpty, pyLowerList_all_isHexChar]
        exact hh
    · rw [if_neg (fun hcon => hcv (by simpa using hcon))] at hh
      by_cases hcV : pyLowerChar c = 'v'
      · have hcVe : c = 'V' := by
          rcases pyLowerChar_eq_v hcV with h1 | h1
          · exact absurd h1 hcv
          · exact h1
        subst hcVe
        exfalso
        unfold ipv6Ok at hh
        have h1 : (splitOnceChar '%' ('V' :: rest)).1
            = 'V' :: rest.takeWhile (fun c => !(c == '%')) := by
          unfold splitOnceChar
          rcases hdw : List.dropWhile (fun c => !(c == '%')) ('V' :: rest) with _ | ⟨x, r⟩ <;>
            (dsimp only; rw [List.takeWhile_cons, if_pos (by decide)])
        rcases hsp2 : splitOnceChar '%' ('V' :: rest) with ⟨addr, ro⟩
        rw [hsp2] at h1 hh
        have hcore : ipv6Core (pyLowerList addr) = false := by
          rw [show addr = (addr, ro).1 from rfl, h1]
          rw [show pyLowerList ('V' :: rest.takeWhile (fun c => !(c == '%')))
              = 'v' :: pyLowerList (rest.takeWhile (fun c => !(c == '%'))) from by
            unfold pyLowerList
            rw [List.map_cons, show pyLowerChar 'V' = 'v' from by decide]]
          exact ipv6Core_head_not_hex 'v' _ (by decide) (by decide)
        rcases ro with _ | scope
        · dsimp only at hh
          rw [hcore] at hh
          exact Bool.false_ne_true hh
        · dsimp only at hh
          rw [hcore, Bool.and_false] at hh
          exact Bool.false_ne_true hh
      · rw [show pyLowerList (c :: rest) = pyLowerChar c :: pyLowerList rest from rfl]
        rw [if_neg (fun hcon => hcV (by simpa using hcon))]
        rw [show pyLowerChar c :: pyLowerList rest = pyLowerList (c :: rest) from rfl]
        rw [ipv6Ok_pyLower]
        exact hh


lemma splitOnceChar_fst (ch : Char) (l : List Char) :
    (splitOnceChar ch l).1 = l.takeWhile (fun c => !(c == ch)) := by
  unfold splitOnceChar
  rcases List.dropWhile (fun c => !(c == ch)) l with _ | ⟨x, r⟩ <;> rfl

lemma isAsciiAlpha_pyLower {c : Char} (h : isAsciiAlpha c = true) :
    isAsciiAlpha (pyLowerChar c) = true := by
  unfold isAsciiAlpha at h ⊢
  unfold pyLowerChar
  simp only [Bool.or_eq_true, Bool.and_eq_true, decide_eq_true_eq] at h
  by_cases hc : (65 ≤ c.toNat && c.toNat ≤ 90) = true
  · rw [if_pos hc]
    simp only [Bool.and_eq_true, decide_eq_true_eq] at hc
    have ht : (Char.ofNat (c.toNat + 32)).toNat = c.toNat + 32 := toNat_ofNat (Or.inl (by omega))
    simp only [ht, Bool.or_eq_true, Bool.and_eq_true, decide_eq_true_eq]
    omega
  · rw [if_neg hc]
    simp only [Bool.and_eq_true, decide_eq_true_eq, not_and, not_le] at hc
    simp only [Bool.or_eq_true, Bool.and_eq_true, decide_eq_true_eq]
    omega

lemma isSchemeChar_pyLower {c : Char} (h : isSchemeChar c = true) :
    isSchemeChar (pyLowerChar c) = true := by
  unfold isSchemeChar at h ⊢
  simp only [Bool.or_eq_true] at h
  rcases h with (((h1 | h1) | h1) | h1) | h1
  · simp only [Bool.or_eq_true]
    exact Or.inl (Or.inl (Or.inl (Or.inl (isAsciiAlpha_pyLower h1))))
  · have hd : pyLowerChar c = c := by
      unfold isAsciiDigit at h1
      simp only [Bool.and_eq_true, decide_eq_true_eq] at h1
      unfold pyLowerChar
      rw [if_neg (by simp only [Bool.and_eq_true, decide_eq_true_eq]; omega)]
    rw [hd]
    simp only [Bool.or_eq_true]
    exact Or.inl (Or.inl (Or.inl (Or.inr h1)))
  · have he : c = '+' := by simpa using h1
    subst he
    decide
  · have he : c = '-' := by simpa using h1
    subst he
    decide
  · have he : c = '.' := by simpa using h1
    subst he
    decide

lemma alpha_not_space {c : Char} (h : isAsciiAlpha c = true) :
    pyIsSpace c = false ∧ isC0OrSpace c = false := by
  unfold isAsciiAlpha at h
  simp only [Bool.or_eq_true, Bool.and_eq_true, decide_eq_true_eq] at h
  constructor
  · rw [Bool.eq_false_iff]
    intro ht
    unfold pyIsSpace at ht
    simp only [Bool.or_eq_true, Bool.and_eq_true, decide_eq_true_eq, beq_iff_eq] at ht
    omega
  · unfold isC0OrSpace
    rw [Bool.eq_false_iff]
    intro ht
    simp only [decide_eq_true_eq] at ht
    omega

lemma bracketedHostOf_pyLower (nl : List Char) :
    bracketedHostOf (pyLowerList nl) = pyLowerList (bracketedHostOf nl) := by
  unfold bracketedHostOf
  rw [splitOnceChar_pyLower (by decide) nl]
  rcases hsp : splitOnceChar '[' nl with ⟨pre, _ | after⟩
  · rfl
  · show (splitOnceChar ']' (pyLowerList after)).1 = pyLowerList (splitOnceChar ']' after).1
    rw [splitOnceChar_pyLower (by decide) after]

lemma urlencodePy_mem {c : Char} {ps : List (List Char × List Char)}
    (h : c ∈ urlencodePy ps) : (c == '#') = false ∧ (c == '?') = false ∧ isTRN c = false := by
  induction ps with
  | nil => cases h
  | cons p rest ih =>
    rcases rest with _ | ⟨q, rest2⟩
    · rw [urlencodePy_single] at h
      rcases List.mem_append.mp h with h1 | h1
      · exact ⟨quotePlus_ne h1 (by decide), quotePlus_ne h1 (by decide), quotePlus_not_trn h1⟩
      · rcases List.mem_cons.mp h1 with rfl | h2
        · refine ⟨by decide, by decide, by decide⟩
        · exact ⟨quotePlus_ne h2 (by decide), quotePlus_ne h2 (by decide), quotePlus_not_trn h2⟩
    · rw [urlencodePy_cons] at h
      rcases List.mem_append.mp h with h1 | h1
      · rcases List.mem_append.mp h1 with h2 | h2
        · exact ⟨quotePlus_ne h2 (by decide), quotePlus_ne h2 (by decide), quotePlus_not_trn h2⟩
        · rcases List.mem_cons.mp h2 with rfl | h3
          · refine ⟨by decide, by decide, by decide⟩
          · exact ⟨quotePlus_ne h3 (by decide), quotePlus_ne h3 (by decide), quotePlus_not_trn h3⟩
      · rcases List.mem_cons.mp h1 with rfl | h2
        · refine ⟨by decide, by decide, by decide⟩
        · exact ih h2

lemma parseScheme_exact {c : Char} {cs rest : List Char} (ha : isAsciiAlpha c = true)
    (hall : (c :: cs).all isSchemeChar = true) :
    parseScheme ((c :: cs) ++ ':' :: rest) = (pyLowerList (c :: cs), rest) := by
  unfold parseScheme
  have h1 : ∀ x ∈ c :: cs, (!(x == ':')) = true := fun x hx => by
    rw [(isSchemeChar_facts (List.all_eq_true.mp hall x hx)).2.1]
    rfl
  rw [takeWhile_append_all h1, takeWhile_cons_neg (by simp),
    dropWhile_append_all h1, dropWhile_cons_neg (by simp), List.append_nil]
  dsimp only
  rw [if_pos (by rw [ha, hall]; rfl)]

lemma parseScheme_cases (l : List Char) :
    (parseScheme l).1 = [] ∨ ∃ c cs, (parseScheme l).1 = pyLowerList (c :: cs)
      ∧ isAsciiAlpha c = true ∧ (c :: cs).all isSchemeChar = true := by
  unfold parseScheme
  rcases hdw : l.dropWhile (fun x => !(x == ':')) with _ | ⟨d, rest⟩
  · exact Or.inl rfl
  · rcases htw : l.takeWhile (fun x => !(x == ':')) with _ | ⟨c, cs⟩
    · exact Or.inl rfl
    · dsimp only
      by_cases hcond : (isAsciiAlpha c && (c :: cs).all isSchemeChar) = true
      · rw [if_pos hcond]
        simp only [Bool.and_eq_true] at hcond
        exact Or.inr ⟨c, cs, rfl, hcond.1, hcond.2⟩
      · rw [if_neg hcond]
        exact Or.inl rfl

lemma parseScheme_snd_subset (l : List Char) : ∀ c ∈ (parseScheme l).2, c ∈ l := by
  intro c hc
  unfold parseScheme at hc
  rcases hdw : l.dropWhile (fun x => !(x == ':')) with _ | ⟨d, rest⟩
  · rw [hdw] at hc
    exact hc
  · rw [hdw] at hc
    rcases htw : l.takeWhile (fun x => !(x == ':')) with _ | ⟨c2, cs⟩
    · rw [htw] at hc
      exact hc
    · rw [htw] at hc
      dsimp only at hc
      by_cases hcond : (isAsciiAlpha c2 && (c2 :: cs).all isSchemeChar) = true
      · rw [if_pos hcond] at hc
        have hsplit : l = l.takeWhile (fun x => !(x == ':'))
            ++ l.dropWhile (fun x => !(x == ':')) :=
          (List.takeWhile_append_dropWhile _ _).symm
        rw [htw, hdw] at hsplit
        rw [hsplit]
        exact List.mem_append.mpr (Or.inr (List.mem_cons.mpr (Or.inr hc)))
      · rw [if_neg hcond] at hc
        exact hc

lemma urlsplit_props {l0 : List Char} {su : SplitUrl} (h : urlsplitList l0 = some su) :
    ((parseScheme (removeTRN (lstripC0 l0))).1 = su.scheme) ∧
    (su.scheme = [] ∨ ∃ c cs, su.scheme = pyLowerList (c :: cs) ∧ isAsciiAlpha c = true
      ∧ (c :: cs).all isSchemeChar = true) ∧
    (∀ c ∈ su.netloc, isNetlocEnd c = false ∧ isTRN c = false) ∧
    (∀ c ∈ su.path, (c == '#') = false ∧ (c == '?') = false ∧ isTRN c = false) ∧
    (su.netloc.contains '[') = (su.netloc.contains ']') ∧
    (su.netloc.contains '[' = true → checkBracketedHost (bracketedHostOf su.netloc) = true) := by
  unfold urlsplitList at h
  set l1 := removeTRN (lstripC0 l0) with hl1
  set sr := parseScheme l1 with hsr
  set nl := (if sr.2.take 2 == ['/', '/'] then splitNetloc (sr.2.drop 2) else ([], sr.2))
    with hnl
  have hmem1 : ∀ c ∈ l1, isTRN c = false := by
    intro c hc
    rw [hl1] at hc
    have := (List.mem_filter.mp hc).2
    rw [Bool.not_eq_true'] at this
    exact this
  have hmemnl2 : ∀ c ∈ nl.2, c ∈ l1 := by
    intro c hc
    rw [hnl] at hc
    by_cases htk : (sr.2.take 2 == ['/', '/']) = true
    · rw [if_pos htk] at hc
      have hc2 : c ∈ (sr.2.drop 2).dropWhile (fun c => !(isNetlocEnd c)) := hc
      have h2 : c ∈ sr.2.drop 2 := (List.dropWhile_sublist _).subset hc2
      exact parseScheme_snd_subset l1 c (List.drop_subset 2 sr.2 h2)
    · rw [if_neg htk] at hc
      exact parseScheme_snd_subset l1 c hc
  have hmemnl1 : ∀ c ∈ nl.1, isNetlocEnd c = false ∧ isTRN c = false := by
    intro c hc
    rw [hnl] at hc
    by_cases htk : (sr.2.take 2 == ['/', '/']) = true
    · rw [if_pos htk] at hc
      have hc2 : c ∈ (sr.2.drop 2).takeWhile (fun c => !(isNetlocEnd c)) := hc
      have h2 : (!(isNetlocEnd c)) = true :=
        List.mem_takeWhile_imp (p := fun c => !(isNetlocEnd c)) (l := sr.2.drop 2) hc2
      have h3 : c ∈ sr.2.drop 2 := (List.takeWhile_sublist _).subset hc2
      refine ⟨by rwa [Bool.not_eq_true'] at h2, ?_⟩
      exact hmem1 c (parseScheme_snd_subset l1 c (List.drop_subset 2 sr.2 h3))
    · rw [if_neg htk] at hc
      cases hc
  by_cases hg1 : (nl.1.contains '[' != nl.1.contains ']') = true
  · rw [if_pos hg1] at h
    cases h
  · rw [if_neg hg1] at h
    by_cases hg2 : (nl.1.contains '[' && nl.1.contains ']'
        && !(checkBracketedHost (bracketedHostOf nl.1))) = true
    · rw [if_pos hg2] at h
      cases h
    · rw [if_neg hg2] at h
      have hinj := Option.some.inj h
      subst hinj
      refine ⟨rfl, ?_, ?_, ?_, ?_, ?_⟩
      · exact parseScheme_cases l1
      · exact hmemnl1
      · intro c hc
        have hc' : c ∈ ((splitOnceChar '#' nl.2).1).takeWhile (fun x => !(x == '?')) := by
          rw [← splitOnceChar_fst]
          exact hc
        have h2 : (!(c == '?')) = true :=
          List.mem_takeWhile_imp (p := fun x => !(x == '?')) (l := (splitOnceChar '#' nl.2).1) hc'
        have h3 : c ∈ (splitOnceChar '#' nl.2).1 := (List.takeWhile_sublist _).subset hc'
        rw [splitOnceChar_fst] at h3
        have h4 : (!(c == '#')) = true :=
          List.mem_takeWhile_imp (p := fun x => !(x == '#')) (l := nl.2) h3
        have h5 : c ∈ nl.2 := (List.takeWhile_sublist _).subset h3
        refine ⟨by rwa [Bool.not_eq_true'] at h4, by rwa [Bool.not_eq_true'] at h2,
          hmem1 c (hmemnl2 c h5)⟩
      · rcases hb1 : nl.1.contains '[' with _ | _ <;> rcases hb2 : nl.1.contains ']' with _ | _
        · rfl
        · exfalso
          rw [hb1, hb2] at hg1
          exact hg1 rfl
        · exfalso
          rw [hb1, hb2] at hg1
          exact hg1 rfl
        · rfl
      · intro hcb
        rcases hck : checkBracketedHost (bracketedHostOf nl.1) with _ | _
        · exfalso
          rcases hb2 : nl.1.contains ']' with _ | _
          · rw [hcb, hb2] at hg1
            exact hg1 rfl
          · rw [hcb, hb2, hck] at hg2
            exact hg2 rfl
        · rfl


lemma removeTRN_eq_self {l : List Char} (h : ∀ c ∈ l, isTRN c = false) :
    removeTRN l = l := by
  unfold removeTRN
  apply List.filter_eq_self.mpr
  intro c hc
  rw [h c hc]
  rfl

lemma urlsplit_render_core {S N P Q qpart : List Char}
    (hS : ∃ c cs, S = c :: cs ∧ isAsciiAlpha c = true ∧ (c :: cs).all isSchemeChar = true)
    (hSlow : pyLowerList S = S)
    (hN : ∀ c ∈ N, isNetlocEnd c = false ∧ isTRN c = false)
    (hP : P = [] ∨ ∃ ps, P = '/' :: ps)
    (hPch : ∀ c ∈ P, (c == '#') = false ∧ (c == '?') = false ∧ isTRN c = false)
    (hQch : ∀ c ∈ Q, (c == '#') = false ∧ isTRN c = false)
    (hq : (qpart = [] ∧ Q = []) ∨ qpart = '?' :: Q) :
    urlsplitList (S ++ ':' :: '/' :: '/' :: (N ++ (P ++ qpart)))
      = if (N.contains '[' != N.contains ']') = true then none
        else if (N.contains '[' && N.contains ']'
            && !(checkBracketedHost (bracketedHostOf N))) = true then none
        else some ⟨S, N, P, Q, []⟩ := by
  obtain ⟨c, cs, rfl, hca, hall⟩ := hS
  have hc0 : isC0OrSpace c = false := (alpha_not_space hca).2
  have htrnall : ∀ x ∈ (c :: cs) ++ ':' :: '/' :: '/' :: (N ++ (P ++ qpart)),
      isTRN x = false := by
    intro x hx
    rcases List.mem_append.mp hx with hxs | hxr
    · exact (isSchemeChar_facts (List.all_eq_true.mp hall x hxs)).1
    · rcases List.mem_cons.mp hxr with rfl | hxr
      · decide
      · rcases List.mem_cons.mp hxr with rfl | hxr
        · decide
        · rcases List.mem_cons.mp hxr with rfl | hxr
          · decide
          · rcases List.mem_append.mp hxr with hxn | hxpq
            · exact (hN x hxn).2
            · rcases List.mem_append.mp hxpq with hxp | hxq
              · exact (hPch x hxp).2.2
              · rcases hq with ⟨rfl, _⟩ | rfl
                · cases hxq
                · rcases List.mem_cons.mp hxq with rfl | hxq2
                  · decide
                  · exact (hQch x hxq2).2
  have hrest : P ++ qpart = [] ∨ ∃ ch t, P ++ qpart = ch :: t ∧ isNetlocEnd ch = true := by
    rcases hP with rfl | ⟨ps, rfl⟩
    · rcases hq with ⟨rfl, _⟩ | rfl
      · exact Or.inl rfl
      · exact Or.inr ⟨'?', Q, rfl, by decide⟩
    · exact Or.inr ⟨'/', ps ++ qpart, by rw [List.cons_append], by decide⟩
  unfold urlsplitList
  dsimp only
  rw [show lstripC0 ((c :: cs) ++ ':' :: '/' :: '/' :: (N ++ (P ++ qpart)))
      = (c :: cs) ++ ':' :: '/' :: '/' :: (N ++ (P ++ qpart)) from by
    unfold lstripC0
    rw [List.cons_append]
    exact dropWhile_cons_neg hc0]
  rw [removeTRN_eq_self htrnall]
  rw [parseScheme_exact hca hall, hSlow]
  dsimp only
  rw [show (('/' : Char) :: '/' :: (N ++ (P ++ qpart))).take 2 = ['/', '/'] from rfl]
  rw [if_pos (show ((['/', '/'] : List Char) == ['/', '/']) = true from rfl)]
  rw [show (('/' : Char) :: '/' :: (N ++ (P ++ qpart))).drop 2 = N ++ (P ++ qpart) from rfl]
  rw [splitNetloc_exact (fun x hx => (hN x hx).1) hrest]
  dsimp only
  by_cases hg1 : (N.contains '[' != N.contains ']') = true
  · rw [if_pos hg1, if_pos hg1]
  · rw [if_neg hg1, if_neg hg1]
    by_cases hg2 : (N.contains '[' && N.contains ']'
        && !(checkBracketedHost (bracketedHostOf N))) = true
    · rw [if_pos hg2, if_pos hg2]
    · rw [if_neg hg2, if_neg hg2]
      rcases hq with ⟨rfl, rfl⟩ | rfl
      · rw [List.append_nil]
        rw [splitOnceChar_none (fun x hx => (hPch x hx).1)]
        dsimp only
        rw [splitOnceChar_none (fun x hx => (hPch x hx).2.1)]
        rfl
      · rw [show splitOnceChar '#' (P ++ '?' :: Q) = (P ++ '?' :: Q, none) from
          splitOnceChar_none (by
            intro x hx
            rcases List.mem_append.mp hx with hxp | hxq
            · exact (hPch x hxp).1
            · rcases List.mem_cons.mp hxq with rfl | hxq2
              · decide
              · exact (hQch x hxq2).1)]
        dsimp only
        rw [splitOnceChar_exact (fun x hx => (hPch x hx).2.1)]
        rfl

lemma urlsplit_render_noauth {S P Q qpart : List Char}
    (hS : ∃ c cs, S = c :: cs ∧ isAsciiAlpha c = true ∧ (c :: cs).all isSchemeChar = true)
    (hSlow : pyLowerList S = S)
    (hP2 : ((P ++ qpart).take 2 == ['/', '/']) = false)
    (hPch : ∀ c ∈ P, (c == '#') = false ∧ (c == '?') = false ∧ isTRN c = false)
    (hQch : ∀ c ∈ Q, (c == '#') = false ∧ isTRN c = false)
    (hq : (qpart = [] ∧ Q = []) ∨ qpart = '?' :: Q) :
    urlsplitList (S ++ ':' :: (P ++ qpart)) = some ⟨S, [], P, Q, []⟩ := by
  obtain ⟨c, cs, rfl, hca, hall⟩ := hS
  have hc0 : isC0OrSpace c = false := (alpha_not_space hca).2
  have htrnall : ∀ x ∈ (c :: cs) ++ ':' :: (P ++ qpart), isTRN x = false := by
    intro x hx
    rcases List.mem_append.mp hx with hxs | hxr
    · exact (isSchemeChar_facts (List.all_eq_true.mp hall x hxs)).1
    · rcases List.mem_cons.mp hxr with rfl | hxr
      · decide
      · rcases List.mem_append.mp hxr with hxp | hxq
        · exact (hPch x hxp).2.2
        · rcases hq with ⟨rfl, _⟩ | rfl
          · cases hxq
          · rcases List.mem_cons.mp hxq with rfl | hxq2
            · decide
            · exact (hQch x hxq2).2
  unfold urlsplitList
  dsimp only
  rw [show lstripC0 ((c :: cs) ++ ':' :: (P ++ qpart))
      = (c :: cs) ++ ':' :: (P ++ qpart) from by
    unfold lstripC0
    rw [List.cons_append]
    exact dropWhile_cons_neg hc0]
  rw [removeTRN_eq_self htrnall]
  rw [parseScheme_exact hca hall, hSlow]
  dsimp only
  rw [hP2]
  rw [if_neg (show ¬ (false = true) from Bool.false_ne_true)]
  dsimp only
  rw [if_neg (show ¬ ((([] : List Char).contains '[' != ([] : List Char).contains ']') = true)
    from by decide)]
  rw [if_neg (show ¬ ((([] : List Char).contains '[' && ([] : List Char).contains ']'
    && !(checkBracketedHost (bracketedHostOf []))) = true) from by decide)]
  rcases hq with ⟨rfl, rfl⟩ | rfl
  · rw [List.append_nil]
    rw [splitOnceChar_none (fun x hx => (hPch x hx).1)]
    dsimp only
    rw [splitOnceChar_none (fun x hx => (hPch x hx).2.1)]
    rfl
  · rw [show splitOnceChar '#' (P ++ '?' :: Q) = (P ++ '?' :: Q, none) from
      splitOnceChar_none (by
        intro x hx
        rcases List.mem_append.mp hx with hxp | hxq
        · exact (hPch x hxp).1
        · rcases List.mem_cons.mp hxq with rfl | hxq2
          · decide
          · exact (hQch x hxq2).1)]
    dsimp only
    rw [splitOnceChar_exact (fun x hx => (hPch x hx).2.1)]
    rfl


lemma query_pipeline_idem (ps : List (List Char × List Char)) :
    urlencodePy (((parseQsl (urlencodePy ((ps.filter
        (fun p => !(isTracked p.1))).mergeSort pairLe))).filter
          (fun p => !(isTracked p.1))).mergeSort pairLe)
      = urlencodePy ((ps.filter (fun p => !(isTracked p.1))).mergeSort pairLe) := by
  rw [parseQsl_urlencodePy]
  have hf : ((ps.filter (fun p => !(isTracked p.1))).mergeSort pairLe).filter
      (fun p => !(isTracked p.1)) = (ps.filter (fun p => !(isTracked p.1))).mergeSort pairLe := by
    apply List.filter_eq_self.mpr
    intro p hp
    have hp2 : p ∈ ps.filter (fun p => !(isTracked p.1)) :=
      (List.mergeSort_perm (ps.filter (fun p => !(isTracked p.1))) pairLe).subset hp
    exact List.of_mem_filter (p := fun q : List Char × List Char => !(isTracked q.1)) hp2
  rw [hf]
  rw [List.mergeSort_of_sorted
    (List.sorted_mergeSort pairLe_trans pairLe_total (ps.filter (fun p => !(isTracked p.1))))]

lemma strip_of_head_alpha {l : List Char} {c : Char} (hh : l.head? = some c)
    (hc : isAsciiAlpha c = true)
    (hl : ∀ x, l.getLast? = some x → pyIsSpace x = false) : pyStripList l = l := by
  rcases hgl : l.getLast? with _ | x
  · rw [List.getLast?_eq_none_iff.mp hgl] at hh
    cases hh
  · exact pyStripList_eq_self hh (alpha_not_space hc).1 hgl (hl x hgl)

lemma normalize_of_parsed {v : String} {sv : SplitUrl}
    (hv : urlsplitList v.data = some sv)
    (hstrip : pyStripList v.data = v.data)
    (hS : sv.scheme.isEmpty = false)
    (hpath : sv.path = ['/'] ∨ (sv.path ≠ [] ∧ sv.path.getLast? ≠ some '/'))
    (hqrt : urlencodePy (((parseQsl sv.query).filter
        (fun p => !(isTracked p.1))).mergeSort pairLe) = sv.query)
    (hnetlow : pyLowerList sv.netloc = sv.netloc)
    (hrender : urlunsplitList sv.scheme sv.netloc sv.path sv.query [] = v.data) :
    normalizeUrl v = some v := by
  rcases v with ⟨d⟩
  unfold normalizeUrl
  show (normalizeUrlList d).map (fun l => (⟨l⟩ : String)) = some ⟨d⟩
  unfold normalizeUrlList
  rw [show pyStripList d = d from hstrip, show urlsplitList d = some sv from hv]
  dsimp only
  rw [hS]
  rw [if_neg (show ¬ (false = true) from Bool.false_ne_true)]
  have hpne : sv.path.isEmpty = false := by
    rcases hpath with he | ⟨hne, _⟩
    · rw [he]
      rfl
    · exact isEmpty_false_of_ne_nil hne
  rw [hpne]
  rw [if_neg (show ¬ (false = true) from Bool.false_ne_true)]
  have hguard : (!(sv.path == ['/']) && sv.path.getLast? == some '/') = false := by
    rcases hpath with he | ⟨_, hne⟩
    · rw [he]
      rfl
    · rw [show (sv.path.getLast? == some '/') = false from beq_eq_false_iff_ne.mpr hne,
        Bool.and_false]
  rw [hguard]
  rw [if_neg (show ¬ (false = true) from Bool.false_ne_true)]
  rw [hqrt, hnetlow, hrender]
  rfl

lemma urlencodePy_mem_q {c : Char} {ps : List (List Char × List Char)}
    (h : c ∈ urlencodePy ps) : (c == '?') = false := by
  induction ps with
  | nil => cases h
  | cons p rest ih =>
    rcases rest with _ | ⟨q, rest2⟩
    · rw [urlencodePy_single] at h
      rcases List.mem_append.mp h with h1 | h1
      · exact quotePlus_ne h1 (by decide)
      · rcases List.mem_cons.mp h1 with rfl | h2
        · decide
        · exact quotePlus_ne h2 (by decide)
    · rw [urlencodePy_cons] at h
      rcases List.mem_append.mp h with h1 | h1
      · rcases List.mem_append.mp h1 with h2 | h2
        · exact quotePlus_ne h2 (by decide)
        · rcases List.mem_cons.mp h2 with rfl | h3
          · decide
          · exact quotePlus_ne h3 (by decide)
      · rcases List.mem_cons.mp h1 with rfl | h2
        · decide
        · exact ih h2


lemma dropWhile_head_false {p : α → Bool} {l : List α} {x : α} {xs : List α}
    (h : l.dropWhile p = x :: xs) : p x = false := by
  induction l with
  | nil => cases h
  | cons c cs ih =>
    rw [List.dropWhile_cons] at h
    by_cases hc : p c = true
    · rw [if_pos hc] at h
      exact ih h
    · rw [if_neg hc] at h
      have hxc := (List.cons.injEq _ _ _ _).mp h
      rw [← hxc.1]
      exact Bool.eq_false_iff.mpr hc

/-- C7: `normalize_url` applied to its own output returns that output unchanged
(idempotence), under the amended side conditions: the re-split of the output has
a path equal to "/" or nonempty not ending in "/", the output has no trailing
whitespace, its authority is already lowercase, and an empty authority is not
followed by a literal "//" right after the scheme colon. -/
theorem C7_normalize_idempotent (u v : String) (sv : SplitUrl)
    (hu : normalizeUrl u = some v)
    (hv : urlsplitList v.data = some sv)
    (hpath : sv.path = ['/'] ∨ (sv.path ≠ [] ∧ sv.path.getLast? ≠ some '/'))
    (hlast : ∀ c, v.data.getLast? = some c → pyIsSpace c = false)
    (hnetlow : pyLowerList sv.netloc = sv.netloc)
    (hauth : sv.netloc = [] → ¬ ((sv.scheme ++ [':', '/', '/']) <+: v.data)) :
    normalizeUrl v = some v := by
  have hex : ∃ lv, normalizeUrlList u.data = some lv ∧ v.data = lv := by
    unfold normalizeUrl at hu
    rcases hnu : normalizeUrlList u.data with _ | lv
    · rw [hnu] at hu
      cases hu
    · rw [hnu] at hu
      refine ⟨lv, rfl, ?_⟩
      rw [← Option.some.inj hu]
  obtain ⟨lv, hnu, hvdata⟩ := hex
  have hex2 : ∃ su, urlsplitList (pyStripList u.data) = some su ∧
      lv = urlunsplitList
        (if su.scheme.isEmpty then "https".data else su.scheme)
        (pyLowerList su.netloc)
        (if !((if su.path.isEmpty then ['/'] else su.path) == ['/'])
              && (if su.path.isEmpty then ['/'] else su.path).getLast? == some '/'
            then (if su.path.isEmpty then ['/'] else su.path).dropLast
            else (if su.path.isEmpty then ['/'] else su.path))
        (urlencodePy (((parseQsl su.query).filter
            (fun p => !(isTracked p.1))).mergeSort pairLe))
        [] := by
    unfold normalizeUrlList at hnu
    rcases hsp : urlsplitList (pyStripList u.data) with _ | su
    · rw [hsp] at hnu
      cases hnu
    · rw [hsp] at hnu
      exact ⟨su, rfl, (Option.some.inj hnu).symm⟩
  obtain ⟨su, hsp, hlv⟩ := hex2
  obtain ⟨S, hSdef⟩ : ∃ x, (if su.scheme.isEmpty then "https".data else su.scheme) = x :=
    ⟨_, rfl⟩
  obtain ⟨N, hNdef⟩ : ∃ x, pyLowerList su.netloc = x := ⟨_, rfl⟩
  obtain ⟨path0, hp0def⟩ : ∃ x, (if su.path.isEmpty then ['/'] else su.path) = x := ⟨_, rfl⟩
  obtain ⟨SP, hSPdef⟩ : ∃ x,
      ((parseQsl su.query).filter (fun p => !(isTracked p.1))).mergeSort pairLe = x := ⟨_, rfl⟩
  obtain ⟨Q, hQdef⟩ : ∃ x, urlencodePy SP = x := ⟨_, rfl⟩
  rw [hSdef, hNdef, hp0def, hSPdef, hQdef] at hlv
  obtain ⟨P, hPdef⟩ : ∃ x, (if !(path0 == ['/']) && path0.getLast? == some '/'
      then path0.dropLast else path0) = x := ⟨_, rfl⟩
  rw [hPdef] at hlv
  obtain ⟨-, hschcases, hnetprops, hpathprops, hbrprop1, hbrprop2⟩ := urlsplit_props hsp
  have hSall : (∃ c cs, S = c :: cs ∧ isAsciiAlpha c = true
      ∧ (c :: cs).all isSchemeChar = true) ∧ pyLowerList S = S := by
    rcases hse : su.scheme.isEmpty with _ | _
    · rw [hse, if_neg Bool.false_ne_true] at hSdef
      rcases hschcases with hnil | ⟨c, cs, hsc, hca, hall⟩
      · exfalso
        rw [hnil] at hse
        cases hse
      · constructor
        · refine ⟨pyLowerChar c, pyLowerList cs, ?_, isAsciiAlpha_pyLower hca, ?_⟩
          · rw [← hSdef, hsc]
            rfl
          · have hmap : (pyLowerList (c :: cs)).all isSchemeChar = true := by
              apply List.all_eq_true.mpr
              intro x hx
              rcases List.mem_map.mp hx with ⟨y, hy, rfl⟩
              exact isSchemeChar_pyLower (List.all_eq_true.mp hall y hy)
            exact hmap
        · rw [← hSdef, hsc, pyLowerList_idem]
    · rw [hse, if_pos rfl] at hSdef
      constructor
      · exact ⟨'h', ['t', 't', 'p', 's'], by rw [← hSdef], by decide, by decide⟩
      · rw [← hSdef]
        rfl
  obtain ⟨hSfacts, hSlow⟩ := hSall
  have hSfacts2 := hSfacts
  obtain ⟨c, cs, hSeq, hca, hall2⟩ := hSfacts2
  have hSne : S ≠ [] := by
    rw [hSeq]
    exact List.cons_ne_nil _ _
  have hSnemp : S.isEmpty = false := isEmpty_false_of_ne_nil hSne
  have hNfacts : ∀ x ∈ N, isNetlocEnd x = false ∧ isTRN x = false := by
    intro x hx
    rw [← hNdef] at hx
    rcases List.mem_map.mp hx with ⟨y, hy, rfl⟩
    exact ⟨(pyLowerChar_flags y).1 (hnetprops y hy).1,
      (pyLowerChar_flags y).2 (hnetprops y hy).2⟩
  have hbr1 : (N.contains '[') = (N.contains ']') := by
    rw [← hNdef, contains_pyLower (by decide), contains_pyLower (by decide)]
    exact hbrprop1
  have hbr2 : N.contains '[' = true → checkBracketedHost (bracketedHostOf N) = true := by
    rw [← hNdef]
    intro hcb
    rw [contains_pyLower (by decide)] at hcb
    rw [bracketedHostOf_pyLower]
    exact checkBracketedHost_pyLower (hbrprop2 hcb)
  have hp0ne : path0 ≠ [] := by
    rcases hpe : su.path.isEmpty with _ | _
    · rw [hpe, if_neg Bool.false_ne_true] at hp0def
      rw [← hp0def]
      intro hnil
      rw [hnil] at hpe
      cases hpe
    · rw [hpe, if_pos rfl] at hp0def
      rw [← hp0def]
      exact List.cons_ne_nil _ _
  have hp0chars : ∀ x ∈ path0, (x == '#') = false ∧ (x == '?') = false ∧ isTRN x = false := by
    intro x hx
    rcases hpe : su.path.isEmpty with _ | _
    · rw [hpe, if_neg Bool.false_ne_true] at hp0def
      rw [← hp0def] at hx
      exact hpathprops x hx
    · rw [hpe, if_pos rfl] at hp0def
      rw [← hp0def] at hx
      rcases List.mem_singleton.mp hx with rfl
      exact ⟨by decide, by decide, by decide⟩
  have hPchars : ∀ x ∈ P, (x == '#') = false ∧ (x == '?') = false ∧ isTRN x = false := by
    intro x hx
    rw [← hPdef] at hx
    by_cases hg : (!(path0 == ['/']) && path0.getLast? == some '/') = true
    · rw [if_pos hg] at hx
      exact hp0chars x ((List.dropLast_sublist path0).subset hx)
    · rw [if_neg hg] at hx
      exact hp0chars x hx
  have hPne : P ≠ [] := by
    rw [← hPdef]
    by_cases hg : (!(path0 == ['/']) && path0.getLast? == some '/') = true
    · rw [if_pos hg]
      obtain ⟨x, xs, hp0l⟩ := List.exists_cons_of_ne_nil hp0ne
      rcases xs with _ | ⟨y, ys⟩
      · exfalso
        rw [Bool.and_eq_true] at hg
        obtain ⟨hg1, hg2⟩ := hg
        rw [hp0l] at hg1 hg2
        have hx2 : x = '/' := by
          have hsome : some x = some '/' := by simpa using hg2
          exact Option.some.inj hsome
        rw [hx2] at hg1
        exact absurd hg1 (by decide)
      · rw [hp0l]
        intro hnil
        rw [show (x :: y :: ys).dropLast = x :: (y :: ys).dropLast from rfl] at hnil
        cases hnil
    · rw [if_neg hg]
      exact hp0ne
  have hQch : ∀ x ∈ Q, (x == '#') = false ∧ isTRN x = false := by
    intro x hx
    rw [← hQdef] at hx
    exact ⟨(urlencodePy_mem hx).1, (urlencodePy_mem hx).2.2⟩
  have hqrtQ : urlencodePy (((parseQsl Q).filter
      (fun p => !(isTracked p.1))).mergeSort pairLe) = Q := by
    have h := query_pipeline_idem (parseQsl su.query)
    rw [hSPdef, hQdef] at h
    exact h
  obtain ⟨qp, hqp, hq3⟩ : ∃ qp, ((qp = [] ∧ Q = []) ∨ qp = '?' :: Q) ∧
      ∀ X : List Char, (if (!Q.isEmpty) = true then X ++ '?' :: Q else X) = X ++ qp := by
    by_cases hqe : Q.isEmpty = true
    · refine ⟨[], Or.inl ⟨rfl, List.isEmpty_iff.mp hqe⟩, ?_⟩
      intro X
      rw [hqe, show ((!true) : Bool) = false from rfl,
        if_neg Bool.false_ne_true, List.append_nil]
    · have hqf : Q.isEmpty = false := Bool.eq_false_iff.mpr hqe
      refine ⟨'?' :: Q, Or.inr rfl, ?_⟩
      intro X
      rw [hqf, show ((!false) : Bool) = true from rfl, if_pos rfl]
  unfold urlunsplitList at hlv
  dsimp only at hlv
  rw [if_neg (show ¬ ((!(([] : List Char).isEmpty)) = true) from by decide)] at hlv
  rw [hq3] at hlv
  rw [hSnemp, show ((!false) : Bool) = true from rfl, if_pos rfl, Bool.true_and] at hlv
  have hhead : v.data.head? = some c := by
    rw [hvdata, hlv, hSeq]
    rfl
  have hstrip : pyStripList v.data = v.data := strip_of_head_alpha hhead hca hlast
  have hrendb : ∀ N2 P2 : List Char, urlunsplitList S N2 P2 Q []
      = (S ++ ':' :: (if (!N2.isEmpty
            || (usesNetloc.contains S && !(P2.take 2 == ['/', '/']))) = true
          then '/' :: '/' :: (N2 ++ (if (!P2.isEmpty && !(P2.take 1 == ['/'])) = true
            then '/' :: P2 else P2))
          else P2)) ++ qp := by
    intro N2 P2
    unfold urlunsplitList
    dsimp only
    rw [if_neg (show ¬ ((!(([] : List Char).isEmpty)) = true) from by decide)]
    rw [hq3]
    rw [hSnemp, show ((!false) : Bool) = true from rfl, if_pos rfl, Bool.true_and]
  have hmain : ∀ (N2 P2 : List Char),
      urlsplitList lv = some ⟨S, N2, P2, Q, []⟩ →
      urlunsplitList S N2 P2 Q [] = lv →
      normalizeUrl v = some v := by
    intro N2 P2 hparse hrend
    have hv' : urlsplitList lv = some sv := by
      rw [← hvdata]
      exact hv
    have hsv : sv = ⟨S, N2, P2, Q, []⟩ := Option.some.inj (hv'.symm.trans hparse)
    subst hsv
    exact normalize_of_parsed hv hstrip hSnemp hpath hqrtQ hnetlow
      (by rw [hrend, hvdata])
  by_cases hc1 : (!N.isEmpty || (usesNetloc.contains S && !(P.take 2 == ['/', '/']))) = true
  · rw [if_pos hc1] at hlv
    by_cases hpp : (!P.isEmpty && !(P.take 1 == ['/'])) = true
    · rw [if_pos hpp] at hlv
      have hP2ch : ∀ x ∈ ('/' :: P), (x == '#') = false ∧ (x == '?') = false
          ∧ isTRN x = false := by
        intro x hx
        rcases List.mem_cons.mp hx with rfl | hx2
        · exact ⟨by decide, by decide, by decide⟩
        · exact hPchars x hx2
      have hparse : urlsplitList lv = some ⟨S, N, '/' :: P, Q, []⟩ := by
        rw [hlv]
        rw [show (S ++ ':' :: ('/' :: '/' :: (N ++ '/' :: P))) ++ qp
            = S ++ ':' :: '/' :: '/' :: (N ++ (('/' :: P) ++ qp)) from by
          simp [List.append_assoc]]
        rw [urlsplit_render_core hSfacts hSlow hNfacts (Or.inr ⟨P, rfl⟩) hP2ch hQch hqp]
        rw [hbr1, bne_self_eq_false, if_neg Bool.false_ne_true]
        rcases hcb : N.contains ']' with _ | _
        · rw [if_neg (show ¬ ((false && false
              && !(checkBracketedHost (bracketedHostOf N))) = true) from by
            rw [Bool.false_and, Bool.false_and]
            exact Bool.false_ne_true)]
        · have hcb2 : N.contains '[' = true := by
            rw [hbr1]
            exact hcb
          rw [hbr2 hcb2]
          rw [if_neg (show ¬ ((true && true && !true) = true) from by decide)]
      have hrend : urlunsplitList S N ('/' :: P) Q [] = lv := by
        rw [hrendb]
        rw [if_pos (by
          have hc1c := hc1
          rw [Bool.or_eq_true] at hc1c
          rw [Bool.or_eq_true]
          rcases hc1c with h | h
          · exact Or.inl h
          · rw [Bool.and_eq_true] at h
            obtain ⟨hcon, htk⟩ := h
            refine Or.inr ?_
            rw [Bool.and_eq_true]
            refine ⟨hcon, ?_⟩
            rw [show (('/' :: P).take 2) = '/' :: P.take 1 from rfl]
            rw [show ((('/' :: P.take 1) : List Char) == ['/', '/'])
                = (P.take 1 == ['/']) from by
              show (('/' == '/') && (P.take 1 == ['/'])) = _
              rw [show (('/' : Char) == '/') = true from rfl, Bool.true_and]]
            rw [Bool.and_eq_true] at hpp
            exact hpp.2)]
        rw [if_neg (show ¬ ((!(('/' :: P : List Char)).isEmpty
            && !((('/' :: P).take 1) == ['/'])) = true) from by
          rw [show (('/' :: P).take 1) = ['/'] from rfl,
            show ((['/'] : List Char) == ['/']) = true from rfl,
            show ((!true) : Bool) = false from rfl, Bool.and_false]
          exact Bool.false_ne_true)]
        exact hlv.symm
      exact hmain N ('/' :: P) hparse hrend
    · rw [if_neg hpp] at hlv
      have hPhd : ∃ ps, P = '/' :: ps := by
        obtain ⟨x, xs, hPx⟩ := List.exists_cons_of_ne_nil hPne
        have hne : (!P.isEmpty) = true := by
          rw [isEmpty_false_of_ne_nil hPne]
          rfl
        have ht1 : (!(P.take 1 == ['/'])) = false := by
          rcases h2 : (!(P.take 1 == ['/'])) with _ | _
          · rfl
          · exfalso
            exact hpp (by rw [hne, h2, Bool.true_and])
        have ht2 : (P.take 1 == ['/']) = true := by
          rcases h3 : (P.take 1 == ['/']) with _ | _
          · rw [h3] at ht1
            cases ht1
          · rfl
        rw [hPx] at ht2
        have hx2 : x = '/' := by
          have : ([x] : List Char) = ['/'] := by simpa using ht2
          exact (List.cons.injEq _ _ _ _).mp this |>.1
        exact ⟨xs, by rw [hPx, hx2]⟩
      have hparse : urlsplitList lv = some ⟨S, N, P, Q, []⟩ := by
        rw [hlv]
        rw [show (S ++ ':' :: ('/' :: '/' :: (N ++ P))) ++ qp
            = S ++ ':' :: '/' :: '/' :: (N ++ (P ++ qp)) from by
          simp [List.append_assoc]]
        rw [urlsplit_render_core hSfacts hSlow hNfacts (Or.inr hPhd) hPchars hQch hqp]
        rw [hbr1, bne_self_eq_false, if_neg Bool.false_ne_true]
        rcases hcb : N.contains ']' with _ | _
        · rw [if_neg (show ¬ ((false && false
              && !(checkBracketedHost (bracketedHostOf N))) = true) from by
            rw [Bool.false_and, Bool.false_and]
            exact Bool.false_ne_true)]
        · have hcb2 : N.contains '[' = true := by
            rw [hbr1]
            exact hcb
          rw [hbr2 hcb2]
          rw [if_neg (show ¬ ((true && true && !true) = true) from by decide)]
      have hrend : urlunsplitList S N P Q [] = lv := by
        rw [hrendb]
        rw [if_pos hc1]
        rw [if_neg hpp]
        exact hlv.symm
      exact hmain N P hparse hrend
  · rw [if_neg hc1] at hlv
    have hc1f := Bool.or_eq_false_iff.mp (Bool.eq_false_iff.mpr hc1)
    obtain ⟨hc1a, hc1b⟩ := hc1f
    by_cases hb2 : (P.take 2 == ['/', '/']) = true
    · obtain ⟨P3, hP3⟩ : ∃ P3, P = '/' :: '/' :: P3 := by
        obtain ⟨a, t, hPa⟩ := List.exists_cons_of_ne_nil hPne
        rcases t with _ | ⟨b, t2⟩
        · exfalso
          rw [hPa] at hb2
          rw [show (([a] : List Char).take 2) = [a] from rfl] at hb2
          rw [show (([a] : List Char) == ['/', '/'])
              = ((a == '/') && (([] : List Char) == ['/'])) from rfl] at hb2
          rw [show ((([] : List Char)) == ['/']) = false from rfl, Bool.and_false] at hb2
          exact Bool.false_ne_true hb2
        · rw [hPa] at hb2
          rw [show ((a :: b :: t2).take 2) = [a, b] from rfl] at hb2
          rw [show (([a, b] : List Char) == ['/', '/'])
              = ((a == '/') && ((b == '/') && true)) from rfl, Bool.and_true] at hb2
          rw [Bool.and_eq_true] at hb2
          have ha2 : a = '/' := by simpa using hb2.1
          have hb3 : b = '/' := by simpa using hb2.2
          exact ⟨t2, by rw [hPa, ha2, hb3]⟩
      obtain ⟨N', hN'def⟩ : ∃ x, P3.takeWhile (fun ch => !(isNetlocEnd ch)) = x := ⟨_, rfl⟩
      obtain ⟨R, hRdef⟩ : ∃ x, P3.dropWhile (fun ch => !(isNetlocEnd ch)) = x := ⟨_, rfl⟩
      have hsplit3 : P3 = N' ++ R := by
        rw [← hN'def, ← hRdef, List.takeWhile_append_dropWhile]
      have hP3ch : ∀ x ∈ P3, (x == '#') = false ∧ (x == '?') = false ∧ isTRN x = false := by
        intro x hx
        exact hPchars x (by
          rw [hP3]
          exact List.mem_cons.mpr (Or.inr (List.mem_cons.mpr (Or.inr hx))))
      have hN'facts : ∀ x ∈ N', isNetlocEnd x = false ∧ isTRN x = false := by
        intro x hx
        rw [← hN'def] at hx
        refine ⟨?_, (hP3ch x ((List.takeWhile_sublist _).subset hx)).2.2⟩
        have hw := List.mem_takeWhile_imp (p := fun ch => !(isNetlocEnd ch)) (l := P3) hx
        rwa [Bool.not_eq_true'] at hw
      have hRshape : R = [] ∨ ∃ rs, R = '/' :: rs := by
        rcases hR : R with _ | ⟨r, rs⟩
        · exact Or.inl rfl
        · right
          have hrh : isNetlocEnd r = true := by
            have h0 : P3.dropWhile (fun ch => !(isNetlocEnd ch)) = r :: rs := by
              rw [hRdef, hR]
            have hw := dropWhile_head_false h0
            rwa [Bool.not_eq_false'] at hw
          have hrmem : r ∈ P3 := by
            have hm : r ∈ P3.dropWhile (fun ch => !(isNetlocEnd ch)) := by
              rw [hRdef, hR]
              exact List.mem_cons_self r rs
            exact (List.dropWhile_sublist _).subset hm
          have hfacts := hP3ch r hrmem
          unfold isNetlocEnd at hrh
          rw [hfacts.2.1, hfacts.1, Bool.or_false, Bool.or_false] at hrh
          have hr2 : r = '/' := by simpa using hrh
          exact ⟨rs, by rw [hr2]⟩
      have hRch : ∀ x ∈ R, (x == '#') = false ∧ (x == '?') = false ∧ isTRN x = false := by
        intro x hx
        exact hP3ch x (by
          rw [hsplit3]
          exact List.mem_append.mpr (Or.inr hx))
      have hlvc : lv = S ++ ':' :: '/' :: '/' :: (N' ++ (R ++ qp)) := by
        rw [hlv, hP3, hsplit3]
        simp [List.append_assoc]
      have hparse0 := urlsplit_render_core hSfacts hSlow hN'facts hRshape hRch hQch hqp
      have hv' : urlsplitList lv = some sv := by
        rw [← hvdata]
        exact hv
      rw [hlvc, hparse0] at hv'
      by_cases hg1 : (N'.contains '[' != N'.contains ']') = true
      · rw [if_pos hg1] at hv'
        cases hv'
      · rw [if_neg hg1] at hv'
        by_cases hg2 : (N'.contains '[' && N'.contains ']'
            && !(checkBracketedHost (bracketedHostOf N'))) = true
        · rw [if_pos hg2] at hv'
          cases hv'
        · rw [if_neg hg2] at hv'
          by_cases hN'e : N' = []
          · exfalso
            have hsv : sv = ⟨S, N', R, Q, []⟩ := (Option.some.inj hv').symm
            apply hauth (by rw [hsv]; exact hN'e)
            rw [hsv]
            show (S ++ [':', '/', '/']) <+: v.data
            refine ⟨R ++ qp, ?_⟩
            rw [hvdata, hlvc, hN'e]
            simp [List.append_assoc]
          · have hparse : urlsplitList lv = some ⟨S, N', R, Q, []⟩ := by
              rw [hlvc, hparse0, if_neg hg1, if_neg hg2]
            have hrend : urlunsplitList S N' R Q [] = lv := by
              rw [hrendb]
              rw [if_pos (by
                rw [Bool.or_eq_true]
                refine Or.inl ?_
                rw [isEmpty_false_of_ne_nil hN'e]
                rfl)]
              rw [if_neg (show ¬ ((!R.isEmpty && !(R.take 1 == ['/'])) = true) from by
                rcases hRshape with hRn | ⟨rs, hRc⟩
                · rw [hRn, show ((!(([] : List Char)).isEmpty) : Bool) = false from rfl,
                    Bool.false_and]
                  exact Bool.false_ne_true
                · rw [hRc, show (('/' :: rs).take 1) = ['/'] from rfl,
                    show ((['/'] : List Char) == ['/']) = true from rfl,
                    show ((!true) : Bool) = false from rfl, Bool.and_false]
                  exact Bool.false_ne_true)]
              rw [hlvc]
              simp [List.append_assoc]
            exact hmain N' R hparse hrend
    · have htake : ((P ++ qp).take 2 == ['/', '/']) = false := by
        obtain ⟨a, t, hPa⟩ := List.exists_cons_of_ne_nil hPne
        rcases t with _ | ⟨b, t2⟩
        · rw [hPa]
          rcases hqp with ⟨hqpn, _⟩ | hqpc
          · rw [hqpn, List.append_nil]
            rw [show (([a] : List Char).take 2) = [a] from rfl]
            rw [show (([a] : List Char) == ['/', '/'])
                = ((a == '/') && (([] : List Char) == ['/'])) from rfl]
            rw [show ((([] : List Char)) == ['/']) = false from rfl, Bool.and_false]
          · rw [hqpc]
            rw [show ((([a] : List Char) ++ '?' :: Q).take 2) = [a, '?'] from rfl]
            rw [show (([a, '?'] : List Char) == ['/', '/'])
                = ((a == '/') && ((('?' : Char) == '/') && true)) from rfl]
            rw [show ((('?' : Char)) == '/') = false from rfl, Bool.false_and,
              Bool.and_false]
        · have hb2' := Bool.eq_false_iff.mpr hb2
          rw [hPa] at hb2'
          rw [hPa]
          rw [show (((a :: b :: t2) ++ qp).take 2) = [a, b] from rfl]
          rw [show ((a :: b :: t2).take 2) = [a, b] from rfl] at hb2'
          exact hb2'
      have hparse : urlsplitList lv = some ⟨S, [], P, Q, []⟩ := by
        rw [hlv]
        rw [show (S ++ ':' :: P) ++ qp = S ++ ':' :: (P ++ qp) from by
          simp [List.append_assoc]]
        exact urlsplit_render_noauth hSfacts hSlow htake hPchars hQch hqp
      have hrend : urlunsplitList S [] P Q [] = lv := by
        rw [hrendb]
        rw [if_neg (show ¬ ((!(([] : List Char).isEmpty)
            || (usesNetloc.contains S && !(P.take 2 == ['/', '/']))) = true) from by
          rw [show ((!(([] : List Char)).isEmpty) : Bool) = false from rfl,
            Bool.false_or, hc1b]
          exact Bool.false_ne_true)]
        exact hlv.symm
      exact hmain [] P hparse hrend


unseal List.merge List.mergeSort in
/-- C7 counterexample: `normalize_url` is not idempotent on every URL.
Normalizing `https://example.com/path//` yields `https://example.com/path/`
(one trailing-slash drop), and normalizing that output again yields
`https://example.com/path`, a different string. -/
theorem C7_counterexample :
    normalizeUrl "https://example.com/path//" = some "https://example.com/path/" ∧
    normalizeUrl "https://example.com/path/" = some "https://example.com/path" ∧
    ("https://example.com/path/" : String) ≠ "https://example.com/path" := by
  refine ⟨rfl, rfl, by decide⟩

unseal List.merge List.mergeSort in
/-- Witness for the amended C7 theorem at a concrete input: the normalized form
of `HTTPS://Example.COM/a?x=1#f` is `https://example.com/a?x=1`, and normalizing
it again returns it unchanged. -/
theorem C7_normalize_idempotent_witness :
    normalizeUrl "https://example.com/a?x=1" = some "https://example.com/a?x=1" :=
  C7_normalize_idempotent "HTTPS://Example.COM/a?x=1#f" "https://example.com/a?x=1"
    ⟨"https".data, "example.com".data, "/a".data, "x=1".data, []⟩
    (by rfl)
    (by rfl)
    (by decide)
    (fun c hc => by
      have h2 : some '1' = some c := by
        rw [← hc]
        decide
      rw [← Option.some.inj h2]
      decide)
    (by decide)
    (fun h => absurd h (by decide))

end DF
